import Mathlib

/-!
Sphere-tracing renderer: embedding of `main.c`.

The C program works on `float`.  The embedding idealises `float` as a linearly
ordered field `α` (the theorems that need a genuine square root are stated at
`α = ℝ` with `Real.sqrt`); the square root is passed as a function argument so
that every definition stays executable (for instance at `α = ℚ` with any
rational square-root routine).  Rounding, infinities and NaN are outside the
model.  `int` values are `Int` with explicit 32-bit wrap-around.
-/

namespace Raymarcher

/-! ## Data model (`main.c` lines 3-19) -/

/-- The C struct `vec3` (three float components). -/
structure vec3 (α : Type) where
  x : α
  y : α
  z : α
deriving DecidableEq, Repr

/-- The C struct `color` (three float channels). -/
structure color (α : Type) where
  r : α
  g : α
  b : α
deriving DecidableEq, Repr

section Defs

variable {α : Type} [LinearOrderedField α]

/-- The constant `MAX_STEPS`. -/
def MAX_STEPS : Nat := 100

/-- The constant `MAX_DIST`. -/
def MAX_DIST : α := 100.0

/-- The constant `SURF_DIST`. -/
def SURF_DIST : α := 0.001

/-- Componentwise sum, `add` of the source. -/
def add (a b : vec3 α) : vec3 α := ⟨a.x + b.x, a.y + b.y, a.z + b.z⟩

/-- Componentwise difference, `sub` of the source. -/
def sub (a b : vec3 α) : vec3 α := ⟨a.x - b.x, a.y - b.y, a.z - b.z⟩

/-- Scaling by a scalar, `mul` of the source. -/
def mul (a : vec3 α) (s : α) : vec3 α := ⟨a.x * s, a.y * s, a.z * s⟩

/-- Dot product, `dot` of the source. -/
def dot (a b : vec3 α) : α := a.x * b.x + a.y * b.y + a.z * b.z

/-- Euclidean length, `length_vec` of the source. -/
def length_vec (sqrt : α → α) (a : vec3 α) : α := sqrt (a.x * a.x + a.y * a.y + a.z * a.z)

/-- Normalisation, `norm` of the source: `mul(a, 1.0f / l)`. -/
def norm (sqrt : α → α) (a : vec3 α) : vec3 α :=
  let l := length_vec sqrt a
  mul a (1 / l)

/-- The source's `max_f`: `a > b ? a : b`. -/
def max_f (a b : α) : α := if a > b then a else b

/-- The source's `min_f`: `a < b ? a : b`. -/
def min_f (a b : α) : α := if a < b then a else b

/-! ## Distance field primitives (`main.c` lines 21-47) -/

/-- Sphere of radius `r` centred at the origin. -/
def sphereSDF (sqrt : α → α) (p : vec3 α) (r : α) : α := length_vec sqrt p - r

/-- Axis-aligned box with half-extents `b` centred at the origin. -/
def boxSDF (sqrt : α → α) (p b : vec3 α) : α :=
  let q : vec3 α := ⟨|p.x| - b.x, |p.y| - b.y, |p.z| - b.z⟩
  let dx := max_f q.x 0
  let dy := max_f q.y 0
  let dz := max_f q.z 0
  sqrt (dx * dx + dy * dy + dz * dz) + min_f (max_f q.x (max_f q.y q.z)) 0

/-- Capped cylinder of radius `r` and half-height `h` along the y axis. -/
def cylinderSDF (sqrt : α → α) (p : vec3 α) (r h : α) : α :=
  let dx := sqrt (p.x * p.x + p.z * p.z) - r
  let dy := |p.y| - h
  let outside := sqrt (max_f dx 0 * max_f dx 0 + max_f dy 0 * max_f dy 0)
  let inside := min_f (max_f dx dy) 0
  outside + inside

/-- The floor plane `y = -1`. -/
def planeSDF (p : vec3 α) : α := p.y + 1.0

/-! ## Scene evaluator (`main.c` lines 49-75) -/

/-- Distance of the cylinder object at world point `p`. -/
def cylDist (sqrt : α → α) (p : vec3 α) : α :=
  cylinderSDF sqrt (sub p ⟨-2.0, 0.5, 1.0⟩) 0.7 1.5

/-- Distance of the sphere object at world point `p`. -/
def sphDist (sqrt : α → α) (p : vec3 α) : α :=
  sphereSDF sqrt (sub p ⟨0.3, -0.2, -1.5⟩) 0.9

/-- Distance of the box object at world point `p`. -/
def boxDist (sqrt : α → α) (p : vec3 α) : α :=
  boxSDF sqrt (sub p ⟨2.2, -0.2, 0.5⟩) ⟨0.85, 0.85, 0.85⟩

/-- The source's `sceneSDF`: the returned float paired with the value written
through `objID`.  The three `if`s are the strict comparisons of lines 70-72. -/
def sceneSDF (sqrt : α → α) (p : vec3 α) : α × Int :=
  let cyl := cylDist sqrt p
  let sph := sphDist sqrt p
  let box := boxDist sqrt p
  let plane := planeSDF p
  let s0 : α × Int := (cyl, 1)
  let s1 : α × Int := if sph < s0.1 then (sph, 2) else s0
  let s2 : α × Int := if box < s1.1 then (box, 3) else s1
  let s3 : α × Int := if plane < s2.1 then (plane, 4) else s2
  s3

/-- The `for` loop of `softShadow` with `n` iterations left, running penumbra
`res` and ray parameter `t`. -/
def softShadowLoop (sqrt : α → α) (ro rd : vec3 α) (maxt k : α) : Nat → α → α → α
  | 0, res, _ => res
  | n + 1, res, t =>
    let p := add ro (mul rd t)
    let h := (sceneSDF sqrt p).1
    if h < SURF_DIST then 0.0
    else
      let res1 := min_f res (k * h / t)
      let t1 := t + h
      if t1 ≥ maxt then res1 else softShadowLoop sqrt ro rd maxt k n res1 t1

/-- The source's `softShadow`: 32 iterations from `res = 1.0`, `t = mint`. -/
def softShadow (sqrt : α → α) (ro rd : vec3 α) (mint maxt k : α) : α :=
  softShadowLoop sqrt ro rd maxt k 32 1.0 mint

/-- The three ways control leaves the loop of `softShadow`. -/
inductive ShadowExit where
  | occluded
  | reachedMax
  | outOfSteps
deriving DecidableEq, Repr

/-- The loop of `softShadow` again, recording which exit was taken and the ray
parameter reached, next to the value returned. -/
def softShadowExit (sqrt : α → α) (ro rd : vec3 α) (maxt k : α) :
    Nat → α → α → ShadowExit × α × α
  | 0, res, t => (ShadowExit.outOfSteps, res, t)
  | n + 1, res, t =>
    let p := add ro (mul rd t)
    let h := (sceneSDF sqrt p).1
    if h < SURF_DIST then (ShadowExit.occluded, 0.0, t)
    else
      let res1 := min_f res (k * h / t)
      let t1 := t + h
      if t1 ≥ maxt then (ShadowExit.reachedMax, res1, t1)
      else softShadowExit sqrt ro rd maxt k n res1 t1

/-- The `for` loop of `raymarch` with `n` iterations left, accumulated distance
`dist` and current content `objID` of the out-parameter.  The result is the
returned float (`-1.0` for no hit) and the final content of `*objID`. -/
def raymarchLoop (sqrt : α → α) (ro rd : vec3 α) : Nat → α → Int → α × Int
  | 0, _, objID => (-1.0, objID)
  | n + 1, dist, _ =>
    let p := add ro (mul rd dist)
    let s := sceneSDF sqrt p
    if s.1 < SURF_DIST then (dist, s.2)
    else
      let dist1 := dist + s.1
      if dist1 > MAX_DIST then (-1.0, s.2) else raymarchLoop sqrt ro rd n dist1 s.2

/-- The source's `raymarch`; `objID` is the value the caller stored in the
out-parameter before the call. -/
def raymarch (sqrt : α → α) (ro rd : vec3 α) (objID : Int) : α × Int :=
  raymarchLoop sqrt ro rd MAX_STEPS 0.0 objID

/-! ## Shading (`main.c` lines 130-182) -/

/-- Conversion to a 32-bit `int` with wrap-around. -/
def toInt32 (z : Int) : Int := (z + 2 ^ 31) % 2 ^ 32 - 2 ^ 31

/-- The checkerboard test of lines 149-156: the tile colour of the floor at `p`.
`%` of C is the truncating remainder `Int.tmod`. -/
def floorTile [FloorRing α] (p : vec3 α) : color α :=
  let scale : α := 1.0
  let cx : Int := toInt32 ⌊p.x / scale⌋
  let cz : Int := toInt32 ⌊p.z / scale⌋
  if Int.tmod (toInt32 (cx + cz)) 2 = 0 then ⟨0.8, 0.8, 0.8⟩ else ⟨0.5, 0.2, 0.2⟩

/-- The material selection of lines 131-159: base colour, shininess and
reflectivity for an object identifier. -/
def material [FloorRing α] (p : vec3 α) (objID : Int) : color α × α × α :=
  if objID = 1 then (⟨0.2, 0.6, 0.3⟩, 0.6, 0.4)
  else if objID = 2 then (⟨0.7, 0.3, 0.3⟩, 0.8, 0.5)
  else if objID = 3 then (⟨0.3, 0.3, 0.7⟩, 0.7, 0.45)
  else if objID = 4 then (floorTile p, 0.9, 0.3)
  else (⟨0, 0, 0⟩, 0.0, 0.0)

/-- The source's `getColor`; `pow(x, 32.0)` is the 32nd power. -/
def getColor [FloorRing α] (sqrt : α → α) (p : vec3 α) (objID : Int)
    (normal lightDir viewDir reflectColor : vec3 α) (shadow : α) : color α :=
  let m := material p objID
  let col := m.1
  let shininess := m.2.1
  let reflectivity := m.2.2
  let ambient : α := 0.03
  let diff := max_f (dot normal lightDir) 0.0 * shadow
  let halfDir := norm sqrt (add lightDir (mul viewDir (-1)))
  let spec := (max_f (dot normal halfDir) 0.0) ^ 32 * shininess * shadow
  let r := col.r * (ambient + diff * 0.6) + spec * 0.8 + reflectColor.x * reflectivity
  let g := col.g * (ambient + diff * 0.6) + spec * 0.8 + reflectColor.y * reflectivity
  let b := col.b * (ambient + diff * 0.6) + spec * 0.8 + reflectColor.z * reflectivity
  ⟨min_f r 1.0, min_f g 1.0, min_f b 1.0⟩

/-! ## Normals, camera rays and reflection (`main.c` lines 77-100) -/

/-- The vector `n` of `getNormal` before normalisation: the forward differences
of the scene distance with `eps = 0.001`. -/
def getNormalRaw (sqrt : α → α) (p : vec3 α) : vec3 α :=
  let d := (sceneSDF sqrt p).1
  let eps : α := 0.001
  ⟨(sceneSDF sqrt ⟨p.x + eps, p.y, p.z⟩).1 - d,
   (sceneSDF sqrt ⟨p.x, p.y + eps, p.z⟩).1 - d,
   (sceneSDF sqrt ⟨p.x, p.y, p.z + eps⟩).1 - d⟩

/-- The source's `getNormal`: `norm(n)`. -/
def getNormal (sqrt : α → α) (p : vec3 α) : vec3 α := norm sqrt (getNormalRaw sqrt p)

/-- The constant `WIDTH`. -/
def WIDTH : Nat := 1920

/-- The constant `HEIGHT`. -/
def HEIGHT : Nat := 1080

/-- The source's `rayDirection`; the library function `tan` and the constant
`M_PI` are arguments. -/
def rayDirection (sqrt tan : α → α) (pi : α) (fov : α) (x y : Int) : vec3 α :=
  let aspect : α := (WIDTH : α) / (HEIGHT : α)
  let zoom : α := 1.4
  let px := (2 * (((x : α) + 0.5) / (WIDTH : α)) - 1) * tan (fov / 2 * pi / 180) * aspect * zoom
  let py := (1 - 2 * (((y : α) + 0.5) / (HEIGHT : α))) * tan (fov / 2 * pi / 180) * zoom
  norm sqrt ⟨px, py, -1⟩

/-- The source's `reflect_vec`. -/
def reflect_vec (I N : vec3 α) : vec3 α := sub I (mul N (2.0 * dot N I))

/-! ## Frame driver (`main.c` lines 184-257) -/

/-- Base colour times `reflectDiff` of lines 225-240 for the object hit by the
reflection ray; `none` when the identifier is none of 1..4 (the sky colour is
then kept). -/
def reflectShade [FloorRing α] (reflectHitPoint : vec3 α) (reflectObjID : Int)
    (reflectDiff : α) : Option (vec3 α) :=
  if reflectObjID = 1 then some ⟨0.2 * reflectDiff, 0.6 * reflectDiff, 0.3 * reflectDiff⟩
  else if reflectObjID = 2 then some ⟨0.7 * reflectDiff, 0.3 * reflectDiff, 0.3 * reflectDiff⟩
  else if reflectObjID = 3 then some ⟨0.3 * reflectDiff, 0.3 * reflectDiff, 0.7 * reflectDiff⟩
  else if reflectObjID = 4 then
    let scale : α := 1.0
    let cx : Int := toInt32 ⌊reflectHitPoint.x / scale⌋
    let cz : Int := toInt32 ⌊reflectHitPoint.z / scale⌋
    if Int.tmod (toInt32 (cx + cz)) 2 = 0 then
      some ⟨0.8 * reflectDiff, 0.8 * reflectDiff, 0.8 * reflectDiff⟩
    else some ⟨0.5 * reflectDiff, 0.2 * reflectDiff, 0.2 * reflectDiff⟩
  else none

/-- The `reflectDiff` of lines 216-223 at a reflection hit point. -/
def reflectDiffAt (sqrt : α → α) (lightDir reflectHitPoint : vec3 α) : α :=
  let reflectNormal := getNormal sqrt reflectHitPoint
  let reflectShadowOrigin := add reflectHitPoint (mul reflectNormal (SURF_DIST * 2))
  let reflectShadow := softShadow sqrt reflectShadowOrigin lightDir 0.02 10.0 8.0
  max_f (dot reflectNormal lightDir) 0.0 * reflectShadow * 0.6 + 0.03

/-- Lines 210-241 of `main`: the reflection colour for a reflection ray with the
given origin and direction. -/
def reflectionColor [FloorRing α] (sqrt : α → α) (lightDir origin reflectDir : vec3 α) :
    vec3 α :=
  let r := raymarch sqrt origin reflectDir 0
  let reflectT := r.1
  let reflectObjID := r.2
  let sky : vec3 α := ⟨0.02, 0.02, 0.03⟩
  if reflectT > 0 then
    let reflectHitPoint := add origin (mul reflectDir reflectT)
    let reflectDiff := reflectDiffAt sqrt lightDir reflectHitPoint
    match reflectShade reflectHitPoint reflectObjID reflectDiff with
    | some c => c
    | none => sky
  else sky

/-- Lines 194-244 of `main`: the colour of the pixel whose camera ray is
`ro + t*rd`. -/
def pixelColor [FloorRing α] (sqrt : α → α) (ro lightDir rd : vec3 α) : color α :=
  let r := raymarch sqrt ro rd 0
  let t := r.1
  let objID := r.2
  if t > 0 then
    let hitPoint := add ro (mul rd t)
    let normal := getNormal sqrt hitPoint
    let viewDir := rd
    let shadowOrigin := add hitPoint (mul normal (SURF_DIST * 2))
    let shadow := softShadow sqrt shadowOrigin lightDir 0.02 10.0 8.0
    let reflectDir := reflect_vec rd normal
    let reflectColor :=
      reflectionColor sqrt lightDir (add hitPoint (mul normal (SURF_DIST * 2))) reflectDir
    getColor sqrt hitPoint objID normal lightDir viewDir reflectColor shadow
  else ⟨0, 0, 0⟩

/-- Conversion `(int)` of a float: truncation towards zero, then 32-bit wrap. -/
def floatToInt [FloorRing α] (a : α) : Int := toInt32 (if 0 ≤ a then ⌊a⌋ else ⌈a⌉)

/-- Lines 193-248 of `main`: the three integers printed for pixel `(x, y)`. -/
def pixelRGB [FloorRing α] (sqrt tan : α → α) (pi : α) (x y : Int) : Int × Int × Int :=
  let ro : vec3 α := ⟨0, 1.2, 5⟩
  let lightDir := norm sqrt (⟨0.5, 1, 0.5⟩ : vec3 α)
  let rd := rayDirection sqrt tan pi 60 x y
  let col := pixelColor sqrt ro lightDir rd
  (floatToInt (col.r * 255), floatToInt (col.g * 255), floatToInt (col.b * 255))

/-- The text `fprintf(f, "%d %d %d ", r, g, b)` writes for one pixel. -/
def pixelText (c : Int × Int × Int) : String :=
  toString c.1 ++ " " ++ toString c.2.1 ++ " " ++ toString c.2.2 ++ " "

/-- The header `fprintf(f, "P3\n%d %d\n255\n", WIDTH, HEIGHT)` writes. -/
def headerText : String := "P3\n" ++ toString WIDTH ++ " " ++ toString HEIGHT ++ "\n255\n"

/-- The pixel triples in the order of the two nested loops of `main`: one list
per `y` in `0 .. HEIGHT-1`, holding the pixels `x` in `0 .. WIDTH-1`. -/
def renderRows (pix : Int → Int → Int × Int × Int) : List (List (Int × Int × Int)) :=
  (List.range HEIGHT).map
    (fun (y : Nat) => (List.range WIDTH).map (fun (x : Nat) => pix (x : Int) (y : Int)))

/-- The text of one row: its pixels followed by `fprintf(f, "\n")`. -/
def rowText (row : List (Int × Int × Int)) : String :=
  String.join (row.map pixelText) ++ "\n"

/-- Everything `main` writes to `out.ppm`. -/
def outputText (pix : Int → Int → Int × Int × Int) : String :=
  headerText ++ String.join ((renderRows pix).map rowText)

/-- The program's output for given `sqrt`, `tan` and `M_PI`. -/
def mainOutput [FloorRing α] (sqrt tan : α → α) (pi : α) : String :=
  outputText (pixelRGB sqrt tan pi)

end Defs

end Raymarcher

namespace Raymarcher

section Basic

variable {α : Type} [LinearOrderedField α]

theorem max_f_eq_max (a b : α) : max_f a b = max a b := by
  unfold max_f
  by_cases h : a > b
  · rw [if_pos h, max_eq_left (le_of_lt h)]
  · rw [if_neg h, max_eq_right (not_lt.mp h)]

theorem min_f_eq_min (a b : α) : min_f a b = min a b := by
  unfold min_f
  by_cases h : a < b
  · rw [if_pos h, min_eq_left (le_of_lt h)]
  · rw [if_neg h, min_eq_right (not_lt.mp h)]

theorem SURF_DIST_pos : (0 : α) < SURF_DIST := by
  unfold SURF_DIST; norm_num

/-- The identifier written by `sceneSDF`, by cases on the three comparisons. -/
theorem sceneSDF_cases (sqrt : α → α) (p : vec3 α) :
    (sceneSDF sqrt p = (cylDist sqrt p, 1) ∧ cylDist sqrt p ≤ sphDist sqrt p
        ∧ cylDist sqrt p ≤ boxDist sqrt p ∧ cylDist sqrt p ≤ planeSDF p)
    ∨ (sceneSDF sqrt p = (sphDist sqrt p, 2) ∧ sphDist sqrt p < cylDist sqrt p
        ∧ sphDist sqrt p ≤ boxDist sqrt p ∧ sphDist sqrt p ≤ planeSDF p)
    ∨ (sceneSDF sqrt p = (boxDist sqrt p, 3) ∧ boxDist sqrt p < cylDist sqrt p
        ∧ boxDist sqrt p < sphDist sqrt p ∧ boxDist sqrt p ≤ planeSDF p)
    ∨ (sceneSDF sqrt p = (planeSDF p, 4) ∧ planeSDF p < cylDist sqrt p
        ∧ planeSDF p < sphDist sqrt p ∧ planeSDF p < boxDist sqrt p) := by
  unfold sceneSDF
  simp only []
  rcases lt_or_le (sphDist sqrt p) (cylDist sqrt p) with h1 | h1
  · rw [if_pos h1]
    rcases lt_or_le (boxDist sqrt p) (sphDist sqrt p) with h2 | h2
    · rw [if_pos h2]
      rcases lt_or_le (planeSDF p) (boxDist sqrt p) with h3 | h3
      · rw [if_pos h3]
        exact Or.inr (Or.inr (Or.inr ⟨rfl, by linarith, by linarith, by linarith⟩))
      · rw [if_neg (not_lt.mpr h3)]
        exact Or.inr (Or.inr (Or.inl ⟨rfl, by linarith, by linarith, by linarith⟩))
    · rw [if_neg (not_lt.mpr h2)]
      rcases lt_or_le (planeSDF p) (sphDist sqrt p) with h3 | h3
      · rw [if_pos h3]
        exact Or.inr (Or.inr (Or.inr ⟨rfl, by linarith, by linarith, by linarith⟩))
      · rw [if_neg (not_lt.mpr h3)]
        exact Or.inr (Or.inl ⟨rfl, by linarith, by linarith, by linarith⟩)
  · rw [if_neg (not_lt.mpr h1)]
    rcases lt_or_le (boxDist sqrt p) (cylDist sqrt p) with h2 | h2
    · rw [if_pos h2]
      rcases lt_or_le (planeSDF p) (boxDist sqrt p) with h3 | h3
      · rw [if_pos h3]
        exact Or.inr (Or.inr (Or.inr ⟨rfl, by linarith, by linarith, by linarith⟩))
      · rw [if_neg (not_lt.mpr h3)]
        exact Or.inr (Or.inr (Or.inl ⟨rfl, by linarith, by linarith, by linarith⟩))
    · rw [if_neg (not_lt.mpr h2)]
      rcases lt_or_le (planeSDF p) (cylDist sqrt p) with h3 | h3
      · rw [if_pos h3]
        exact Or.inr (Or.inr (Or.inr ⟨rfl, by linarith, by linarith, by linarith⟩))
      · rw [if_neg (not_lt.mpr h3)]
        exact Or.inl ⟨rfl, by linarith, by linarith, by linarith⟩

/-- The float returned by `sceneSDF` is the minimum of the four distances. -/
theorem sceneSDF_fst (sqrt : α → α) (p : vec3 α) :
    (sceneSDF sqrt p).1
      = min (min (min (cylDist sqrt p) (sphDist sqrt p)) (boxDist sqrt p)) (planeSDF p) := by
  rcases sceneSDF_cases sqrt p with ⟨h, a, b, c⟩ | ⟨h, a, b, c⟩ | ⟨h, a, b, c⟩ | ⟨h, a, b, c⟩
  · rw [h, min_eq_left a, min_eq_left b, min_eq_left c]
  · rw [h, min_eq_right (le_of_lt a), min_eq_left b, min_eq_left c]
  · rw [h, min_eq_right (le_trans (le_min (le_of_lt a) (le_of_lt b)) le_rfl), min_eq_left c]
  · rw [h, min_eq_right (le_min (le_min (le_of_lt a) (le_of_lt b)) (le_of_lt c))]

theorem sceneSDF_le_cyl (sqrt : α → α) (p : vec3 α) : (sceneSDF sqrt p).1 ≤ cylDist sqrt p := by
  rw [sceneSDF_fst]
  exact le_trans (min_le_left _ _) (le_trans (min_le_left _ _) (min_le_left _ _))

theorem sceneSDF_le_sph (sqrt : α → α) (p : vec3 α) : (sceneSDF sqrt p).1 ≤ sphDist sqrt p := by
  rw [sceneSDF_fst]
  exact le_trans (min_le_left _ _) (le_trans (min_le_left _ _) (min_le_right _ _))

theorem sceneSDF_le_box (sqrt : α → α) (p : vec3 α) : (sceneSDF sqrt p).1 ≤ boxDist sqrt p := by
  rw [sceneSDF_fst]
  exact le_trans (min_le_left _ _) (min_le_right _ _)

theorem sceneSDF_le_plane (sqrt : α → α) (p : vec3 α) : (sceneSDF sqrt p).1 ≤ planeSDF p := by
  rw [sceneSDF_fst]
  exact min_le_right _ _

end Basic

section Scene

variable {α : Type} [LinearOrderedField α]

/-- C1: for every point `p` the float returned by `sceneSDF` is the minimum of the
four primitive distances (cylinder, sphere, box, plane, each evaluated at `p`
minus the object's centre with the sizes of the source), and the identifier
written is 1, 2, 3 or 4 and names a primitive whose distance equals that
minimum. -/
theorem C1_sceneSDF_min_and_id (sqrt : α → α) (p : vec3 α) :
    (sceneSDF sqrt p).1
        = min (min (min (cylinderSDF sqrt (sub p ⟨-2.0, 0.5, 1.0⟩) 0.7 1.5)
                        (sphereSDF sqrt (sub p ⟨0.3, -0.2, -1.5⟩) 0.9))
                   (boxSDF sqrt (sub p ⟨2.2, -0.2, 0.5⟩) ⟨0.85, 0.85, 0.85⟩))
              (p.y + 1)
    ∧ (((sceneSDF sqrt p).2 = 1
          ∧ cylinderSDF sqrt (sub p ⟨-2.0, 0.5, 1.0⟩) 0.7 1.5 = (sceneSDF sqrt p).1)
        ∨ ((sceneSDF sqrt p).2 = 2
          ∧ sphereSDF sqrt (sub p ⟨0.3, -0.2, -1.5⟩) 0.9 = (sceneSDF sqrt p).1)
        ∨ ((sceneSDF sqrt p).2 = 3
          ∧ boxSDF sqrt (sub p ⟨2.2, -0.2, 0.5⟩) ⟨0.85, 0.85, 0.85⟩ = (sceneSDF sqrt p).1)
        ∨ ((sceneSDF sqrt p).2 = 4 ∧ p.y + 1 = (sceneSDF sqrt p).1)) := by
  have hplane : planeSDF p = p.y + 1 := by unfold planeSDF; norm_num
  refine ⟨?_, ?_⟩
  · rw [sceneSDF_fst, hplane]; rfl
  · rcases sceneSDF_cases sqrt p with ⟨h, -⟩ | ⟨h, -⟩ | ⟨h, -⟩ | ⟨h, -⟩
    · exact Or.inl (by rw [h]; exact ⟨rfl, rfl⟩)
    · exact Or.inr (Or.inl (by rw [h]; exact ⟨rfl, rfl⟩))
    · exact Or.inr (Or.inr (Or.inl (by rw [h]; exact ⟨rfl, rfl⟩)))
    · exact Or.inr (Or.inr (Or.inr (by rw [h]; exact ⟨rfl, hplane.symm⟩)))

end Scene

section RealGeometry

/-! ## Euclidean facts used for the real-number instance -/

theorem sqrt3_tri (x1 x2 x3 y1 y2 y3 : ℝ) :
    Real.sqrt (x1 * x1 + x2 * x2 + x3 * x3)
      ≤ Real.sqrt (y1 * y1 + y2 * y2 + y3 * y3)
        + Real.sqrt ((x1 - y1) * (x1 - y1) + (x2 - y2) * (x2 - y2) + (x3 - y3) * (x3 - y3)) := by
  set Y := y1 * y1 + y2 * y2 + y3 * y3 with hY
  set Z := (x1 - y1) * (x1 - y1) + (x2 - y2) * (x2 - y2) + (x3 - y3) * (x3 - y3) with hZ
  have hYn : 0 ≤ Y := by rw [hY]; nlinarith [mul_self_nonneg y1, mul_self_nonneg y2, mul_self_nonneg y3]
  have hZn : 0 ≤ Z := by
    rw [hZ]; nlinarith [mul_self_nonneg (x1 - y1), mul_self_nonneg (x2 - y2), mul_self_nonneg (x3 - y3)]
  have hcs : y1 * (x1 - y1) + y2 * (x2 - y2) + y3 * (x3 - y3) ≤ Real.sqrt Y * Real.sqrt Z := by
    rw [← Real.sqrt_mul hYn]
    apply Real.le_sqrt_of_sq_le
    rw [hY, hZ]
    nlinarith [sq_nonneg (y1 * (x2 - y2) - y2 * (x1 - y1)), sq_nonneg (y1 * (x3 - y3) - y3 * (x1 - y1)),
      sq_nonneg (y2 * (x3 - y3) - y3 * (x2 - y2))]
  apply Real.sqrt_le_iff.mpr
  refine ⟨add_nonneg (Real.sqrt_nonneg _) (Real.sqrt_nonneg _), ?_⟩
  have e1 : (Real.sqrt Y + Real.sqrt Z) ^ 2 = Y + Z + 2 * (Real.sqrt Y * Real.sqrt Z) := by
    have := Real.sq_sqrt hYn
    have := Real.sq_sqrt hZn
    nlinarith
  rw [e1, hY, hZ]
  rw [hY, hZ] at hcs
  nlinarith

theorem sqrt3_mono {x1 x2 x3 y1 y2 y3 : ℝ} (h1 : |x1| ≤ |y1|) (h2 : |x2| ≤ |y2|) (h3 : |x3| ≤ |y3|) :
    Real.sqrt (x1 * x1 + x2 * x2 + x3 * x3) ≤ Real.sqrt (y1 * y1 + y2 * y2 + y3 * y3) := by
  apply Real.sqrt_le_sqrt
  have a1 := sq_le_sq.mpr h1
  have a2 := sq_le_sq.mpr h2
  have a3 := sq_le_sq.mpr h3
  show x1 * x1 + x2 * x2 + x3 * x3 ≤ y1 * y1 + y2 * y2 + y3 * y3
  nlinarith

theorem sqrt2_tri (x1 x2 y1 y2 : ℝ) :
    Real.sqrt (x1 * x1 + x2 * x2)
      ≤ Real.sqrt (y1 * y1 + y2 * y2) + Real.sqrt ((x1 - y1) * (x1 - y1) + (x2 - y2) * (x2 - y2)) := by
  have h := sqrt3_tri x1 x2 0 y1 y2 0
  simpa using h

theorem sqrt2_mono {x1 x2 y1 y2 : ℝ} (h1 : |x1| ≤ |y1|) (h2 : |x2| ≤ |y2|) :
    Real.sqrt (x1 * x1 + x2 * x2) ≤ Real.sqrt (y1 * y1 + y2 * y2) := by
  have h := sqrt3_mono h1 h2 (le_refl |(0:ℝ)|)
  simpa using h

theorem comp_sq_lower (a b m : ℝ) (hm : 0 ≤ m) (hb : b ≤ -m) :
    max a 0 * max a 0 + 2 * m * max a 0 ≤ (a - b) * (a - b)
    ∧ (0 < a → max a 0 * max a 0 + 2 * m * max a 0 + m * m ≤ (a - b) * (a - b)) := by
  rcases le_or_lt a 0 with ha | ha
  · rw [max_eq_right ha]
    refine ⟨by nlinarith [mul_self_nonneg (a - b)], fun h => absurd h (not_lt.mpr ha)⟩
  · rw [max_eq_left (le_of_lt ha)]
    have h : a + m ≤ a - b := by linarith
    have h0 : 0 ≤ a + m := by linarith
    have h2 : (a + m) * (a + m) ≤ (a - b) * (a - b) := mul_self_le_mul_self h0 h
    refine ⟨by nlinarith, fun _ => by nlinarith⟩

theorem core3_lip (a1 a2 a3 b1 b2 b3 : ℝ) :
    Real.sqrt (max a1 0 * max a1 0 + max a2 0 * max a2 0 + max a3 0 * max a3 0)
        + min (max a1 (max a2 a3)) 0
      ≤ Real.sqrt (max b1 0 * max b1 0 + max b2 0 * max b2 0 + max b3 0 * max b3 0)
        + min (max b1 (max b2 b3)) 0
        + Real.sqrt ((a1 - b1) * (a1 - b1) + (a2 - b2) * (a2 - b2) + (a3 - b3) * (a3 - b3)) := by
  set D := Real.sqrt ((a1 - b1) * (a1 - b1) + (a2 - b2) * (a2 - b2) + (a3 - b3) * (a3 - b3))
    with hD
  have hDn : 0 ≤ D := Real.sqrt_nonneg _
  have hD1 : |a1 - b1| ≤ D :=
    Real.abs_le_sqrt (by nlinarith [mul_self_nonneg (a2 - b2), mul_self_nonneg (a3 - b3)])
  have hD2 : |a2 - b2| ≤ D :=
    Real.abs_le_sqrt (by nlinarith [mul_self_nonneg (a1 - b1), mul_self_nonneg (a3 - b3)])
  have hD3 : |a3 - b3| ≤ D :=
    Real.abs_le_sqrt (by nlinarith [mul_self_nonneg (a1 - b1), mul_self_nonneg (a2 - b2)])
  have hSb : 0 ≤ Real.sqrt (max b1 0 * max b1 0 + max b2 0 * max b2 0 + max b3 0 * max b3 0) :=
    Real.sqrt_nonneg _
  rcases le_or_lt (max a1 (max a2 a3)) 0 with hA | hA
  · have ha1 : a1 ≤ 0 := le_trans (le_max_left _ _) hA
    have ha2 : a2 ≤ 0 := le_trans (le_trans (le_max_left _ _) (le_max_right _ _)) hA
    have ha3 : a3 ≤ 0 := le_trans (le_trans (le_max_right _ _) (le_max_right _ _)) hA
    rw [max_eq_right ha1, max_eq_right ha2, max_eq_right ha3, min_eq_left hA]
    simp only [mul_zero, add_zero, Real.sqrt_zero, zero_add]
    rcases le_or_lt (max b1 (max b2 b3)) 0 with hB | hB
    · have hb1 : b1 ≤ 0 := le_trans (le_max_left _ _) hB
      have hb2 : b2 ≤ 0 := le_trans (le_trans (le_max_left _ _) (le_max_right _ _)) hB
      have hb3 : b3 ≤ 0 := le_trans (le_trans (le_max_right _ _) (le_max_right _ _)) hB
      rw [max_eq_right hb1, max_eq_right hb2, max_eq_right hb3, min_eq_left hB]
      simp only [mul_zero, add_zero, Real.sqrt_zero, zero_add]
      have k1 : b1 ≤ max b1 (max b2 b3) := le_max_left _ _
      have k2 : b2 ≤ max b1 (max b2 b3) := le_trans (le_max_left _ _) (le_max_right _ _)
      have k3 : b3 ≤ max b1 (max b2 b3) := le_trans (le_max_right _ _) (le_max_right _ _)
      have := le_abs_self (a1 - b1)
      have := le_abs_self (a2 - b2)
      have := le_abs_self (a3 - b3)
      refine max_le ?_ (max_le ?_ ?_) <;> linarith
    · rw [min_eq_right (le_of_lt hB)]
      linarith
  · rw [min_eq_right (le_of_lt hA), add_zero]
    rcases le_or_lt (max b1 (max b2 b3)) 0 with hB | hB
    · have hb1 : b1 ≤ max b1 (max b2 b3) := le_max_left _ _
      have hb2 : b2 ≤ max b1 (max b2 b3) := le_trans (le_max_left _ _) (le_max_right _ _)
      have hb3 : b3 ≤ max b1 (max b2 b3) := le_trans (le_max_right _ _) (le_max_right _ _)
      rw [max_eq_right (le_trans hb1 hB), max_eq_right (le_trans hb2 hB),
        max_eq_right (le_trans hb3 hB), min_eq_left hB]
      simp only [mul_zero, add_zero, Real.sqrt_zero, zero_add]
      set m := -(max b1 (max b2 b3)) with hm
      have hm0 : 0 ≤ m := by rw [hm]; linarith
      obtain ⟨c1, e1⟩ := comp_sq_lower a1 b1 m hm0 (by rw [hm]; linarith)
      obtain ⟨c2, e2⟩ := comp_sq_lower a2 b2 m hm0 (by rw [hm]; linarith)
      obtain ⟨c3, e3⟩ := comp_sq_lower a3 b3 m hm0 (by rw [hm]; linarith)
      have u1 : 0 ≤ max a1 0 := le_max_right _ _
      have u2 : 0 ≤ max a2 0 := le_max_right _ _
      have u3 : 0 ≤ max a3 0 := le_max_right _ _
      set S := Real.sqrt (max a1 0 * max a1 0 + max a2 0 * max a2 0 + max a3 0 * max a3 0)
        with hS
      have hSn : 0 ≤ S := Real.sqrt_nonneg _
      have hSsq : S ^ 2 = max a1 0 * max a1 0 + max a2 0 * max a2 0 + max a3 0 * max a3 0 :=
        Real.sq_sqrt (by nlinarith)
      have hSle : S ≤ max a1 0 + max a2 0 + max a3 0 := by
        rw [hS]
        apply Real.sqrt_le_iff.mpr
        refine ⟨by linarith, ?_⟩
        nlinarith [mul_nonneg u1 u2, mul_nonneg u1 u3, mul_nonneg u2 u3]
      have hsome : 0 < a1 ∨ 0 < a2 ∨ 0 < a3 := by
        by_contra hne
        push_neg at hne
        obtain ⟨n1, n2, n3⟩ := hne
        exact absurd hA (not_lt.mpr (max_le n1 (max_le n2 n3)))
      have hsum : (S + m) ^ 2
          ≤ (a1 - b1) * (a1 - b1) + (a2 - b2) * (a2 - b2) + (a3 - b3) * (a3 - b3) := by
        have hmS : m * S ≤ m * (max a1 0 + max a2 0 + max a3 0) :=
          mul_le_mul_of_nonneg_left hSle hm0
        have hexp : (S + m) ^ 2 = S ^ 2 + 2 * (m * S) + m * m := by ring
        rw [hexp, hSsq]
        rcases hsome with h | h | h
        · have := e1 h; linarith
        · have := e2 h; linarith
        · have := e3 h; linarith
      have : S + m ≤ D := Real.le_sqrt_of_sq_le hsum
      linarith
    · rw [min_eq_right (le_of_lt hB), add_zero]
      refine le_trans (sqrt3_tri _ _ _ (max b1 0) (max b2 0) (max b3 0)) ?_
      have := sqrt3_mono (abs_max_sub_max_le_abs a1 b1 0) (abs_max_sub_max_le_abs a2 b2 0)
        (abs_max_sub_max_le_abs a3 b3 0)
      linarith

theorem core2_lip (a1 a2 b1 b2 : ℝ) :
    Real.sqrt (max a1 0 * max a1 0 + max a2 0 * max a2 0) + min (max a1 a2) 0
      ≤ Real.sqrt (max b1 0 * max b1 0 + max b2 0 * max b2 0) + min (max b1 b2) 0
        + Real.sqrt ((a1 - b1) * (a1 - b1) + (a2 - b2) * (a2 - b2)) := by
  set c := min (min a1 a2) (min (min b1 b2) 0) with hc
  have c0 : c ≤ 0 := le_trans (min_le_right _ _) (min_le_right _ _)
  have ca : c ≤ a2 := le_trans (min_le_left _ _) (min_le_right _ _)
  have cb : c ≤ b2 := le_trans (min_le_right _ _) (le_trans (min_le_left _ _) (min_le_right _ _))
  have h := core3_lip a1 a2 c b1 b2 c
  rw [max_eq_right c0, max_eq_left ca, max_eq_left cb] at h
  simpa using h

theorem boxSDF_lip (p q b : vec3 ℝ) :
    boxSDF Real.sqrt p b ≤ boxSDF Real.sqrt q b + length_vec Real.sqrt (sub p q) := by
  unfold boxSDF length_vec sub
  simp only [max_f_eq_max, min_f_eq_min]
  refine le_trans (core3_lip _ _ _ (|q.x| - b.x) (|q.y| - b.y) (|q.z| - b.z)) ?_
  have e1 : |p.x| - b.x - (|q.x| - b.x) = |p.x| - |q.x| := by ring
  have e2 : |p.y| - b.y - (|q.y| - b.y) = |p.y| - |q.y| := by ring
  have e3 : |p.z| - b.z - (|q.z| - b.z) = |p.z| - |q.z| := by ring
  rw [e1, e2, e3]
  have := sqrt3_mono (abs_abs_sub_abs_le_abs_sub p.x q.x) (abs_abs_sub_abs_le_abs_sub p.y q.y)
    (abs_abs_sub_abs_le_abs_sub p.z q.z)
  linarith

theorem cylinderSDF_lip (p q : vec3 ℝ) (r h : ℝ) :
    cylinderSDF Real.sqrt p r h ≤ cylinderSDF Real.sqrt q r h + length_vec Real.sqrt (sub p q) := by
  unfold cylinderSDF length_vec sub
  simp only [max_f_eq_max, min_f_eq_min]
  refine le_trans (core2_lip _ _ (Real.sqrt (q.x * q.x + q.z * q.z) - r) (|q.y| - h)) ?_
  have e1 : Real.sqrt (p.x * p.x + p.z * p.z) - r - (Real.sqrt (q.x * q.x + q.z * q.z) - r)
      = Real.sqrt (p.x * p.x + p.z * p.z) - Real.sqrt (q.x * q.x + q.z * q.z) := by ring
  have e2 : |p.y| - h - (|q.y| - h) = |p.y| - |q.y| := by ring
  rw [e1, e2]
  have t1 := sqrt2_tri p.x p.z q.x q.z
  have t2 := sqrt2_tri q.x q.z p.x p.z
  have hsym : (q.x - p.x) * (q.x - p.x) + (q.z - p.z) * (q.z - p.z)
      = (p.x - q.x) * (p.x - q.x) + (p.z - q.z) * (p.z - q.z) := by ring
  rw [hsym] at t2
  set R := Real.sqrt ((p.x - q.x) * (p.x - q.x) + (p.z - q.z) * (p.z - q.z)) with hR
  have hRn : 0 ≤ R := Real.sqrt_nonneg _
  have hRsq : R ^ 2 = (p.x - q.x) * (p.x - q.x) + (p.z - q.z) * (p.z - q.z) :=
    Real.sq_sqrt (by nlinarith [mul_self_nonneg (p.x - q.x), mul_self_nonneg (p.z - q.z)])
  have hab : |Real.sqrt (p.x * p.x + p.z * p.z) - Real.sqrt (q.x * q.x + q.z * q.z)| ≤ R :=
    abs_le.mpr ⟨by linarith, by linarith⟩
  have hsq1 := sq_le_sq.mpr (le_trans hab (le_abs_self R))
  have hsq2 := sq_le_sq.mpr (abs_abs_sub_abs_le_abs_sub p.y q.y)
  have hmono : Real.sqrt ((Real.sqrt (p.x * p.x + p.z * p.z) - Real.sqrt (q.x * q.x + q.z * q.z))
        * (Real.sqrt (p.x * p.x + p.z * p.z) - Real.sqrt (q.x * q.x + q.z * q.z))
        + (|p.y| - |q.y|) * (|p.y| - |q.y|))
      ≤ Real.sqrt ((p.x - q.x) * (p.x - q.x) + (p.y - q.y) * (p.y - q.y)
          + (p.z - q.z) * (p.z - q.z)) := by
    apply Real.sqrt_le_sqrt
    show _ ≤ _
    nlinarith
  linarith

theorem sphereSDF_lip (p q : vec3 ℝ) (r : ℝ) :
    sphereSDF Real.sqrt p r ≤ sphereSDF Real.sqrt q r + length_vec Real.sqrt (sub p q) := by
  unfold sphereSDF length_vec sub
  have := sqrt3_tri p.x p.y p.z q.x q.y q.z
  linarith

theorem planeSDF_lip (p q : vec3 ℝ) :
    planeSDF p ≤ planeSDF q + length_vec Real.sqrt (sub p q) := by
  unfold planeSDF length_vec sub
  have h : |p.y - q.y| ≤ Real.sqrt ((p.x - q.x) * (p.x - q.x) + (p.y - q.y) * (p.y - q.y)
      + (p.z - q.z) * (p.z - q.z)) :=
    Real.abs_le_sqrt (by nlinarith [mul_self_nonneg (p.x - q.x), mul_self_nonneg (p.z - q.z)])
  have := le_abs_self (p.y - q.y)
  linarith

theorem sub_sub_centre (p q c : vec3 ℝ) : sub (sub p c) (sub q c) = sub p q := by
  unfold sub
  simp

/-- The scene distance is 1-Lipschitz for the Euclidean length. -/
theorem sceneSDF_lip (p q : vec3 ℝ) :
    (sceneSDF Real.sqrt p).1 ≤ (sceneSDF Real.sqrt q).1 + length_vec Real.sqrt (sub p q) := by
  have hc : cylDist Real.sqrt p ≤ cylDist Real.sqrt q + length_vec Real.sqrt (sub p q) := by
    have := cylinderSDF_lip (sub p ⟨-2.0, 0.5, 1.0⟩) (sub q ⟨-2.0, 0.5, 1.0⟩) 0.7 1.5
    rwa [sub_sub_centre] at this
  have hs : sphDist Real.sqrt p ≤ sphDist Real.sqrt q + length_vec Real.sqrt (sub p q) := by
    have := sphereSDF_lip (sub p ⟨0.3, -0.2, -1.5⟩) (sub q ⟨0.3, -0.2, -1.5⟩) 0.9
    rwa [sub_sub_centre] at this
  have hb : boxDist Real.sqrt p ≤ boxDist Real.sqrt q + length_vec Real.sqrt (sub p q) := by
    have := boxSDF_lip (sub p ⟨2.2, -0.2, 0.5⟩) (sub q ⟨2.2, -0.2, 0.5⟩) ⟨0.85, 0.85, 0.85⟩
    rwa [sub_sub_centre] at this
  have hp := planeSDF_lip p q
  have l1 := sceneSDF_le_cyl Real.sqrt p
  have l2 := sceneSDF_le_sph Real.sqrt p
  have l3 := sceneSDF_le_box Real.sqrt p
  have l4 := sceneSDF_le_plane Real.sqrt p
  rcases sceneSDF_cases Real.sqrt q with ⟨h, -⟩ | ⟨h, -⟩ | ⟨h, -⟩ | ⟨h, -⟩ <;> rw [h] <;>
    simp only [] <;> linarith

/-- Distance between two points of one ray with a unit direction. -/
theorem ray_dist (ro rd : vec3 ℝ) (hrd : length_vec Real.sqrt rd = 1) (s t : ℝ) :
    length_vec Real.sqrt (sub (add ro (mul rd s)) (add ro (mul rd t))) = |s - t| := by
  unfold length_vec at *
  unfold sub add mul
  simp only []
  have e : (ro.x + rd.x * s - (ro.x + rd.x * t)) * (ro.x + rd.x * s - (ro.x + rd.x * t))
      + (ro.y + rd.y * s - (ro.y + rd.y * t)) * (ro.y + rd.y * s - (ro.y + rd.y * t))
      + (ro.z + rd.z * s - (ro.z + rd.z * t)) * (ro.z + rd.z * s - (ro.z + rd.z * t))
      = (s - t) * (s - t) * (rd.x * rd.x + rd.y * rd.y + rd.z * rd.z) := by ring
  rw [e, Real.sqrt_mul (mul_self_nonneg _), hrd, mul_one, Real.sqrt_mul_self_eq_abs]

/-- Along a unit-direction ray the scene distance drops by at most the
parameter difference. -/
theorem sceneSDF_ray_lip (ro rd : vec3 ℝ) (hrd : length_vec Real.sqrt rd = 1) (s t : ℝ) :
    (sceneSDF Real.sqrt (add ro (mul rd s))).1
      ≤ (sceneSDF Real.sqrt (add ro (mul rd t))).1 + |s - t| := by
  have := sceneSDF_lip (add ro (mul rd s)) (add ro (mul rd t))
  rwa [ray_dist ro rd hrd] at this

end RealGeometry

section Evaluation

variable {α : Type} [LinearOrderedField α]

theorem sceneSDF_eq_sph (sqrt : α → α) (p : vec3 α) (h1 : sphDist sqrt p < cylDist sqrt p)
    (h2 : sphDist sqrt p ≤ boxDist sqrt p) (h3 : sphDist sqrt p ≤ planeSDF p) :
    sceneSDF sqrt p = (sphDist sqrt p, 2) := by
  unfold sceneSDF
  simp only []
  rw [if_pos h1, if_neg (not_lt.mpr h2), if_neg (not_lt.mpr h3)]

theorem sceneSDF_eq_plane (sqrt : α → α) (p : vec3 α) (h1 : planeSDF p < cylDist sqrt p)
    (h2 : planeSDF p < sphDist sqrt p) (h3 : planeSDF p < boxDist sqrt p) :
    sceneSDF sqrt p = (planeSDF p, 4) := by
  rcases sceneSDF_cases sqrt p with ⟨-, a, b, c⟩ | ⟨-, a, b, c⟩ | ⟨-, a, b, c⟩ | ⟨h, -⟩
  · exact absurd h1 (not_lt.mpr c)
  · exact absurd h2 (not_lt.mpr c)
  · exact absurd h3 (not_lt.mpr c)
  · exact h

theorem core3_ge (a1 a2 a3 : ℝ) :
    max a1 (max a2 a3)
      ≤ Real.sqrt (max a1 0 * max a1 0 + max a2 0 * max a2 0 + max a3 0 * max a3 0)
        + min (max a1 (max a2 a3)) 0 := by
  have hS := Real.sqrt_nonneg (max a1 0 * max a1 0 + max a2 0 * max a2 0 + max a3 0 * max a3 0)
  rcases le_or_lt (max a1 (max a2 a3)) 0 with hA | hA
  · rw [min_eq_left hA]; linarith
  · rw [min_eq_right (le_of_lt hA), add_zero]
    have k1 : |max a1 0| ≤ Real.sqrt
        (max a1 0 * max a1 0 + max a2 0 * max a2 0 + max a3 0 * max a3 0) :=
      Real.abs_le_sqrt (by nlinarith [mul_self_nonneg (max a2 0), mul_self_nonneg (max a3 0)])
    have k2 : |max a2 0| ≤ Real.sqrt
        (max a1 0 * max a1 0 + max a2 0 * max a2 0 + max a3 0 * max a3 0) :=
      Real.abs_le_sqrt (by nlinarith [mul_self_nonneg (max a1 0), mul_self_nonneg (max a3 0)])
    have k3 : |max a3 0| ≤ Real.sqrt
        (max a1 0 * max a1 0 + max a2 0 * max a2 0 + max a3 0 * max a3 0) :=
      Real.abs_le_sqrt (by nlinarith [mul_self_nonneg (max a1 0), mul_self_nonneg (max a2 0)])
    have := le_abs_self (max a1 0)
    have := le_abs_self (max a2 0)
    have := le_abs_self (max a3 0)
    have := le_max_left a1 0
    have := le_max_left a2 0
    have := le_max_left a3 0
    refine max_le ?_ (max_le ?_ ?_) <;> linarith

theorem core2_ge (a1 a2 : ℝ) :
    max a1 a2 ≤ Real.sqrt (max a1 0 * max a1 0 + max a2 0 * max a2 0) + min (max a1 a2) 0 := by
  have h := core3_ge a1 a2 a2
  have hS : Real.sqrt (max a1 0 * max a1 0 + max a2 0 * max a2 0) + min (max a1 a2) 0
      = max a1 a2 ∨ 0 < max a1 a2 := by
    rcases le_or_lt (max a1 a2) 0 with hA | hA
    · left
      rw [max_eq_right (le_trans (le_max_left _ _) hA),
        max_eq_right (le_trans (le_max_right _ _) hA), min_eq_left hA]
      simp
    · exact Or.inr hA
  rcases hS with hS | hA
  · rw [hS]
  · rw [min_eq_right (le_of_lt hA), add_zero]
    have k1 : |max a1 0| ≤ Real.sqrt (max a1 0 * max a1 0 + max a2 0 * max a2 0) :=
      Real.abs_le_sqrt (by nlinarith [mul_self_nonneg (max a2 0)])
    have k2 : |max a2 0| ≤ Real.sqrt (max a1 0 * max a1 0 + max a2 0 * max a2 0) :=
      Real.abs_le_sqrt (by nlinarith [mul_self_nonneg (max a1 0)])
    have := le_abs_self (max a1 0)
    have := le_abs_self (max a2 0)
    have := le_max_left a1 0
    have := le_max_left a2 0
    refine max_le ?_ ?_ <;> linarith

/-- The cylinder distance is at least the radial excess and the axial excess. -/
theorem cylinderSDF_ge (p : vec3 ℝ) (r h : ℝ) :
    max (Real.sqrt (p.x * p.x + p.z * p.z) - r) (|p.y| - h) ≤ cylinderSDF Real.sqrt p r h := by
  unfold cylinderSDF
  simp only [max_f_eq_max, min_f_eq_min]
  exact core2_ge _ _

/-- The box distance is at least each per-axis excess. -/
theorem boxSDF_ge (p b : vec3 ℝ) :
    max (|p.x| - b.x) (max (|p.y| - b.y) (|p.z| - b.z)) ≤ boxSDF Real.sqrt p b := by
  unfold boxSDF
  simp only [max_f_eq_max, min_f_eq_min]
  exact core3_ge _ _ _

theorem length_vec_ge (a : vec3 ℝ) :
    |a.x| ≤ length_vec Real.sqrt a ∧ |a.y| ≤ length_vec Real.sqrt a
      ∧ |a.z| ≤ length_vec Real.sqrt a := by
  unfold length_vec
  refine ⟨Real.abs_le_sqrt ?_, Real.abs_le_sqrt ?_, Real.abs_le_sqrt ?_⟩ <;>
    nlinarith [mul_self_nonneg a.x, mul_self_nonneg a.y, mul_self_nonneg a.z]

/-- Lower bounds of the cylinder object's distance by coordinate offsets. -/
theorem cylDist_ge (p : vec3 ℝ) :
    |p.x + 2| - 0.7 ≤ cylDist Real.sqrt p ∧ |p.z - 1| - 0.7 ≤ cylDist Real.sqrt p
      ∧ |p.y - 0.5| - 1.5 ≤ cylDist Real.sqrt p := by
  have h := cylinderSDF_ge (sub p ⟨-2.0, 0.5, 1.0⟩) 0.7 1.5
  have h1 := le_trans (le_max_left _ _) h
  have h2 := le_trans (le_max_right _ _) h
  have e : sub p (⟨-2.0, 0.5, 1.0⟩ : vec3 ℝ) = ⟨p.x + 2, p.y - 0.5, p.z - 1⟩ := by
    unfold sub; norm_num
  rw [e] at h1 h2
  simp only [] at h1 h2
  have kx : |p.x + 2| ≤ Real.sqrt ((p.x + 2) * (p.x + 2) + (p.z - 1) * (p.z - 1)) :=
    Real.abs_le_sqrt (by nlinarith [mul_self_nonneg (p.z - 1)])
  have kz : |p.z - 1| ≤ Real.sqrt ((p.x + 2) * (p.x + 2) + (p.z - 1) * (p.z - 1)) :=
    Real.abs_le_sqrt (by nlinarith [mul_self_nonneg (p.x + 2)])
  unfold cylDist
  rw [e]
  refine ⟨by linarith, by linarith, by linarith⟩

/-- Lower bounds of the sphere object's distance by coordinate offsets. -/
theorem sphDist_ge (p : vec3 ℝ) :
    |p.x - 0.3| - 0.9 ≤ sphDist Real.sqrt p ∧ |p.y + 0.2| - 0.9 ≤ sphDist Real.sqrt p
      ∧ |p.z + 1.5| - 0.9 ≤ sphDist Real.sqrt p := by
  have e : sub p (⟨0.3, -0.2, -1.5⟩ : vec3 ℝ) = ⟨p.x - 0.3, p.y + 0.2, p.z + 1.5⟩ := by
    unfold sub; norm_num
  obtain ⟨h1, h2, h3⟩ := length_vec_ge (sub p ⟨0.3, -0.2, -1.5⟩)
  unfold sphDist sphereSDF
  rw [e] at h1 h2 h3 ⊢
  simp only [] at h1 h2 h3
  refine ⟨by linarith, by linarith, by linarith⟩

/-- Lower bounds of the box object's distance by coordinate offsets. -/
theorem boxDist_ge (p : vec3 ℝ) :
    |p.x - 2.2| - 0.85 ≤ boxDist Real.sqrt p ∧ |p.y + 0.2| - 0.85 ≤ boxDist Real.sqrt p
      ∧ |p.z - 0.5| - 0.85 ≤ boxDist Real.sqrt p := by
  have e : sub p (⟨2.2, -0.2, 0.5⟩ : vec3 ℝ) = ⟨p.x - 2.2, p.y + 0.2, p.z - 0.5⟩ := by
    unfold sub; norm_num
  have h := boxSDF_ge (sub p ⟨2.2, -0.2, 0.5⟩) ⟨0.85, 0.85, 0.85⟩
  have h1 := le_trans (le_max_left _ _) h
  have h2 := le_trans (le_trans (le_max_left _ _) (le_max_right _ _)) h
  have h3 := le_trans (le_trans (le_max_right _ _) (le_max_right _ _)) h
  unfold boxDist
  rw [e] at h1 h2 h3 ⊢
  simp only [] at h1 h2 h3
  exact ⟨h1, h2, h3⟩

end Evaluation

section TieBreak

end TieBreak

section March

variable {α : Type} [LinearOrderedField α]

theorem raymarchLoop_hit (sqrt : α → α) (ro rd : vec3 α) (n : Nat) (dist : α) (objID : Int)
    (h : (sceneSDF sqrt (add ro (mul rd dist))).1 < SURF_DIST) :
    raymarchLoop sqrt ro rd (n + 1) dist objID
      = (dist, (sceneSDF sqrt (add ro (mul rd dist))).2) := by
  simp only [raymarchLoop, if_pos h]

theorem raymarchLoop_far (sqrt : α → α) (ro rd : vec3 α) (n : Nat) (dist : α) (objID : Int)
    (h : ¬ (sceneSDF sqrt (add ro (mul rd dist))).1 < SURF_DIST)
    (h2 : dist + (sceneSDF sqrt (add ro (mul rd dist))).1 > MAX_DIST) :
    raymarchLoop sqrt ro rd (n + 1) dist objID
      = (-1.0, (sceneSDF sqrt (add ro (mul rd dist))).2) := by
  simp only [raymarchLoop, if_neg h, if_pos h2]

theorem raymarchLoop_step (sqrt : α → α) (ro rd : vec3 α) (n : Nat) (dist : α) (objID : Int)
    (h : ¬ (sceneSDF sqrt (add ro (mul rd dist))).1 < SURF_DIST)
    (h2 : ¬ dist + (sceneSDF sqrt (add ro (mul rd dist))).1 > MAX_DIST) :
    raymarchLoop sqrt ro rd (n + 1) dist objID
      = raymarchLoop sqrt ro rd n (dist + (sceneSDF sqrt (add ro (mul rd dist))).1)
          (sceneSDF sqrt (add ro (mul rd dist))).2 := by
  simp only [raymarchLoop, if_neg h, if_neg h2]

/-- Invariant rule for the loop of `raymarch`: a property of the accumulated
distance that every step preserves holds at a reported hit, where moreover the
scene distance is below the threshold and the identifier is the one `sceneSDF`
writes there. -/
theorem raymarchLoop_inv (sqrt : α → α) (ro rd : vec3 α) (P : α → Prop)
    (hstep : ∀ dist, P dist → SURF_DIST ≤ (sceneSDF sqrt (add ro (mul rd dist))).1 →
      dist + (sceneSDF sqrt (add ro (mul rd dist))).1 ≤ MAX_DIST →
      P (dist + (sceneSDF sqrt (add ro (mul rd dist))).1)) :
    ∀ (n : Nat) (dist : α) (objID : Int), P dist →
      (raymarchLoop sqrt ro rd n dist objID).1 = -1
      ∨ (P (raymarchLoop sqrt ro rd n dist objID).1
        ∧ (sceneSDF sqrt (add ro (mul rd (raymarchLoop sqrt ro rd n dist objID).1))).1
            < SURF_DIST
        ∧ (raymarchLoop sqrt ro rd n dist objID).2
            = (sceneSDF sqrt (add ro (mul rd (raymarchLoop sqrt ro rd n dist objID).1))).2) := by
  intro n
  induction n with
  | zero =>
    intro dist objID _
    left
    simp only [raymarchLoop]
    norm_num
  | succ n ih =>
    intro dist objID hP
    by_cases h : (sceneSDF sqrt (add ro (mul rd dist))).1 < SURF_DIST
    · rw [raymarchLoop_hit sqrt ro rd n dist objID h]
      exact Or.inr ⟨hP, h, rfl⟩
    · by_cases h2 : dist + (sceneSDF sqrt (add ro (mul rd dist))).1 > MAX_DIST
      · rw [raymarchLoop_far sqrt ro rd n dist objID h h2]
        left
        norm_num
      · rw [raymarchLoop_step sqrt ro rd n dist objID h h2]
        exact ih _ _ (hstep dist hP (not_lt.mp h) (not_lt.mp h2))

/-- C3: `raymarch` returns either the sentinel -1 or a distance `t` with
`0 ≤ t ≤ MAX_DIST` at which the scene distance is below `SURF_DIST` and the
reported identifier is the one `sceneSDF` returns at `ro + t*rd`; and a ray on
which the scene distance is nowhere below `SURF_DIST` returns -1. -/
theorem C3_raymarch_hit_or_sentinel (sqrt : α → α) (ro rd : vec3 α) (objID : Int) :
    ((raymarch sqrt ro rd objID).1 = -1
      ∨ (0 ≤ (raymarch sqrt ro rd objID).1
        ∧ (raymarch sqrt ro rd objID).1 ≤ 100
        ∧ (sceneSDF sqrt (add ro (mul rd (raymarch sqrt ro rd objID).1))).1 < 0.001
        ∧ (raymarch sqrt ro rd objID).2
            = (sceneSDF sqrt (add ro (mul rd (raymarch sqrt ro rd objID).1))).2))
    ∧ ((∀ t : α, 0 ≤ t → (0.001 : α) ≤ (sceneSDF sqrt (add ro (mul rd t))).1) →
        (raymarch sqrt ro rd objID).1 = -1) := by
  have hS : (SURF_DIST : α) = 0.001 := rfl
  have hM : (MAX_DIST : α) = 100 := by unfold MAX_DIST; norm_num
  have key := raymarchLoop_inv sqrt ro rd (fun d => 0 ≤ d ∧ d ≤ 100)
    (fun dist hP hd hm => ⟨by have := hP.1; rw [hS] at hd; linarith [show (0:α) < 0.001 by norm_num],
      by rw [hM] at hm; exact hm⟩)
    MAX_STEPS 0.0 objID ⟨by norm_num, by norm_num⟩
  refine ⟨?_, ?_⟩
  · rcases key with h | ⟨⟨h0, h1⟩, h2, h3⟩
    · exact Or.inl h
    · exact Or.inr ⟨h0, h1, by rw [← hS]; exact h2, h3⟩
  · intro hfree
    rcases key with h | ⟨⟨h0, _⟩, h2, _⟩
    · exact h
    · have := hfree _ h0
      rw [hS] at h2
      exact absurd h2 (not_lt.mpr this)

end March

section MarchReal

/-- The scene distance is at least the height above `y = 2`. -/
theorem sceneSDF_high (p : vec3 ℝ) : p.y - 2 ≤ (sceneSDF Real.sqrt p).1 := by
  have hc := (cylDist_ge p).2.2
  have hs := (sphDist_ge p).2.1
  have hb := (boxDist_ge p).2.1
  have a1 := le_abs_self (p.y - 0.5)
  have a2 := le_abs_self (p.y + 0.2)
  have hp : planeSDF p = p.y + 1 := by unfold planeSDF; norm_num
  rw [sceneSDF_fst, hp]
  refine le_min (le_min (le_min ?_ ?_) ?_) ?_ <;> norm_num at * <;> linarith

/-- Far out along the z axis the floor is the strictly nearest object. -/
theorem sceneSDF_far_floor (p : vec3 ℝ) (hz : 50 ≤ p.z) (hy : p.y < 40) :
    sceneSDF Real.sqrt p = (p.y + 1, 4) := by
  have hc := (cylDist_ge p).2.1
  have hs := (sphDist_ge p).2.2
  have hb := (boxDist_ge p).2.2
  have a1 := le_abs_self (p.z - 1)
  have a2 := le_abs_self (p.z + 1.5)
  have a3 := le_abs_self (p.z - 0.5)
  have hp : planeSDF p = p.y + 1 := by unfold planeSDF; norm_num
  rw [← hp]
  apply sceneSDF_eq_plane <;> rw [hp] <;> norm_num at * <;> linarith

/-- Witness for C3: the ray from `(0,10,0)` straight up never comes within the
threshold of any object and `raymarch` returns the sentinel. -/
theorem C3_raymarch_hit_or_sentinel_witness :
    (raymarch Real.sqrt (⟨0, 10, 0⟩ : vec3 ℝ) ⟨0, 1, 0⟩ 0).1 = -1 :=
  (C3_raymarch_hit_or_sentinel Real.sqrt (⟨0, 10, 0⟩ : vec3 ℝ) ⟨0, 1, 0⟩ 0).2
    (fun t ht => by
      have h := sceneSDF_high (add (⟨0, 10, 0⟩ : vec3 ℝ) (mul ⟨0, 1, 0⟩ t))
      have hy : (add (⟨0, 10, 0⟩ : vec3 ℝ) (mul ⟨0, 1, 0⟩ t)).y = 10 + t := by
        simp only [add, mul]; ring
      rw [hy] at h
      norm_num
      linarith)

/-- C4: `raymarch` never oversteps a surface: for a unit-length direction, if a
hit is reported at distance `t` then every point `ro + s*rd` with `0 ≤ s < t`
has strictly positive scene distance. -/
theorem C4_raymarch_no_overstep (ro rd : vec3 ℝ) (objID : Int)
    (hrd : length_vec Real.sqrt rd = 1)
    (hhit : (raymarch Real.sqrt ro rd objID).1 ≠ -1)
    (s : ℝ) (hs0 : 0 ≤ s) (hst : s < (raymarch Real.sqrt ro rd objID).1) :
    0 < (sceneSDF Real.sqrt (add ro (mul rd s))).1 := by
  have key := raymarchLoop_inv Real.sqrt ro rd
    (fun d => ∀ s : ℝ, 0 ≤ s → s < d → 0 < (sceneSDF Real.sqrt (add ro (mul rd s))).1)
    (fun dist hP hd _ s hs0 hs => by
      rcases lt_or_le s dist with h | h
      · exact hP s hs0 h
      · have hl := sceneSDF_ray_lip ro rd hrd dist s
        rw [abs_sub_comm, abs_of_nonneg (sub_nonneg.mpr h)] at hl
        linarith)
    MAX_STEPS 0.0 objID (fun s hs0 hs => by norm_num at hs; linarith)
  rcases key with h | ⟨h, -⟩
  · exact absurd h hhit
  · exact h s hs0 hst

/-- Evaluation of `raymarch` on the ray from `(0,0,100)` straight down: one step
of length 1 reaches the floor. -/
theorem raymarch_down_eval :
    raymarch Real.sqrt (⟨0, 0, 100⟩ : vec3 ℝ) ⟨0, -1, 0⟩ 0 = (1, 4) := by
  have hsc : ∀ t : ℝ, -10 < t → sceneSDF Real.sqrt (add (⟨0, 0, 100⟩ : vec3 ℝ) (mul ⟨0, -1, 0⟩ t))
      = (1 - t, 4) := by
    intro t ht
    have h := sceneSDF_far_floor (add (⟨0, 0, 100⟩ : vec3 ℝ) (mul ⟨0, -1, 0⟩ t))
      (by simp only [add, mul]; norm_num) (by simp only [add, mul]; linarith)
    rw [h]
    simp only [add, mul]
    congr 1
    ring
  have h0 := hsc 0 (by norm_num)
  have h1 := hsc 1 (by norm_num)
  unfold raymarch
  have e0 : (0.0 : ℝ) = 0 := by norm_num
  rw [e0, show MAX_STEPS = 98 + 1 + 1 from rfl,
    raymarchLoop_step Real.sqrt _ _ _ 0 0 (by rw [h0]; unfold SURF_DIST; norm_num)
      (by rw [h0]; unfold MAX_DIST; norm_num)]
  rw [h0]
  simp only [zero_add, sub_zero]
  rw [raymarchLoop_hit Real.sqrt _ _ _ 1 4 (by rw [h1]; unfold SURF_DIST; norm_num), h1]

/-- Witness for C4: the ray from `(0,0,100)` straight down hits the floor at
distance 1, and at `s = 1/2` the scene distance is positive. -/
theorem C4_raymarch_no_overstep_witness :
    (raymarch Real.sqrt (⟨0, 0, 100⟩ : vec3 ℝ) ⟨0, -1, 0⟩ 0).1 = 1
    ∧ 0 < (sceneSDF Real.sqrt (add (⟨0, 0, 100⟩ : vec3 ℝ) (mul ⟨0, -1, 0⟩ (1 / 2)))).1 :=
  ⟨by rw [raymarch_down_eval],
    C4_raymarch_no_overstep ⟨0, 0, 100⟩ ⟨0, -1, 0⟩ 0 (by simp [length_vec])
      (by rw [raymarch_down_eval]; norm_num) (1 / 2) (by norm_num)
      (by rw [raymarch_down_eval]; norm_num)⟩

end MarchReal

section SphereRay

theorem length_vec_sub_comm (a b : vec3 ℝ) :
    length_vec Real.sqrt (sub a b) = length_vec Real.sqrt (sub b a) := by
  unfold length_vec sub
  congr 1
  ring

/-- On the ray from `o` towards a centre `c` the sphere distance is the
remaining distance to the centre minus the radius. -/
theorem sphereSDF_towards (o c : vec3 ℝ) (r t : ℝ)
    (hL : 0 < length_vec Real.sqrt (sub o c)) :
    sphereSDF Real.sqrt (sub (add o (mul (norm Real.sqrt (sub c o)) t)) c) r
      = |length_vec Real.sqrt (sub o c) - t| - r := by
  unfold sphereSDF
  congr 1
  unfold norm
  simp only []
  rw [← length_vec_sub_comm o c]
  set L := length_vec Real.sqrt (sub o c) with hLdef
  have hL0 : L ≠ 0 := ne_of_gt hL
  have hQ : (o.x - c.x) * (o.x - c.x) + (o.y - c.y) * (o.y - c.y) + (o.z - c.z) * (o.z - c.z)
      = L * L := by
    rw [hLdef]
    unfold length_vec sub
    simp only []
    rw [Real.mul_self_sqrt]
    nlinarith [mul_self_nonneg (o.x - c.x), mul_self_nonneg (o.y - c.y),
      mul_self_nonneg (o.z - c.z)]
  have hx : o.x + (c.x - o.x) * (1 / L) * t - c.x = (o.x - c.x) * ((L - t) / L) := by
    field_simp; ring
  have hy : o.y + (c.y - o.y) * (1 / L) * t - c.y = (o.y - c.y) * ((L - t) / L) := by
    field_simp; ring
  have hz : o.z + (c.z - o.z) * (1 / L) * t - c.z = (o.z - c.z) * ((L - t) / L) := by
    field_simp; ring
  unfold length_vec sub add mul
  simp only []
  rw [hx, hy, hz]
  have e : (o.x - c.x) * ((L - t) / L) * ((o.x - c.x) * ((L - t) / L))
      + (o.y - c.y) * ((L - t) / L) * ((o.y - c.y) * ((L - t) / L))
      + (o.z - c.z) * ((L - t) / L) * ((o.z - c.z) * ((L - t) / L))
      = (L - t) * (L - t) := by
    have : (o.x - c.x) * ((L - t) / L) * ((o.x - c.x) * ((L - t) / L))
      + (o.y - c.y) * ((L - t) / L) * ((o.y - c.y) * ((L - t) / L))
      + (o.z - c.z) * ((L - t) / L) * ((o.z - c.z) * ((L - t) / L))
      = ((o.x - c.x) * (o.x - c.x) + (o.y - c.y) * (o.y - c.y) + (o.z - c.z) * (o.z - c.z))
          * (((L - t) / L) * ((L - t) / L)) := by ring
    rw [this, hQ]
    field_simp
  rw [e, Real.sqrt_mul_self_eq_abs]

/-- C5: from an origin `o` outside the scene's sphere, marching along the unit
direction from `o` towards the centre `c = (0.3,-0.2,-1.5)`, a reported hit on
the sphere (identifier 2) is at a distance within `SURF_DIST` of the analytic
intersection distance `|o - c| - 0.9`. -/
theorem C5_sphere_hit_accuracy (o : vec3 ℝ) (objID : Int)
    (hout : 0.9 < length_vec Real.sqrt (sub o ⟨0.3, -0.2, -1.5⟩))
    (hhit : (raymarch Real.sqrt o (norm Real.sqrt (sub ⟨0.3, -0.2, -1.5⟩ o)) objID).1 ≠ -1)
    (hid : (raymarch Real.sqrt o (norm Real.sqrt (sub ⟨0.3, -0.2, -1.5⟩ o)) objID).2 = 2) :
    |(raymarch Real.sqrt o (norm Real.sqrt (sub ⟨0.3, -0.2, -1.5⟩ o)) objID).1
        - (length_vec Real.sqrt (sub o ⟨0.3, -0.2, -1.5⟩) - 0.9)| < 0.001 := by
  set L := length_vec Real.sqrt (sub o ⟨0.3, -0.2, -1.5⟩) with hLdef
  set rd := norm Real.sqrt (sub ⟨0.3, -0.2, -1.5⟩ o) with hrd
  have hLpos : 0 < L := by linarith [show (0:ℝ) < 0.9 by norm_num]
  have hsph : ∀ t : ℝ, sphDist Real.sqrt (add o (mul rd t)) = |L - t| - 0.9 := fun t =>
    sphereSDF_towards o ⟨0.3, -0.2, -1.5⟩ 0.9 t hLpos
  have key := raymarchLoop_inv Real.sqrt o rd (fun d => d ≤ L - 0.9)
    (fun dist hP _ _ => by
      have h1 := sceneSDF_le_sph Real.sqrt (add o (mul rd dist))
      rw [hsph dist, abs_of_nonneg (by linarith [show (0:ℝ) < 0.9 by norm_num])] at h1
      linarith)
    MAX_STEPS 0.0 objID (by norm_num; linarith)
  rcases key with h | ⟨hP, hlt, hobj⟩
  · exact absurd h hhit
  · change (raymarch Real.sqrt o rd objID).1 ≤ L - 0.9 at hP
    change (sceneSDF Real.sqrt (add o (mul rd (raymarch Real.sqrt o rd objID).1))).1
      < SURF_DIST at hlt
    change (raymarch Real.sqrt o rd objID).2
      = (sceneSDF Real.sqrt (add o (mul rd (raymarch Real.sqrt o rd objID).1))).2 at hobj
    set t := (raymarch Real.sqrt o rd objID).1 with ht
    rw [hid] at hobj
    have hs : (sceneSDF Real.sqrt (add o (mul rd t))).1 = sphDist Real.sqrt (add o (mul rd t)) := by
      rcases sceneSDF_cases Real.sqrt (add o (mul rd t)) with
        ⟨h, -⟩ | ⟨h, -⟩ | ⟨h, -⟩ | ⟨h, -⟩ <;> rw [h] at hobj ⊢ <;> simp only [] at hobj ⊢ <;>
        norm_num at hobj
    rw [hs, hsph t, abs_of_nonneg (by linarith [show (0:ℝ) < 0.9 by norm_num])] at hlt
    have hS : (SURF_DIST : ℝ) = 0.001 := rfl
    rw [hS] at hlt
    rw [abs_lt]
    constructor <;> linarith [show (0:ℝ) < 0.001 by norm_num]

end SphereRay

section CameraRay

/-- Distance from the camera `(0,1.2,5)` to the sphere's centre lies between 6
and 7. -/
theorem camera_len :
    6 < length_vec Real.sqrt (sub (⟨0, 1.2, 5⟩ : vec3 ℝ) ⟨0.3, -0.2, -1.5⟩)
    ∧ length_vec Real.sqrt (sub (⟨0, 1.2, 5⟩ : vec3 ℝ) ⟨0.3, -0.2, -1.5⟩) < 7 := by
  unfold length_vec sub
  simp only []
  constructor
  · apply Real.lt_sqrt_of_sq_lt
    norm_num
  · rw [Real.sqrt_lt' (by norm_num)]
    norm_num

/-- Scene evaluation on the ray from the camera towards the sphere's centre, in
front of the sphere: the other three objects stay at distance at least 0.8. -/
theorem camera_scene (t : ℝ) (h0 : 0 ≤ t)
    (h1 : t ≤ length_vec Real.sqrt (sub (⟨0, 1.2, 5⟩ : vec3 ℝ) ⟨0.3, -0.2, -1.5⟩) - 0.9) :
    (sceneSDF Real.sqrt (add (⟨0, 1.2, 5⟩ : vec3 ℝ)
        (mul (norm Real.sqrt (sub ⟨0.3, -0.2, -1.5⟩ ⟨0, 1.2, 5⟩)) t))).1
      ≤ length_vec Real.sqrt (sub (⟨0, 1.2, 5⟩ : vec3 ℝ) ⟨0.3, -0.2, -1.5⟩) - 0.9 - t
    ∧ (0.8 ≤ (sceneSDF Real.sqrt (add (⟨0, 1.2, 5⟩ : vec3 ℝ)
        (mul (norm Real.sqrt (sub ⟨0.3, -0.2, -1.5⟩ ⟨0, 1.2, 5⟩)) t))).1
      ∨ sceneSDF Real.sqrt (add (⟨0, 1.2, 5⟩ : vec3 ℝ)
        (mul (norm Real.sqrt (sub ⟨0.3, -0.2, -1.5⟩ ⟨0, 1.2, 5⟩)) t))
        = (length_vec Real.sqrt (sub (⟨0, 1.2, 5⟩ : vec3 ℝ) ⟨0.3, -0.2, -1.5⟩) - 0.9 - t, 2)) := by
  obtain ⟨hL6, hL7⟩ := camera_len
  have hsph := sphereSDF_towards (⟨0, 1.2, 5⟩ : vec3 ℝ) ⟨0.3, -0.2, -1.5⟩ 0.9 t (by linarith)
  have hqx : (add (⟨0, 1.2, 5⟩ : vec3 ℝ)
      (mul (norm Real.sqrt (sub ⟨0.3, -0.2, -1.5⟩ ⟨0, 1.2, 5⟩)) t)).x
      = 0.3 * (t / length_vec Real.sqrt (sub (⟨0, 1.2, 5⟩ : vec3 ℝ) ⟨0.3, -0.2, -1.5⟩)) := by
    unfold norm
    simp only []
    rw [length_vec_sub_comm (⟨0.3, -0.2, -1.5⟩ : vec3 ℝ) ⟨0, 1.2, 5⟩]
    simp only [add, mul, sub]
    ring
  have hqy : (add (⟨0, 1.2, 5⟩ : vec3 ℝ)
      (mul (norm Real.sqrt (sub ⟨0.3, -0.2, -1.5⟩ ⟨0, 1.2, 5⟩)) t)).y
      = 1.2 - 1.4 * (t / length_vec Real.sqrt (sub (⟨0, 1.2, 5⟩ : vec3 ℝ) ⟨0.3, -0.2, -1.5⟩)) := by
    unfold norm
    simp only []
    rw [length_vec_sub_comm (⟨0.3, -0.2, -1.5⟩ : vec3 ℝ) ⟨0, 1.2, 5⟩]
    simp only [add, mul, sub]
    ring
  generalize length_vec Real.sqrt (sub (⟨0, 1.2, 5⟩ : vec3 ℝ) ⟨0.3, -0.2, -1.5⟩) = L at *
  generalize add (⟨0, 1.2, 5⟩ : vec3 ℝ)
      (mul (norm Real.sqrt (sub ⟨0.3, -0.2, -1.5⟩ ⟨0, 1.2, 5⟩)) t) = q at *
  have hLpos : 0 < L := by linarith
  have hu0 : 0 ≤ t / L := div_nonneg h0 (le_of_lt hLpos)
  have hu1 : t / L ≤ 1 := by
    rw [div_le_one hLpos]
    linarith [show (0 : ℝ) < 0.9 by norm_num]
  have hs : sphDist Real.sqrt q = L - 0.9 - t := by
    unfold sphDist
    rw [hsph, abs_of_nonneg (by linarith [show (0 : ℝ) < 0.9 by norm_num])]
    ring
  have hc := (cylDist_ge q).1
  have hb := (boxDist_ge q).1
  have a1 := le_abs_self (q.x + 2)
  have a3 := neg_le_abs (q.x - 2.2)
  have hp : planeSDF q = q.y + 1 := by unfold planeSDF; norm_num
  rw [hqx] at hc hb a1 a3
  have hc8 : (0.8 : ℝ) ≤ cylDist Real.sqrt q := by norm_num at *; linarith
  have hb8 : (0.8 : ℝ) ≤ boxDist Real.sqrt q := by norm_num at *; linarith
  have hp8 : (0.8 : ℝ) ≤ planeSDF q := by rw [hp, hqy]; norm_num at *; linarith
  refine ⟨by rw [← hs]; exact sceneSDF_le_sph Real.sqrt q, ?_⟩
  rcases le_or_lt (0.8 : ℝ) (sphDist Real.sqrt q) with h | h
  · left
    rw [sceneSDF_fst]
    exact le_min (le_min (le_min hc8 h) hb8) hp8
  · right
    rw [← hs]
    exact sceneSDF_eq_sph Real.sqrt q (by linarith) (by linarith) (by linarith)

/-- The march from the camera towards the sphere's centre reports a hit on the
sphere: started in front of the sphere with enough steps left, the loop
returns a distance (not the sentinel) and the identifier 2. -/
theorem camera_loop :
    ∀ (n : Nat) (dist : ℝ) (objID : Int), 0 ≤ dist →
      dist ≤ length_vec Real.sqrt (sub (⟨0, 1.2, 5⟩ : vec3 ℝ) ⟨0.3, -0.2, -1.5⟩) - 0.9 →
      length_vec Real.sqrt (sub (⟨0, 1.2, 5⟩ : vec3 ℝ) ⟨0.3, -0.2, -1.5⟩) - 0.9 - dist
        ≤ 0.8 * (n : ℝ) →
      (raymarchLoop Real.sqrt (⟨0, 1.2, 5⟩ : vec3 ℝ)
          (norm Real.sqrt (sub ⟨0.3, -0.2, -1.5⟩ ⟨0, 1.2, 5⟩)) (n + 2) dist objID).1 ≠ -1
      ∧ (raymarchLoop Real.sqrt (⟨0, 1.2, 5⟩ : vec3 ℝ)
          (norm Real.sqrt (sub ⟨0.3, -0.2, -1.5⟩ ⟨0, 1.2, 5⟩)) (n + 2) dist objID).2 = 2 := by
  obtain ⟨hL6, hL7⟩ := camera_len
  have hS : (SURF_DIST : ℝ) = 0.001 := rfl
  have hM : (MAX_DIST : ℝ) = 100 := by unfold MAX_DIST; norm_num
  intro n
  induction n with
  | zero =>
    intro dist objID h0 h1 hn
    obtain ⟨-, hsc⟩ := camera_scene dist h0 h1
    have hsph : sceneSDF Real.sqrt (add (⟨0, 1.2, 5⟩ : vec3 ℝ)
        (mul (norm Real.sqrt (sub ⟨0.3, -0.2, -1.5⟩ ⟨0, 1.2, 5⟩)) dist))
        = (length_vec Real.sqrt (sub (⟨0, 1.2, 5⟩ : vec3 ℝ) ⟨0.3, -0.2, -1.5⟩) - 0.9 - dist, 2) := by
      rcases hsc with h | h
      · norm_num at hn
        exfalso
        have := (camera_scene dist h0 h1).1
        linarith [show (0 : ℝ) < 0.8 by norm_num]
      · exact h
    have hz : length_vec Real.sqrt (sub (⟨0, 1.2, 5⟩ : vec3 ℝ) ⟨0.3, -0.2, -1.5⟩) - 0.9 - dist
        = 0 := by
      norm_num at hn
      linarith
    rw [raymarchLoop_hit Real.sqrt _ _ _ dist objID (by rw [hsph, hS, hz]; norm_num), hsph]
    exact ⟨by simp only []; linarith, rfl⟩
  | succ n ih =>
    intro dist objID h0 h1 hn
    obtain ⟨hle, hsc⟩ := camera_scene dist h0 h1
    by_cases hhit : (sceneSDF Real.sqrt (add (⟨0, 1.2, 5⟩ : vec3 ℝ)
        (mul (norm Real.sqrt (sub ⟨0.3, -0.2, -1.5⟩ ⟨0, 1.2, 5⟩)) dist))).1 < SURF_DIST
    · have hid : (sceneSDF Real.sqrt (add (⟨0, 1.2, 5⟩ : vec3 ℝ)
          (mul (norm Real.sqrt (sub ⟨0.3, -0.2, -1.5⟩ ⟨0, 1.2, 5⟩)) dist))).2 = 2 := by
        rcases hsc with h | h
        · rw [hS] at hhit
          exfalso
          linarith [show (0.001 : ℝ) < 0.8 by norm_num]
        · rw [h]
      rw [raymarchLoop_hit Real.sqrt _ _ _ dist objID hhit]
      exact ⟨by simp only []; linarith, hid⟩
    · have hfar : ¬ dist + (sceneSDF Real.sqrt (add (⟨0, 1.2, 5⟩ : vec3 ℝ)
          (mul (norm Real.sqrt (sub ⟨0.3, -0.2, -1.5⟩ ⟨0, 1.2, 5⟩)) dist))).1 > MAX_DIST := by
        rw [hM, not_lt]
        linarith
      rw [raymarchLoop_step Real.sqrt _ _ _ dist objID hhit hfar]
      have hd0 := not_lt.mp hhit
      rw [hS] at hd0
      apply ih
      · linarith [show (0 : ℝ) < 0.001 by norm_num]
      · linarith
      · rcases hsc with h | h
        · push_cast at hn
          linarith
        · rw [h]
          simp only []
          have : (0 : ℝ) ≤ (n : ℝ) := Nat.cast_nonneg n
          nlinarith

/-- The march from the camera towards the sphere's centre hits the sphere. -/
theorem camera_hit :
    (raymarch Real.sqrt (⟨0, 1.2, 5⟩ : vec3 ℝ)
        (norm Real.sqrt (sub ⟨0.3, -0.2, -1.5⟩ ⟨0, 1.2, 5⟩)) 0).1 ≠ -1
    ∧ (raymarch Real.sqrt (⟨0, 1.2, 5⟩ : vec3 ℝ)
        (norm Real.sqrt (sub ⟨0.3, -0.2, -1.5⟩ ⟨0, 1.2, 5⟩)) 0).2 = 2 := by
  obtain ⟨hL6, hL7⟩ := camera_len
  unfold raymarch
  have e0 : (0.0 : ℝ) = 0 := by norm_num
  rw [e0, show MAX_STEPS = 98 + 2 from rfl]
  exact camera_loop 98 0 0 (le_refl 0) (by linarith [show (0.9 : ℝ) < 6 by norm_num])
    (by norm_num; linarith)

/-- Witness for C5 at the camera origin `(0,1.2,5)`: it lies outside the
sphere, the march towards the centre reports a hit on the sphere, and the
returned distance is within `SURF_DIST` of `|o - c| - 0.9`. -/
theorem C5_sphere_hit_accuracy_witness :
    0.9 < length_vec Real.sqrt (sub (⟨0, 1.2, 5⟩ : vec3 ℝ) ⟨0.3, -0.2, -1.5⟩)
    ∧ (raymarch Real.sqrt (⟨0, 1.2, 5⟩ : vec3 ℝ)
        (norm Real.sqrt (sub ⟨0.3, -0.2, -1.5⟩ ⟨0, 1.2, 5⟩)) 0).1 ≠ -1
    ∧ (raymarch Real.sqrt (⟨0, 1.2, 5⟩ : vec3 ℝ)
        (norm Real.sqrt (sub ⟨0.3, -0.2, -1.5⟩ ⟨0, 1.2, 5⟩)) 0).2 = 2
    ∧ |(raymarch Real.sqrt (⟨0, 1.2, 5⟩ : vec3 ℝ)
          (norm Real.sqrt (sub ⟨0.3, -0.2, -1.5⟩ ⟨0, 1.2, 5⟩)) 0).1
        - (length_vec Real.sqrt (sub (⟨0, 1.2, 5⟩ : vec3 ℝ) ⟨0.3, -0.2, -1.5⟩) - 0.9)|
      < 0.001 :=
  have hout : 0.9 < length_vec Real.sqrt (sub (⟨0, 1.2, 5⟩ : vec3 ℝ) ⟨0.3, -0.2, -1.5⟩) :=
    lt_trans (by norm_num) camera_len.1
  ⟨hout, camera_hit.1, camera_hit.2,
    C5_sphere_hit_accuracy ⟨0, 1.2, 5⟩ 0 hout camera_hit.1 camera_hit.2⟩

end CameraRay

section Shadow

variable {α : Type} [LinearOrderedField α]

theorem softShadowLoop_occluded (sqrt : α → α) (ro rd : vec3 α) (maxt k : α) (n : Nat)
    (res t : α) (h : (sceneSDF sqrt (add ro (mul rd t))).1 < SURF_DIST) :
    softShadowLoop sqrt ro rd maxt k (n + 1) res t = 0 := by
  simp only [softShadowLoop, if_pos h]
  norm_num

theorem softShadowLoop_break (sqrt : α → α) (ro rd : vec3 α) (maxt k : α) (n : Nat)
    (res t : α) (h : ¬ (sceneSDF sqrt (add ro (mul rd t))).1 < SURF_DIST)
    (h2 : t + (sceneSDF sqrt (add ro (mul rd t))).1 ≥ maxt) :
    softShadowLoop sqrt ro rd maxt k (n + 1) res t
      = min_f res (k * (sceneSDF sqrt (add ro (mul rd t))).1 / t) := by
  simp only [softShadowLoop, if_neg h, if_pos h2]

theorem softShadowLoop_step (sqrt : α → α) (ro rd : vec3 α) (maxt k : α) (n : Nat)
    (res t : α) (h : ¬ (sceneSDF sqrt (add ro (mul rd t))).1 < SURF_DIST)
    (h2 : ¬ t + (sceneSDF sqrt (add ro (mul rd t))).1 ≥ maxt) :
    softShadowLoop sqrt ro rd maxt k (n + 1) res t
      = softShadowLoop sqrt ro rd maxt k n
          (min_f res (k * (sceneSDF sqrt (add ro (mul rd t))).1 / t))
          (t + (sceneSDF sqrt (add ro (mul rd t))).1) := by
  simp only [softShadowLoop, if_neg h, if_neg h2]

/-- The running penumbra stays in `[0,1]` through the loop of `softShadow`. -/
theorem softShadowLoop_range (sqrt : α → α) (ro rd : vec3 α) (maxt k : α) (hk : 0 ≤ k) :
    ∀ (n : Nat) (res t : α), 0 ≤ res → res ≤ 1 → 0 < t →
      0 ≤ softShadowLoop sqrt ro rd maxt k n res t
      ∧ softShadowLoop sqrt ro rd maxt k n res t ≤ 1 := by
  intro n
  induction n with
  | zero =>
    intro res t h0 h1 _
    simp only [softShadowLoop]
    exact ⟨h0, h1⟩
  | succ n ih =>
    intro res t h0 h1 ht
    by_cases h : (sceneSDF sqrt (add ro (mul rd t))).1 < SURF_DIST
    · rw [softShadowLoop_occluded sqrt ro rd maxt k n res t h]
      exact ⟨le_refl 0, zero_le_one⟩
    · have hpos : 0 < (sceneSDF sqrt (add ro (mul rd t))).1 :=
        lt_of_lt_of_le SURF_DIST_pos (not_lt.mp h)
      have hq : 0 ≤ k * (sceneSDF sqrt (add ro (mul rd t))).1 / t :=
        div_nonneg (mul_nonneg hk (le_of_lt hpos)) (le_of_lt ht)
      have hm0 : 0 ≤ min_f res (k * (sceneSDF sqrt (add ro (mul rd t))).1 / t) := by
        rw [min_f_eq_min]; exact le_min h0 hq
      have hm1 : min_f res (k * (sceneSDF sqrt (add ro (mul rd t))).1 / t) ≤ 1 := by
        rw [min_f_eq_min]; exact le_trans (min_le_left _ _) h1
      by_cases h2 : t + (sceneSDF sqrt (add ro (mul rd t))).1 ≥ maxt
      · rw [softShadowLoop_break sqrt ro rd maxt k n res t h h2]
        exact ⟨hm0, hm1⟩
      · rw [softShadowLoop_step sqrt ro rd maxt k n res t h h2]
        exact ih _ _ hm0 hm1 (by linarith)

/-- C6: for every origin, direction and `maxT`, every `minT > 0` and every
softness `k ≥ 0`, `softShadow` returns a penumbra factor in `[0,1]`. -/
theorem C6_softShadow_range (sqrt : α → α) (ro rd : vec3 α) (mint maxt k : α)
    (hmint : 0 < mint) (hk : 0 ≤ k) :
    0 ≤ softShadow sqrt ro rd mint maxt k ∧ softShadow sqrt ro rd mint maxt k ≤ 1 := by
  unfold softShadow
  exact softShadowLoop_range sqrt ro rd maxt k hk 32 1.0 mint (by norm_num) (by norm_num) hmint

/-- Witness for C6 at the driver's parameters `minT = 0.02`, `maxT = 10.0`,
`k = 8.0`. -/
theorem C6_softShadow_range_witness :
    0 ≤ softShadow Real.sqrt (⟨0, 1.2, 5⟩ : vec3 ℝ) ⟨0, 1, 0⟩ 0.02 10.0 8.0
    ∧ softShadow Real.sqrt (⟨0, 1.2, 5⟩ : vec3 ℝ) ⟨0, 1, 0⟩ 0.02 10.0 8.0 ≤ 1 :=
  C6_softShadow_range Real.sqrt ⟨0, 1.2, 5⟩ ⟨0, 1, 0⟩ 0.02 10.0 8.0 (by norm_num) (by norm_num)

/-- The value part of `softShadowExit` is the value `softShadow` returns. -/
theorem softShadowExit_value (sqrt : α → α) (ro rd : vec3 α) (maxt k : α) :
    ∀ (n : Nat) (res t : α),
      (softShadowExit sqrt ro rd maxt k n res t).2.1 = softShadowLoop sqrt ro rd maxt k n res t := by
  intro n
  induction n with
  | zero => intro res t; simp only [softShadowExit, softShadowLoop]
  | succ n ih =>
    intro res t
    simp only [softShadowExit, softShadowLoop]
    split_ifs
    · rfl
    · rfl
    · exact ih _ _

/-- Clear-cone rule: when at every parameter `t` in `[0.02, 10)` the scene
distance is at least `t / 8`, the loop keeps the penumbra at 1. -/
theorem softShadowLoop_clear (sqrt : α → α) (ro rd : vec3 α)
    (hclear : ∀ t : α, 0.02 ≤ t → t < 10 → t ≤ 8 * (sceneSDF sqrt (add ro (mul rd t))).1) :
    ∀ (n : Nat) (t : α), 0.02 ≤ t → t < 10 →
      softShadowLoop sqrt ro rd 10.0 8.0 n 1 t = 1 := by
  intro n
  induction n with
  | zero => intro t _ _; simp only [softShadowLoop]
  | succ n ih =>
    intro t h0 h1
    have hc := hclear t h0 h1
    have htpos : (0 : α) < t := lt_of_lt_of_le (by norm_num) h0
    have hS : (SURF_DIST : α) = 0.001 := rfl
    have h : ¬ (sceneSDF sqrt (add ro (mul rd t))).1 < SURF_DIST := by
      rw [hS, not_lt]
      have : (0.02 : α) ≤ 8 * (sceneSDF sqrt (add ro (mul rd t))).1 := le_trans h0 hc
      norm_num at this ⊢
      linarith
    have hres : min_f 1 (8.0 * (sceneSDF sqrt (add ro (mul rd t))).1 / t) = 1 := by
      rw [min_f_eq_min]
      apply min_eq_left
      rw [le_div_iff₀ htpos]
      norm_num
      linarith
    by_cases h2 : t + (sceneSDF sqrt (add ro (mul rd t))).1 ≥ 10.0
    · rw [softShadowLoop_break sqrt ro rd 10.0 8.0 n 1 t h h2, hres]
    · rw [softShadowLoop_step sqrt ro rd 10.0 8.0 n 1 t h h2, hres]
      apply ih
      · have : (0 : α) ≤ (sceneSDF sqrt (add ro (mul rd t))).1 := by
          have := not_lt.mp h
          rw [hS] at this
          linarith [show (0 : α) < 0.001 by norm_num]
        linarith
      · have := not_le.mp h2
        norm_num at this
        exact this

end Shadow

section ShadowReal

/-- Just above the floor, in front of the box and beside the cylinder, the floor
is the nearest object, at distance 0.01. -/
theorem sceneSDF_grazing (q : vec3 ℝ) (hx0 : 0 ≤ q.x) (hx1 : q.x ≤ 0.4) (hy : q.y = -0.99)
    (hz : 0.5 ≤ q.z) : sceneSDF Real.sqrt q = (0.01, 4) := by
  have hc := (cylDist_ge q).1
  have hs := (sphDist_ge q).2.2
  have hb := (boxDist_ge q).1
  have a1 := le_abs_self (q.x + 2)
  have a2 := le_abs_self (q.z + 1.5)
  have a3 := neg_le_abs (q.x - 2.2)
  have hp : planeSDF q = 0.01 := by unfold planeSDF; rw [hy]; norm_num
  rw [← hp]
  apply sceneSDF_eq_plane <;> rw [hp] <;> norm_num at * <;> linarith

/-- The loop of `softShadow` along a ray on which the scene distance stays 0.01:
every step advances by 0.01 and the result is the last ratio `k*h/t`. -/
theorem softShadowLoop_grazing (ro rd : vec3 ℝ)
    (hsc : ∀ t : ℝ, 0 ≤ t → t ≤ 0.4 → (sceneSDF Real.sqrt (add ro (mul rd t))).1 = 0.01) :
    ∀ (n : Nat) (res t : ℝ), 0 < t → t + 0.01 * (n : ℝ) ≤ 0.4 →
      softShadowLoop Real.sqrt ro rd 10.0 8.0 n res t
        = if n = 0 then res else min res (0.08 / (t + 0.01 * ((n : ℝ) - 1))) := by
  intro n
  induction n with
  | zero => intro res t _ _; simp [softShadowLoop]
  | succ n ih =>
    intro res t ht hn
    have hn0 : (0 : ℝ) ≤ (n : ℝ) := Nat.cast_nonneg n
    push_cast at hn
    have hd := hsc t (le_of_lt ht) (by linarith)
    have h : ¬ (sceneSDF Real.sqrt (add ro (mul rd t))).1 < SURF_DIST := by
      rw [hd]; unfold SURF_DIST; norm_num
    have h2 : ¬ t + (sceneSDF Real.sqrt (add ro (mul rd t))).1 ≥ 10.0 := by
      rw [hd]; norm_num; linarith
    rw [softShadowLoop_step Real.sqrt ro rd 10.0 8.0 n res t h h2, hd,
      ih _ _ (by linarith) (by linarith), min_f_eq_min]
    have e1 : (8.0 : ℝ) * 0.01 / t = 0.08 / t := by norm_num
    rw [e1, if_neg (Nat.succ_ne_zero n)]
    push_cast
    by_cases hz : n = 0
    · rw [if_pos hz, hz]
      norm_num
    · rw [if_neg hz]
      have hn1 : (1 : ℝ) ≤ (n : ℝ) := by exact_mod_cast Nat.one_le_iff_ne_zero.mpr hz
      have e2 : t + 0.01 + 0.01 * ((n : ℝ) - 1) = t + 0.01 * ((n : ℝ) + 1 - 1) := by ring
      rw [e2, min_assoc]
      congr 1
      apply min_eq_right
      apply div_le_div_of_nonneg_left (by norm_num) ht
      linarith

/-- Value of `softShadow` on a ray that stays 0.01 above the floor. -/
theorem softShadow_grazing (ro rd : vec3 ℝ)
    (hsc : ∀ t : ℝ, 0 ≤ t → t ≤ 0.4 → (sceneSDF Real.sqrt (add ro (mul rd t))).1 = 0.01) :
    softShadow Real.sqrt ro rd 0.02 10.0 8.0 = 8 / 33 := by
  unfold softShadow
  rw [softShadowLoop_grazing ro rd hsc 32 1.0 0.02 (by norm_num) (by norm_num)]
  norm_num

theorem grazing_x_scene (t : ℝ) (h0 : 0 ≤ t) (h1 : t ≤ 0.4) :
    (sceneSDF Real.sqrt (add (⟨0, -0.99, 0.5⟩ : vec3 ℝ) (mul ⟨1, 0, 0⟩ t))).1 = 0.01 := by
  rw [sceneSDF_grazing _ (by simp only [add, mul]; linarith) (by simp only [add, mul]; linarith)
    (by simp only [add, mul]; ring) (by simp only [add, mul]; linarith)]

theorem grazing_z_scene (t : ℝ) (h0 : 0 ≤ t) :
    (sceneSDF Real.sqrt (add (⟨0, -0.99, 0.5⟩ : vec3 ℝ) (mul ⟨0, 0, 1⟩ t))).1 = 0.01 := by
  rw [sceneSDF_grazing _ (by simp only [add, mul]; linarith)
    (by simp only [add, mul]; norm_num) (by simp only [add, mul]; ring)
    (by simp only [add, mul]; linarith)]

theorem inside_box_scene :
    (sceneSDF Real.sqrt (add (⟨0, -0.99, 0.5⟩ : vec3 ℝ) (mul ⟨1, 0, 0⟩ 2))).1 < 0 := by
  have hb : boxDist Real.sqrt (add (⟨0, -0.99, 0.5⟩ : vec3 ℝ) (mul ⟨1, 0, 0⟩ 2)) = -0.06 := by
    unfold boxDist boxSDF add mul sub
    simp only [max_f_eq_max, min_f_eq_min]
    norm_num [abs_div]
  have := sceneSDF_le_box Real.sqrt (add (⟨0, -0.99, 0.5⟩ : vec3 ℝ) (mul ⟨1, 0, 0⟩ 2))
  rw [hb] at this
  linarith [show (-0.06 : ℝ) < 0 by norm_num]

end ShadowReal

section ShadowClaims

/-- With an occluder at parameter `ts ≤ 10` on a unit-direction ray, the shadow
march started at or before `ts` never steps past `ts`: it leaves either through
the occlusion test or by running out of steps. -/
theorem softShadowExit_occluder (ro rd : vec3 ℝ) (hrd : length_vec Real.sqrt rd = 1) (ts : ℝ)
    (hts : ts ≤ 10) (hocc : (sceneSDF Real.sqrt (add ro (mul rd ts))).1 < 0) :
    ∀ (n : Nat) (res t : ℝ), t ≤ ts →
      ((softShadowExit Real.sqrt ro rd 10.0 8.0 n res t).1 = ShadowExit.occluded
        ∧ (softShadowExit Real.sqrt ro rd 10.0 8.0 n res t).2.1 = 0)
      ∨ ((softShadowExit Real.sqrt ro rd 10.0 8.0 n res t).1 = ShadowExit.outOfSteps
        ∧ (softShadowExit Real.sqrt ro rd 10.0 8.0 n res t).2.2 ≤ ts) := by
  intro n
  induction n with
  | zero =>
    intro res t ht
    right
    simp only [softShadowExit]
    exact ⟨trivial, ht⟩
  | succ n ih =>
    intro res t ht
    by_cases h : (sceneSDF Real.sqrt (add ro (mul rd t))).1 < SURF_DIST
    · left
      simp only [softShadowExit, if_pos h]
      exact ⟨trivial, by norm_num⟩
    · have hl := sceneSDF_ray_lip ro rd hrd t ts
      rw [abs_sub_comm, abs_of_nonneg (sub_nonneg.mpr ht)] at hl
      have h2 : ¬ t + (sceneSDF Real.sqrt (add ro (mul rd t))).1 ≥ 10.0 := by
        rw [not_le]
        norm_num
        linarith
      simp only [softShadowExit, if_neg h, if_neg h2]
      exact ih _ _ (by linarith)

/-- C7 (as amended): on a unit-direction ray that passes through an occluder at
some `ts` with `0.02 ≤ ts ≤ 10`, `softShadow(origin, dir, 0.02, 10.0, 8.0)`
returns 0.0 unless its 32 steps run out first; the march never steps past the
occluder, so it never leaves through the `t >= maxt` exit. -/
theorem C7_softShadow_occluder_amended (ro rd : vec3 ℝ) (hrd : length_vec Real.sqrt rd = 1)
    (ts : ℝ) (h1 : 0.02 ≤ ts) (h2 : ts ≤ 10)
    (hocc : (sceneSDF Real.sqrt (add ro (mul rd ts))).1 < 0) :
    softShadow Real.sqrt ro rd 0.02 10.0 8.0 = 0
    ∨ ((softShadowExit Real.sqrt ro rd 10.0 8.0 32 1.0 0.02).1 = ShadowExit.outOfSteps
      ∧ (softShadowExit Real.sqrt ro rd 10.0 8.0 32 1.0 0.02).2.2 ≤ ts) := by
  rcases softShadowExit_occluder ro rd hrd ts h2 hocc 32 1.0 0.02 h1 with ⟨-, h⟩ | h
  · left
    unfold softShadow
    rw [← softShadowExit_value]
    exact h
  · exact Or.inr h

theorem unit_x : length_vec Real.sqrt (⟨1, 0, 0⟩ : vec3 ℝ) = 1 := by
  simp [length_vec]

theorem unit_z : length_vec Real.sqrt (⟨0, 0, 1⟩ : vec3 ℝ) = 1 := by
  simp [length_vec]

/-- C7 fails as stated: the unit-direction ray from `(0,-0.99,0.5)` along `+x`
stays 0.01 above the floor, is inside the box at `t = 2`, and `softShadow`
spends its 32 steps of length 0.01 and returns `8/33`, not 0. -/
theorem C7_softShadow_occluder_counterexample :
    length_vec Real.sqrt (⟨1, 0, 0⟩ : vec3 ℝ) = 1
    ∧ ((0.02 : ℝ) ≤ 2 ∧ (2 : ℝ) ≤ 10.0
      ∧ (sceneSDF Real.sqrt (add (⟨0, -0.99, 0.5⟩ : vec3 ℝ) (mul ⟨1, 0, 0⟩ 2))).1 < 0)
    ∧ softShadow Real.sqrt (⟨0, -0.99, 0.5⟩ : vec3 ℝ) ⟨1, 0, 0⟩ 0.02 10.0 8.0 = 8 / 33
    ∧ softShadow Real.sqrt (⟨0, -0.99, 0.5⟩ : vec3 ℝ) ⟨1, 0, 0⟩ 0.02 10.0 8.0 ≠ 0.0 := by
  have hv := softShadow_grazing (⟨0, -0.99, 0.5⟩ : vec3 ℝ) ⟨1, 0, 0⟩ grazing_x_scene
  refine ⟨unit_x, ⟨by norm_num, by norm_num, inside_box_scene⟩, hv, ?_⟩
  rw [hv]
  norm_num

/-- Witness for the amended C7 on the same occluded ray: the march ends by
running out of steps in front of the occluder at `t = 2`. -/
theorem C7_softShadow_occluder_amended_witness :
    softShadow Real.sqrt (⟨0, -0.99, 0.5⟩ : vec3 ℝ) ⟨1, 0, 0⟩ 0.02 10.0 8.0 = 0
    ∨ ((softShadowExit Real.sqrt (⟨0, -0.99, 0.5⟩ : vec3 ℝ) ⟨1, 0, 0⟩ 10.0 8.0 32 1.0 0.02).1
        = ShadowExit.outOfSteps
      ∧ (softShadowExit Real.sqrt (⟨0, -0.99, 0.5⟩ : vec3 ℝ) ⟨1, 0, 0⟩ 10.0 8.0 32 1.0 0.02).2.2
        ≤ 2) :=
  C7_softShadow_occluder_amended ⟨0, -0.99, 0.5⟩ ⟨1, 0, 0⟩ unit_x 2 (by norm_num) (by norm_num)
    inside_box_scene

/-- C8 fails as stated: the unit-direction ray from `(0,-0.99,0.5)` along `+z`
has positive scene distance at every `t` in `[0,10]`, yet `softShadow` returns
`8/33`, not 1.0. -/
theorem C8_softShadow_unoccluded_counterexample :
    length_vec Real.sqrt (⟨0, 0, 1⟩ : vec3 ℝ) = 1
    ∧ (∀ t : ℝ, 0 ≤ t → t ≤ 10.0 →
        0 < (sceneSDF Real.sqrt (add (⟨0, -0.99, 0.5⟩ : vec3 ℝ) (mul ⟨0, 0, 1⟩ t))).1)
    ∧ softShadow Real.sqrt (⟨0, -0.99, 0.5⟩ : vec3 ℝ) ⟨0, 0, 1⟩ 0.02 10.0 8.0 = 8 / 33
    ∧ softShadow Real.sqrt (⟨0, -0.99, 0.5⟩ : vec3 ℝ) ⟨0, 0, 1⟩ 0.02 10.0 8.0 ≠ 1.0 := by
  have hv := softShadow_grazing (⟨0, -0.99, 0.5⟩ : vec3 ℝ) ⟨0, 0, 1⟩
    (fun t h0 _ => grazing_z_scene t h0)
  refine ⟨unit_z, fun t h0 _ => ?_, hv, ?_⟩
  · rw [grazing_z_scene t h0]; norm_num
  · rw [hv]; norm_num

/-- C8 (as amended): when at every ray parameter `t` with `0.02 ≤ t < 10` the
scene distance at `origin + t*dir` is at least `t / 8` (so that `k*h/t ≥ 1` at
every sample), `softShadow(origin, dir, 0.02, 10.0, 8.0)` returns exactly 1.0. -/
theorem C8_softShadow_clear_amended {α : Type} [LinearOrderedField α] (sqrt : α → α)
    (ro rd : vec3 α)
    (hclear : ∀ t : α, 0.02 ≤ t → t < 10 → t ≤ 8 * (sceneSDF sqrt (add ro (mul rd t))).1) :
    softShadow sqrt ro rd 0.02 10.0 8.0 = 1.0 := by
  unfold softShadow
  have e : (1.0 : α) = 1 := by norm_num
  rw [e]
  exact softShadowLoop_clear sqrt ro rd hclear 32 0.02 (le_refl _) (by norm_num)

/-- Witness for the amended C8: the ray from `(0,10,0)` straight up keeps every
object at distance at least `8 + t`. -/
theorem C8_softShadow_clear_amended_witness :
    softShadow Real.sqrt (⟨0, 10, 0⟩ : vec3 ℝ) ⟨0, 1, 0⟩ 0.02 10.0 8.0 = 1.0 :=
  C8_softShadow_clear_amended Real.sqrt ⟨0, 10, 0⟩ ⟨0, 1, 0⟩ (fun t h0 _ => by
    have h := sceneSDF_high (add (⟨0, 10, 0⟩ : vec3 ℝ) (mul ⟨0, 1, 0⟩ t))
    have hy : (add (⟨0, 10, 0⟩ : vec3 ℝ) (mul ⟨0, 1, 0⟩ t)).y = 10 + t := by
      simp only [add, mul]; ring
    rw [hy] at h
    have : (0 : ℝ) ≤ t := le_trans (by norm_num) h0
    linarith)

end ShadowClaims

section Shading

variable {α : Type} [LinearOrderedField α]

theorem toInt32_parity (z : Int) : 2 ∣ toInt32 z ↔ 2 ∣ z := by
  unfold toInt32
  omega

/-- The wrapped checkerboard test of the source decides the parity of
`floor(p.x) + floor(p.z)`. -/
theorem floorTile_eq [FloorRing α] (p : vec3 α) :
    floorTile p = if Even (⌊p.x⌋ + ⌊p.z⌋) then ⟨0.8, 0.8, 0.8⟩ else ⟨0.5, 0.2, 0.2⟩ := by
  unfold floorTile
  simp only []
  have e : (1.0 : α) = 1 := by norm_num
  rw [e, div_one, div_one]
  have hiff : Int.tmod (toInt32 (toInt32 ⌊p.x⌋ + toInt32 ⌊p.z⌋)) 2 = 0 ↔ Even (⌊p.x⌋ + ⌊p.z⌋) := by
    rw [← Int.dvd_iff_tmod_eq_zero, toInt32_parity, even_iff_two_dvd]
    have h1 := toInt32_parity ⌊p.x⌋
    have h2 := toInt32_parity ⌊p.z⌋
    unfold toInt32 at *
    omega
  by_cases h : Even (⌊p.x⌋ + ⌊p.z⌋)
  · rw [if_pos h, if_pos (hiff.mpr h)]
  · rw [if_neg h, if_neg (fun h2 => h (hiff.mp h2))]

theorem light_ne_dark : (⟨0.8, 0.8, 0.8⟩ : color α) ≠ ⟨0.5, 0.2, 0.2⟩ := by
  intro h
  have h2 := congrArg color.r h
  simp only [] at h2
  norm_num at h2

theorem material_nonneg [FloorRing α] (p : vec3 α) (objID : Int) :
    0 ≤ (material p objID).1.r ∧ 0 ≤ (material p objID).1.g ∧ 0 ≤ (material p objID).1.b
      ∧ 0 ≤ (material p objID).2.1 ∧ 0 ≤ (material p objID).2.2 := by
  unfold material
  split_ifs
  · norm_num
  · norm_num
  · norm_num
  · rw [floorTile_eq]
    split_ifs <;> norm_num
  · norm_num

theorem max_f_zero_nonneg (a : α) : 0 ≤ max_f a 0.0 := by
  rw [max_f_eq_max]
  exact le_trans (by norm_num) (le_max_right _ _)

theorem min_f_one_range (a : α) (ha : 0 ≤ a) : 0 ≤ min_f a 1.0 ∧ min_f a 1.0 ≤ 1 := by
  rw [min_f_eq_min]
  exact ⟨le_min ha (by norm_num), le_trans (min_le_right _ _) (by norm_num)⟩

/-- C9: for every point, object identifier (also outside 1..4), normal, light
and view direction, every reflection colour with non-negative components and
every shadow factor `≥ 0`, each channel of the colour returned by `getColor`
lies in `[0,1]`. -/
theorem C9_getColor_channels_in_unit [FloorRing α] (sqrt : α → α) (p : vec3 α) (objID : Int)
    (normal lightDir viewDir reflectColor : vec3 α) (shadow : α)
    (hx : 0 ≤ reflectColor.x) (hy : 0 ≤ reflectColor.y) (hz : 0 ≤ reflectColor.z)
    (hs : 0 ≤ shadow) :
    (0 ≤ (getColor sqrt p objID normal lightDir viewDir reflectColor shadow).r
      ∧ (getColor sqrt p objID normal lightDir viewDir reflectColor shadow).r ≤ 1)
    ∧ (0 ≤ (getColor sqrt p objID normal lightDir viewDir reflectColor shadow).g
      ∧ (getColor sqrt p objID normal lightDir viewDir reflectColor shadow).g ≤ 1)
    ∧ (0 ≤ (getColor sqrt p objID normal lightDir viewDir reflectColor shadow).b
      ∧ (getColor sqrt p objID normal lightDir viewDir reflectColor shadow).b ≤ 1) := by
  obtain ⟨mr, mg, mb, msh, mrf⟩ := material_nonneg p objID
  have hd : 0 ≤ max_f (dot normal lightDir) 0.0 * shadow :=
    mul_nonneg (max_f_zero_nonneg _) hs
  have hsp : 0 ≤ (max_f (dot normal (norm sqrt (add lightDir (mul viewDir (-1))))) 0.0) ^ 32
      * (material p objID).2.1 * shadow :=
    mul_nonneg (mul_nonneg (pow_nonneg (max_f_zero_nonneg _) 32) msh) hs
  have hamb : 0 ≤ (0.03 : α) + max_f (dot normal lightDir) 0.0 * shadow * 0.6 := by
    have : (0 : α) ≤ 0.6 := by norm_num
    have := mul_nonneg hd this
    linarith [show (0 : α) ≤ 0.03 by norm_num]
  have hsp8 : 0 ≤ (max_f (dot normal (norm sqrt (add lightDir (mul viewDir (-1))))) 0.0) ^ 32
      * (material p objID).2.1 * shadow * 0.8 := mul_nonneg hsp (by norm_num)
  unfold getColor
  simp only []
  refine ⟨min_f_one_range _ ?_, min_f_one_range _ ?_, min_f_one_range _ ?_⟩
  · exact add_nonneg (add_nonneg (mul_nonneg mr hamb) hsp8) (mul_nonneg hx mrf)
  · exact add_nonneg (add_nonneg (mul_nonneg mg hamb) hsp8) (mul_nonneg hy mrf)
  · exact add_nonneg (add_nonneg (mul_nonneg mb hamb) hsp8) (mul_nonneg hz mrf)

/-- Witness for C9: the sphere material lit head-on with the sky colour as
reflection colour. -/
theorem C9_getColor_channels_in_unit_witness :
    (0 ≤ (getColor Real.sqrt (⟨0, 0, 0⟩ : vec3 ℝ) 2 ⟨0, 1, 0⟩ ⟨0, 1, 0⟩ ⟨0, 0, -1⟩
            ⟨0.02, 0.02, 0.03⟩ 1).r
      ∧ (getColor Real.sqrt (⟨0, 0, 0⟩ : vec3 ℝ) 2 ⟨0, 1, 0⟩ ⟨0, 1, 0⟩ ⟨0, 0, -1⟩
            ⟨0.02, 0.02, 0.03⟩ 1).r ≤ 1)
    ∧ (0 ≤ (getColor Real.sqrt (⟨0, 0, 0⟩ : vec3 ℝ) 2 ⟨0, 1, 0⟩ ⟨0, 1, 0⟩ ⟨0, 0, -1⟩
            ⟨0.02, 0.02, 0.03⟩ 1).g
      ∧ (getColor Real.sqrt (⟨0, 0, 0⟩ : vec3 ℝ) 2 ⟨0, 1, 0⟩ ⟨0, 1, 0⟩ ⟨0, 0, -1⟩
            ⟨0.02, 0.02, 0.03⟩ 1).g ≤ 1)
    ∧ (0 ≤ (getColor Real.sqrt (⟨0, 0, 0⟩ : vec3 ℝ) 2 ⟨0, 1, 0⟩ ⟨0, 1, 0⟩ ⟨0, 0, -1⟩
            ⟨0.02, 0.02, 0.03⟩ 1).b
      ∧ (getColor Real.sqrt (⟨0, 0, 0⟩ : vec3 ℝ) 2 ⟨0, 1, 0⟩ ⟨0, 1, 0⟩ ⟨0, 0, -1⟩
            ⟨0.02, 0.02, 0.03⟩ 1).b ≤ 1) :=
  C9_getColor_channels_in_unit Real.sqrt ⟨0, 0, 0⟩ 2 ⟨0, 1, 0⟩ ⟨0, 1, 0⟩ ⟨0, 0, -1⟩
    ⟨0.02, 0.02, 0.03⟩ 1 (by norm_num) (by norm_num) (by norm_num) (by norm_num)

/-- With zero reflection colour and zero shadow factor `getColor` returns 0.03
times the base colour of the material. -/
theorem getColor_dark [FloorRing α] (sqrt : α → α) (p : vec3 α) (objID : Int)
    (normal lightDir viewDir : vec3 α) :
    getColor sqrt p objID normal lightDir viewDir ⟨0, 0, 0⟩ 0
      = ⟨(material p objID).1.r * 0.03, (material p objID).1.g * 0.03,
          (material p objID).1.b * 0.03⟩ := by
  have hle : (material p objID).1.r ≤ 1 ∧ (material p objID).1.g ≤ 1
      ∧ (material p objID).1.b ≤ 1 := by
    unfold material
    split_ifs
    · norm_num
    · norm_num
    · norm_num
    · rw [floorTile_eq]
      split_ifs <;> norm_num
    · norm_num
  obtain ⟨h1, h2, h3⟩ := hle
  unfold getColor
  simp only [mul_zero, zero_mul, add_zero]
  have k : ∀ c : α, c ≤ 1 → min_f (c * 0.03) 1.0 = c * 0.03 := by
    intro c hc
    rw [min_f_eq_min]
    apply min_eq_left
    have : c * 0.03 ≤ 1 * 0.03 := mul_le_mul_of_nonneg_right hc (by norm_num)
    linarith [show (1 : α) * 0.03 ≤ 1.0 by norm_num]
  rw [k _ h1, k _ h2, k _ h3]

/-- C10: for the floor (identifier 4) and every point `p`, also with negative
coordinates, the base colour is the light tile `(0.8,0.8,0.8)` exactly when
`floor(p.x) + floor(p.z)` is even and the dark tile `(0.5,0.2,0.2)` otherwise;
`getColor` with zero reflection colour and zero shadow returns 0.03 times that
colour; and moving `p` by one unit along x or along z switches the tile. -/
theorem C10_floor_checkerboard [FloorRing α] (sqrt : α → α)
    (p normal lightDir viewDir : vec3 α) :
    (material p 4).1 = (if Even (⌊p.x⌋ + ⌊p.z⌋) then ⟨0.8, 0.8, 0.8⟩ else ⟨0.5, 0.2, 0.2⟩)
    ∧ getColor sqrt p 4 normal lightDir viewDir ⟨0, 0, 0⟩ 0
        = (if Even (⌊p.x⌋ + ⌊p.z⌋) then ⟨0.8 * 0.03, 0.8 * 0.03, 0.8 * 0.03⟩
            else ⟨0.5 * 0.03, 0.2 * 0.03, 0.2 * 0.03⟩)
    ∧ (material ⟨p.x + 1, p.y, p.z⟩ 4).1 ≠ (material p 4).1
    ∧ (material ⟨p.x, p.y, p.z + 1⟩ 4).1 ≠ (material p 4).1 := by
  have hm : ∀ q : vec3 α, (material q 4).1
      = (if Even (⌊q.x⌋ + ⌊q.z⌋) then ⟨0.8, 0.8, 0.8⟩ else ⟨0.5, 0.2, 0.2⟩) := by
    intro q
    unfold material
    simp only [show ¬ ((4 : Int) = 1) by decide, show ¬ ((4 : Int) = 2) by decide,
      show ¬ ((4 : Int) = 3) by decide, if_false, if_true]
    exact floorTile_eq q
  refine ⟨hm p, ?_, ?_, ?_⟩
  · rw [getColor_dark, hm p]
    split_ifs <;> rfl
  · rw [hm, hm]
    simp only []
    have e : ⌊p.x + 1⌋ + ⌊p.z⌋ = (⌊p.x⌋ + ⌊p.z⌋) + 1 := by rw [Int.floor_add_one]; ring
    rw [e]
    by_cases h : Even (⌊p.x⌋ + ⌊p.z⌋)
    · rw [if_pos h, if_neg (by rw [Int.even_add_one]; exact not_not.mpr h)]
      exact fun h2 => light_ne_dark h2.symm
    · rw [if_neg h, if_pos (Int.even_add_one.mpr h)]
      exact light_ne_dark
  · rw [hm, hm]
    simp only []
    have e : ⌊p.x⌋ + ⌊p.z + 1⌋ = (⌊p.x⌋ + ⌊p.z⌋) + 1 := by rw [Int.floor_add_one]; ring
    rw [e]
    by_cases h : Even (⌊p.x⌋ + ⌊p.z⌋)
    · rw [if_pos h, if_neg (by rw [Int.even_add_one]; exact not_not.mpr h)]
      exact fun h2 => light_ne_dark h2.symm
    · rw [if_neg h, if_pos (Int.even_add_one.mpr h)]
      exact light_ne_dark

end Shading

section Reflect

/-- For a unit-length vector the dot product with itself is 1. -/
theorem dot_self_of_unit (N : vec3 ℝ) (hN : length_vec Real.sqrt N = 1) : dot N N = 1 := by
  unfold length_vec at hN
  unfold dot
  have h0 : 0 ≤ N.x * N.x + N.y * N.y + N.z * N.z := by
    nlinarith [mul_self_nonneg N.x, mul_self_nonneg N.y, mul_self_nonneg N.z]
  have := Real.mul_self_sqrt h0
  rw [hN] at this
  linarith

/-- C20: for every vector `I` and every unit-length `N`, `reflect_vec(I, N)` has
the length of `I` and reflecting twice gives `I` back; hence the reflected
direction is unit length whenever `I` and `N` are. -/
theorem C20_reflect_vec_isometry_involution (I N : vec3 ℝ)
    (hN : length_vec Real.sqrt N = 1) :
    length_vec Real.sqrt (reflect_vec I N) = length_vec Real.sqrt I
    ∧ reflect_vec (reflect_vec I N) N = I
    ∧ (length_vec Real.sqrt I = 1 → length_vec Real.sqrt (reflect_vec I N) = 1) := by
  have hd := dot_self_of_unit N hN
  unfold dot at hd
  have hlen : length_vec Real.sqrt (reflect_vec I N) = length_vec Real.sqrt I := by
    unfold length_vec reflect_vec sub mul dot
    simp only []
    congr 1
    have e : (2.0 : ℝ) = 2 := by norm_num
    rw [e]
    have key : (I.x - N.x * (2 * (N.x * I.x + N.y * I.y + N.z * I.z)))
          * (I.x - N.x * (2 * (N.x * I.x + N.y * I.y + N.z * I.z)))
        + (I.y - N.y * (2 * (N.x * I.x + N.y * I.y + N.z * I.z)))
          * (I.y - N.y * (2 * (N.x * I.x + N.y * I.y + N.z * I.z)))
        + (I.z - N.z * (2 * (N.x * I.x + N.y * I.y + N.z * I.z)))
          * (I.z - N.z * (2 * (N.x * I.x + N.y * I.y + N.z * I.z)))
        = I.x * I.x + I.y * I.y + I.z * I.z
          + 4 * (N.x * I.x + N.y * I.y + N.z * I.z) ^ 2
            * ((N.x * N.x + N.y * N.y + N.z * N.z) - 1) := by ring
    rw [key, hd]
    ring
  refine ⟨hlen, ?_, fun hI => by rw [hlen, hI]⟩
  unfold reflect_vec sub mul dot
  simp only []
  have e : (2.0 : ℝ) = 2 := by norm_num
  rw [e]
  have kx : I.x - N.x * (2 * (N.x * I.x + N.y * I.y + N.z * I.z))
      - N.x * (2 * (N.x * (I.x - N.x * (2 * (N.x * I.x + N.y * I.y + N.z * I.z)))
        + N.y * (I.y - N.y * (2 * (N.x * I.x + N.y * I.y + N.z * I.z)))
        + N.z * (I.z - N.z * (2 * (N.x * I.x + N.y * I.y + N.z * I.z))))) = I.x := by
    have : I.x - N.x * (2 * (N.x * I.x + N.y * I.y + N.z * I.z))
      - N.x * (2 * (N.x * (I.x - N.x * (2 * (N.x * I.x + N.y * I.y + N.z * I.z)))
        + N.y * (I.y - N.y * (2 * (N.x * I.x + N.y * I.y + N.z * I.z)))
        + N.z * (I.z - N.z * (2 * (N.x * I.x + N.y * I.y + N.z * I.z)))))
      = I.x + 4 * N.x * (N.x * I.x + N.y * I.y + N.z * I.z)
          * ((N.x * N.x + N.y * N.y + N.z * N.z) - 1) := by ring
    rw [this, hd]; ring
  have ky : I.y - N.y * (2 * (N.x * I.x + N.y * I.y + N.z * I.z))
      - N.y * (2 * (N.x * (I.x - N.x * (2 * (N.x * I.x + N.y * I.y + N.z * I.z)))
        + N.y * (I.y - N.y * (2 * (N.x * I.x + N.y * I.y + N.z * I.z)))
        + N.z * (I.z - N.z * (2 * (N.x * I.x + N.y * I.y + N.z * I.z))))) = I.y := by
    have : I.y - N.y * (2 * (N.x * I.x + N.y * I.y + N.z * I.z))
      - N.y * (2 * (N.x * (I.x - N.x * (2 * (N.x * I.x + N.y * I.y + N.z * I.z)))
        + N.y * (I.y - N.y * (2 * (N.x * I.x + N.y * I.y + N.z * I.z)))
        + N.z * (I.z - N.z * (2 * (N.x * I.x + N.y * I.y + N.z * I.z)))))
      = I.y + 4 * N.y * (N.x * I.x + N.y * I.y + N.z * I.z)
          * ((N.x * N.x + N.y * N.y + N.z * N.z) - 1) := by ring
    rw [this, hd]; ring
  have kz : I.z - N.z * (2 * (N.x * I.x + N.y * I.y + N.z * I.z))
      - N.z * (2 * (N.x * (I.x - N.x * (2 * (N.x * I.x + N.y * I.y + N.z * I.z)))
        + N.y * (I.y - N.y * (2 * (N.x * I.x + N.y * I.y + N.z * I.z)))
        + N.z * (I.z - N.z * (2 * (N.x * I.x + N.y * I.y + N.z * I.z))))) = I.z := by
    have : I.z - N.z * (2 * (N.x * I.x + N.y * I.y + N.z * I.z))
      - N.z * (2 * (N.x * (I.x - N.x * (2 * (N.x * I.x + N.y * I.y + N.z * I.z)))
        + N.y * (I.y - N.y * (2 * (N.x * I.x + N.y * I.y + N.z * I.z)))
        + N.z * (I.z - N.z * (2 * (N.x * I.x + N.y * I.y + N.z * I.z)))))
      = I.z + 4 * N.z * (N.x * I.x + N.y * I.y + N.z * I.z)
          * ((N.x * N.x + N.y * N.y + N.z * N.z) - 1) := by ring
    rw [this, hd]; ring
  rw [kx, ky, kz]

/-- Witness for C20: reflecting `(3,4,0)` about the unit normal `(0,1,0)`. -/
theorem C20_reflect_vec_isometry_involution_witness :
    length_vec Real.sqrt (reflect_vec (⟨3, 4, 0⟩ : vec3 ℝ) ⟨0, 1, 0⟩)
        = length_vec Real.sqrt (⟨3, 4, 0⟩ : vec3 ℝ)
    ∧ reflect_vec (reflect_vec (⟨3, 4, 0⟩ : vec3 ℝ) ⟨0, 1, 0⟩) ⟨0, 1, 0⟩ = ⟨3, 4, 0⟩ :=
  have h := C20_reflect_vec_isometry_involution (⟨3, 4, 0⟩ : vec3 ℝ) ⟨0, 1, 0⟩
    (by simp [length_vec])
  ⟨h.1, h.2.1⟩

end Reflect

section Normalise

/-- Normalising a vector of positive length gives a unit-length vector. -/
theorem norm_unit (a : vec3 ℝ) (h : 0 < length_vec Real.sqrt a) :
    length_vec Real.sqrt (norm Real.sqrt a) = 1 := by
  unfold norm
  simp only []
  set l := length_vec Real.sqrt a with hl
  have hl0 : l ≠ 0 := ne_of_gt h
  have hsq : a.x * a.x + a.y * a.y + a.z * a.z = l * l := by
    rw [hl]
    unfold length_vec
    rw [Real.mul_self_sqrt]
    nlinarith [mul_self_nonneg a.x, mul_self_nonneg a.y, mul_self_nonneg a.z]
  unfold length_vec mul
  simp only []
  have e : a.x * (1 / l) * (a.x * (1 / l)) + a.y * (1 / l) * (a.y * (1 / l))
      + a.z * (1 / l) * (a.z * (1 / l)) = 1 := by
    have : a.x * (1 / l) * (a.x * (1 / l)) + a.y * (1 / l) * (a.y * (1 / l))
      + a.z * (1 / l) * (a.z * (1 / l))
      = (a.x * a.x + a.y * a.y + a.z * a.z) * ((1 / l) * (1 / l)) := by ring
    rw [this, hsq]
    field_simp
  rw [e, Real.sqrt_one]

/-- A vector with a non-zero component has positive length. -/
theorem length_vec_pos (a : vec3 ℝ) (h : a.x ≠ 0 ∨ a.y ≠ 0 ∨ a.z ≠ 0) :
    0 < length_vec Real.sqrt a := by
  unfold length_vec
  apply Real.sqrt_pos.mpr
  rcases h with h | h | h
  · have := mul_self_pos.mpr h
    nlinarith [mul_self_nonneg a.y, mul_self_nonneg a.z]
  · have := mul_self_pos.mpr h
    nlinarith [mul_self_nonneg a.x, mul_self_nonneg a.z]
  · have := mul_self_pos.mpr h
    nlinarith [mul_self_nonneg a.x, mul_self_nonneg a.y]

/-- C18: for every field of view and all pixel coordinates, whatever values
`tan` and `M_PI` take, `rayDirection(fov, x, y)` is a unit-length vector with
strictly negative z component. -/
theorem C18_rayDirection_unit_negative_z (tan : ℝ → ℝ) (pi fov : ℝ) (x y : Int) :
    length_vec Real.sqrt (rayDirection Real.sqrt tan pi fov x y) = 1
    ∧ (rayDirection Real.sqrt tan pi fov x y).z < 0 := by
  unfold rayDirection
  simp only []
  generalize (2 * (((x : ℝ) + 0.5) / (WIDTH : ℝ)) - 1) * tan (fov / 2 * pi / 180)
      * ((WIDTH : ℝ) / (HEIGHT : ℝ)) * 1.4 = px
  generalize (1 - 2 * (((y : ℝ) + 0.5) / (HEIGHT : ℝ))) * tan (fov / 2 * pi / 180) * 1.4 = py
  have hpos : 0 < length_vec Real.sqrt (⟨px, py, -1⟩ : vec3 ℝ) :=
    length_vec_pos _ (Or.inr (Or.inr (by norm_num)))
  refine ⟨norm_unit _ hpos, ?_⟩
  unfold norm mul
  simp only []
  have : 0 < 1 / length_vec Real.sqrt (⟨px, py, -1⟩ : vec3 ℝ) := one_div_pos.mpr hpos
  linarith

end Normalise

section Bounds

/-- C15: the scene distance is a lower bound on the Euclidean distance to any
point on or inside an object: if `sceneSDF(q) ≤ 0` then
`sceneSDF(p) ≤ |p - q|`. -/
theorem C15_sceneSDF_lower_bound (p q : vec3 ℝ) (hq : (sceneSDF Real.sqrt q).1 ≤ 0) :
    (sceneSDF Real.sqrt p).1 ≤ length_vec Real.sqrt (sub p q) := by
  have := sceneSDF_lip p q
  linarith

/-- Witness for C15: the camera `(0,1.2,5)` against the floor point `(0,-1,5)`
right below it. -/
theorem C15_sceneSDF_lower_bound_witness :
    (sceneSDF Real.sqrt (⟨0, 1.2, 5⟩ : vec3 ℝ)).1
      ≤ length_vec Real.sqrt (sub (⟨0, 1.2, 5⟩ : vec3 ℝ) ⟨0, -1, 5⟩) :=
  C15_sceneSDF_lower_bound ⟨0, 1.2, 5⟩ ⟨0, -1, 5⟩ (by
    have h := sceneSDF_le_plane Real.sqrt (⟨0, -1, 5⟩ : vec3 ℝ)
    have e : planeSDF (⟨0, -1, 5⟩ : vec3 ℝ) = 0 := by unfold planeSDF; norm_num
    rw [e] at h
    exact h)

/-- Sign of the box/cylinder distance formula in three excess coordinates. -/
theorem core3_sign (a1 a2 a3 : ℝ) :
    (Real.sqrt (max a1 0 * max a1 0 + max a2 0 * max a2 0 + max a3 0 * max a3 0)
        + min (max a1 (max a2 a3)) 0 < 0 ↔ max a1 (max a2 a3) < 0)
    ∧ (Real.sqrt (max a1 0 * max a1 0 + max a2 0 * max a2 0 + max a3 0 * max a3 0)
        + min (max a1 (max a2 a3)) 0 = 0 ↔ max a1 (max a2 a3) = 0)
    ∧ (0 < Real.sqrt (max a1 0 * max a1 0 + max a2 0 * max a2 0 + max a3 0 * max a3 0)
        + min (max a1 (max a2 a3)) 0 ↔ 0 < max a1 (max a2 a3)) := by
  have hge := core3_ge a1 a2 a3
  rcases lt_trichotomy (max a1 (max a2 a3)) 0 with hA | hA | hA
  · have ha1 : a1 ≤ 0 := le_trans (le_max_left _ _) (le_of_lt hA)
    have ha2 : a2 ≤ 0 := le_trans (le_trans (le_max_left _ _) (le_max_right _ _)) (le_of_lt hA)
    have ha3 : a3 ≤ 0 := le_trans (le_trans (le_max_right _ _) (le_max_right _ _)) (le_of_lt hA)
    rw [max_eq_right ha1, max_eq_right ha2, max_eq_right ha3, min_eq_left (le_of_lt hA)]
    refine ⟨?_, ?_, ?_⟩ <;> simp
  · have ha1 : a1 ≤ 0 := le_trans (le_max_left _ _) (le_of_eq hA)
    have ha2 : a2 ≤ 0 := le_trans (le_trans (le_max_left _ _) (le_max_right _ _)) (le_of_eq hA)
    have ha3 : a3 ≤ 0 := le_trans (le_trans (le_max_right _ _) (le_max_right _ _)) (le_of_eq hA)
    rw [max_eq_right ha1, max_eq_right ha2, max_eq_right ha3, min_eq_left (le_of_eq hA)]
    refine ⟨?_, ?_, ?_⟩ <;> simp
  · have hpos : 0 < Real.sqrt (max a1 0 * max a1 0 + max a2 0 * max a2 0 + max a3 0 * max a3 0)
        + min (max a1 (max a2 a3)) 0 := lt_of_lt_of_le hA hge
    refine ⟨⟨fun h => absurd h (not_lt.mpr (le_of_lt hpos)), fun h => absurd h (not_lt.mpr (le_of_lt hA))⟩,
      ⟨fun h => absurd h (ne_of_gt hpos), fun h => absurd h (ne_of_gt hA)⟩,
      ⟨fun _ => hA, fun _ => hpos⟩⟩

/-- Sign of the cylinder distance formula in two excess coordinates. -/
theorem core2_sign (a1 a2 : ℝ) :
    (Real.sqrt (max a1 0 * max a1 0 + max a2 0 * max a2 0) + min (max a1 a2) 0 < 0
        ↔ max a1 a2 < 0)
    ∧ (Real.sqrt (max a1 0 * max a1 0 + max a2 0 * max a2 0) + min (max a1 a2) 0 = 0
        ↔ max a1 a2 = 0)
    ∧ (0 < Real.sqrt (max a1 0 * max a1 0 + max a2 0 * max a2 0) + min (max a1 a2) 0
        ↔ 0 < max a1 a2) := by
  have hge := core2_ge a1 a2
  rcases lt_trichotomy (max a1 a2) 0 with hA | hA | hA
  · have ha1 : a1 ≤ 0 := le_trans (le_max_left _ _) (le_of_lt hA)
    have ha2 : a2 ≤ 0 := le_trans (le_max_right _ _) (le_of_lt hA)
    rw [max_eq_right ha1, max_eq_right ha2, min_eq_left (le_of_lt hA)]
    refine ⟨?_, ?_, ?_⟩ <;> simp
  · have ha1 : a1 ≤ 0 := le_trans (le_max_left _ _) (le_of_eq hA)
    have ha2 : a2 ≤ 0 := le_trans (le_max_right _ _) (le_of_eq hA)
    rw [max_eq_right ha1, max_eq_right ha2, min_eq_left (le_of_eq hA)]
    refine ⟨?_, ?_, ?_⟩ <;> simp
  · have hpos : 0 < Real.sqrt (max a1 0 * max a1 0 + max a2 0 * max a2 0)
        + min (max a1 a2) 0 := lt_of_lt_of_le hA hge
    refine ⟨⟨fun h => absurd h (not_lt.mpr (le_of_lt hpos)), fun h => absurd h (not_lt.mpr (le_of_lt hA))⟩,
      ⟨fun h => absurd h (ne_of_gt hpos), fun h => absurd h (ne_of_gt hA)⟩,
      ⟨fun _ => hA, fun _ => hpos⟩⟩

theorem max3_lt_zero (a1 a2 a3 : ℝ) : max a1 (max a2 a3) < 0 ↔ a1 < 0 ∧ a2 < 0 ∧ a3 < 0 := by
  rw [max_lt_iff, max_lt_iff]

theorem max3_pos (a1 a2 a3 : ℝ) : 0 < max a1 (max a2 a3) ↔ 0 < a1 ∨ 0 < a2 ∨ 0 < a3 := by
  rw [lt_max_iff, lt_max_iff]

theorem max3_eq_zero (a1 a2 a3 : ℝ) :
    max a1 (max a2 a3) = 0 ↔ (a1 ≤ 0 ∧ a2 ≤ 0 ∧ a3 ≤ 0) ∧ (a1 = 0 ∨ a2 = 0 ∨ a3 = 0) := by
  constructor
  · intro h
    have h1 : a1 ≤ 0 := le_trans (le_max_left _ _) (le_of_eq h)
    have h2 : a2 ≤ 0 := le_trans (le_trans (le_max_left _ _) (le_max_right _ _)) (le_of_eq h)
    have h3 : a3 ≤ 0 := le_trans (le_trans (le_max_right _ _) (le_max_right _ _)) (le_of_eq h)
    refine ⟨⟨h1, h2, h3⟩, ?_⟩
    by_contra hne
    push_neg at hne
    obtain ⟨n1, n2, n3⟩ := hne
    have : max a1 (max a2 a3) < 0 :=
      (max3_lt_zero a1 a2 a3).mpr ⟨lt_of_le_of_ne h1 n1, lt_of_le_of_ne h2 n2, lt_of_le_of_ne h3 n3⟩
    linarith
  · rintro ⟨⟨h1, h2, h3⟩, h⟩
    apply le_antisymm (max_le h1 (max_le h2 h3))
    rcases h with h | h | h
    · rw [← h]; exact le_max_left _ _
    · rw [← h]; exact le_trans (le_max_left _ _) (le_max_right _ _)
    · rw [← h]; exact le_trans (le_max_right _ _) (le_max_right _ _)

theorem max2_eq_zero (a1 a2 : ℝ) :
    max a1 a2 = 0 ↔ (a1 ≤ 0 ∧ a2 ≤ 0) ∧ (a1 = 0 ∨ a2 = 0) := by
  have h := max3_eq_zero a1 a2 a2
  rw [max_self] at h
  rw [h]
  constructor
  · rintro ⟨⟨h1, h2, -⟩, h | h | h⟩
    · exact ⟨⟨h1, h2⟩, Or.inl h⟩
    · exact ⟨⟨h1, h2⟩, Or.inr h⟩
    · exact ⟨⟨h1, h2⟩, Or.inr h⟩
  · rintro ⟨⟨h1, h2⟩, h | h⟩
    · exact ⟨⟨h1, h2, h2⟩, Or.inl h⟩
    · exact ⟨⟨h1, h2, h2⟩, Or.inr (Or.inl h)⟩

/-- C13: the sign of each primitive's distance classifies the point (for all
size parameters, in particular positive ones): negative exactly strictly
inside, zero exactly on the boundary, positive exactly outside the closed
solid; for the plane the sign is that of `p.y + 1`. -/
theorem C13_primitive_sign_classifies (p b : vec3 ℝ) (r h : ℝ) :
    ((sphereSDF Real.sqrt p r < 0 ↔ Real.sqrt (p.x * p.x + p.y * p.y + p.z * p.z) < r)
      ∧ (sphereSDF Real.sqrt p r = 0 ↔ Real.sqrt (p.x * p.x + p.y * p.y + p.z * p.z) = r)
      ∧ (0 < sphereSDF Real.sqrt p r ↔ r < Real.sqrt (p.x * p.x + p.y * p.y + p.z * p.z)))
    ∧ ((boxSDF Real.sqrt p b < 0 ↔ |p.x| < b.x ∧ |p.y| < b.y ∧ |p.z| < b.z)
      ∧ (boxSDF Real.sqrt p b = 0 ↔ (|p.x| ≤ b.x ∧ |p.y| ≤ b.y ∧ |p.z| ≤ b.z)
          ∧ (|p.x| = b.x ∨ |p.y| = b.y ∨ |p.z| = b.z))
      ∧ (0 < boxSDF Real.sqrt p b ↔ b.x < |p.x| ∨ b.y < |p.y| ∨ b.z < |p.z|))
    ∧ ((cylinderSDF Real.sqrt p r h < 0
          ↔ Real.sqrt (p.x * p.x + p.z * p.z) < r ∧ |p.y| < h)
      ∧ (cylinderSDF Real.sqrt p r h = 0
          ↔ (Real.sqrt (p.x * p.x + p.z * p.z) ≤ r ∧ |p.y| ≤ h)
            ∧ (Real.sqrt (p.x * p.x + p.z * p.z) = r ∨ |p.y| = h))
      ∧ (0 < cylinderSDF Real.sqrt p r h
          ↔ r < Real.sqrt (p.x * p.x + p.z * p.z) ∨ h < |p.y|))
    ∧ ((planeSDF p < 0 ↔ p.y < -1) ∧ (planeSDF p = 0 ↔ p.y = -1)
      ∧ (0 < planeSDF p ↔ -1 < p.y)) := by
  refine ⟨?_, ?_, ?_, ?_⟩
  · unfold sphereSDF length_vec
    refine ⟨sub_neg, sub_eq_zero, sub_pos⟩
  · unfold boxSDF
    simp only [max_f_eq_max, min_f_eq_min]
    obtain ⟨s1, s2, s3⟩ := core3_sign (|p.x| - b.x) (|p.y| - b.y) (|p.z| - b.z)
    rw [s1, s2, s3, max3_lt_zero, max3_eq_zero, max3_pos]
    refine ⟨?_, ?_, ?_⟩ <;> simp only [sub_neg, sub_nonpos, sub_eq_zero, sub_pos]
  · unfold cylinderSDF
    simp only [max_f_eq_max, min_f_eq_min]
    obtain ⟨s1, s2, s3⟩ := core2_sign (Real.sqrt (p.x * p.x + p.z * p.z) - r) (|p.y| - h)
    rw [s1, s2, s3, max_lt_iff, max2_eq_zero, lt_max_iff]
    refine ⟨?_, ?_, ?_⟩ <;> simp only [sub_neg, sub_nonpos, sub_eq_zero, sub_pos]
  · unfold planeSDF
    refine ⟨?_, ?_, ?_⟩ <;> constructor <;> intro h0 <;> norm_num at * <;> linarith

/-- Squared offset of a coordinate from its clamp to `[-b, b]`. -/
theorem clamp_sq (x b : ℝ) (hb : 0 < b) :
    (x - max (-b) (min x b)) * (x - max (-b) (min x b))
      = max (|x| - b) 0 * max (|x| - b) 0 := by
  rcases lt_or_le b x with h | h
  · rw [min_eq_right (le_of_lt h), max_eq_right (by linarith), abs_of_pos (by linarith),
      max_eq_left (by linarith)]
  · rcases lt_or_le x (-b) with h2 | h2
    · rw [min_eq_left h, max_eq_left (le_of_lt h2), abs_of_neg (by linarith),
        max_eq_left (by linarith)]
      ring
    · rw [min_eq_left h, max_eq_right h2, max_eq_right (by
        have := abs_le.mpr ⟨h2, h⟩
        linarith)]
      ring

/-- C14: `boxSDF` is the exact signed Euclidean distance to the box with
positive half-extents `b`: outside, it is the distance from `p` to `p` clamped
componentwise to `[-b, b]`, and no point of the box is nearer; inside, its
negative is the distance to the nearest face. -/
theorem C14_boxSDF_exact (p b : vec3 ℝ) (hbx : 0 < b.x) (hby : 0 < b.y) (hbz : 0 < b.z) :
    ((b.x < |p.x| ∨ b.y < |p.y| ∨ b.z < |p.z|) →
        boxSDF Real.sqrt p b
          = length_vec Real.sqrt (sub p ⟨max (-b.x) (min p.x b.x), max (-b.y) (min p.y b.y),
              max (-b.z) (min p.z b.z)⟩))
    ∧ (∀ q : vec3 ℝ, |q.x| ≤ b.x → |q.y| ≤ b.y → |q.z| ≤ b.z →
        boxSDF Real.sqrt p b ≤ length_vec Real.sqrt (sub p q))
    ∧ ((|p.x| < b.x ∧ |p.y| < b.y ∧ |p.z| < b.z) →
        -boxSDF Real.sqrt p b = min (b.x - |p.x|) (min (b.y - |p.y|) (b.z - |p.z|))) := by
  refine ⟨?_, ?_, ?_⟩
  · intro hout
    have hM : 0 < max (|p.x| - b.x) (max (|p.y| - b.y) (|p.z| - b.z)) := by
      rw [max3_pos]
      simpa only [sub_pos] using hout
    unfold boxSDF length_vec sub
    simp only [max_f_eq_max, min_f_eq_min]
    rw [min_eq_right (le_of_lt hM), add_zero, clamp_sq p.x b.x hbx, clamp_sq p.y b.y hby,
      clamp_sq p.z b.z hbz]
  · intro q h1 h2 h3
    have hl := boxSDF_lip p q b
    have hq : boxSDF Real.sqrt q b ≤ 0 := by
      unfold boxSDF
      simp only [max_f_eq_max, min_f_eq_min]
      have a1 : |q.x| - b.x ≤ 0 := by linarith
      have a2 : |q.y| - b.y ≤ 0 := by linarith
      have a3 : |q.z| - b.z ≤ 0 := by linarith
      rw [max_eq_right a1, max_eq_right a2, max_eq_right a3]
      simp only [mul_zero, add_zero, Real.sqrt_zero, zero_add]
      exact min_le_right _ _
    linarith
  · rintro ⟨h1, h2, h3⟩
    unfold boxSDF
    simp only [max_f_eq_max, min_f_eq_min]
    have a1 : |p.x| - b.x ≤ 0 := by linarith
    have a2 : |p.y| - b.y ≤ 0 := by linarith
    have a3 : |p.z| - b.z ≤ 0 := by linarith
    rw [max_eq_right a1, max_eq_right a2, max_eq_right a3,
      min_eq_left (max_le a1 (max_le a2 a3))]
    simp only [mul_zero, add_zero, Real.sqrt_zero, zero_add]
    rw [← neg_sub b.x, ← neg_sub b.y, ← neg_sub b.z, max_neg_neg, max_neg_neg, neg_neg]

/-- Witness for C14: the point `(2,0,0)` outside the unit box is at distance 1
from its clamp `(1,0,0)`. -/
theorem C14_boxSDF_exact_witness :
    boxSDF Real.sqrt (⟨2, 0, 0⟩ : vec3 ℝ) ⟨1, 1, 1⟩
      = length_vec Real.sqrt (sub (⟨2, 0, 0⟩ : vec3 ℝ)
          ⟨max (-1) (min 2 1), max (-1) (min 0 1), max (-1) (min 0 1)⟩) :=
  (C14_boxSDF_exact (⟨2, 0, 0⟩ : vec3 ℝ) ⟨1, 1, 1⟩ (by norm_num) (by norm_num)
    (by norm_num)).1 (Or.inl (by norm_num [abs_of_pos]))

end Bounds

section Normals

/-- C11 (as amended): at every point where the forward-difference gradient is
not the zero vector, `getNormal` returns a unit-length vector. -/
theorem C11_getNormal_unit_amended (p : vec3 ℝ)
    (h : getNormalRaw Real.sqrt p ≠ ⟨0, 0, 0⟩) :
    length_vec Real.sqrt (getNormal Real.sqrt p) = 1 := by
  unfold getNormal
  apply norm_unit
  apply length_vec_pos
  by_contra hne
  push_neg at hne
  obtain ⟨h1, h2, h3⟩ := hne
  apply h
  cases hr : getNormalRaw Real.sqrt p with
  | mk a b c =>
    rw [hr] at h1 h2 h3
    simp only [] at h1 h2 h3
    rw [h1, h2, h3]

/-- Far out on the floor the raw gradient is `(0, 0.001, 0)`. -/
theorem getNormalRaw_far_floor :
    getNormalRaw Real.sqrt (⟨0, 0, 100⟩ : vec3 ℝ) = ⟨0, 0.001, 0⟩ := by
  unfold getNormalRaw
  simp only []
  rw [sceneSDF_far_floor ⟨0, 0, 100⟩ (by norm_num) (by norm_num),
    sceneSDF_far_floor ⟨0 + 0.001, 0, 100⟩ (by norm_num) (by norm_num),
    sceneSDF_far_floor ⟨0, 0 + 0.001, 100⟩ (by norm_num) (by norm_num),
    sceneSDF_far_floor ⟨0, 0, 100 + 0.001⟩ (by norm_num) (by norm_num)]
  norm_num

/-- Witness for the amended C11: the floor point `(0,0,100)`. -/
theorem C11_getNormal_unit_amended_witness :
    length_vec Real.sqrt (getNormal Real.sqrt (⟨0, 0, 100⟩ : vec3 ℝ)) = 1 :=
  C11_getNormal_unit_amended ⟨0, 0, 100⟩ (by
    rw [getNormalRaw_far_floor]
    intro h
    have := congrArg vec3.y h
    norm_num at this)

end Normals

section PlaneNormal

/-- In front of the face `x = -b.x` or `x = b.x` of the box (inside the slab of
the other two axes) the box distance is the excess along x. -/
theorem boxSDF_face_x (p b : vec3 ℝ) (hx : 0 ≤ |p.x| - b.x) (hy : |p.y| - b.y ≤ 0)
    (hz : |p.z| - b.z ≤ 0) : boxSDF Real.sqrt p b = |p.x| - b.x := by
  unfold boxSDF
  simp only [max_f_eq_max, min_f_eq_min]
  rw [max_eq_left hx, max_eq_right hy, max_eq_right hz,
    max_eq_left (le_trans (max_le hy hz) hx), min_eq_right hx]
  simp only [mul_zero, add_zero]
  rw [Real.sqrt_mul_self hx]

/-- When `sceneSDF` writes the identifier 4 its distance is the plane's. -/
theorem sceneSDF_of_id4 {α : Type} [LinearOrderedField α] (sqrt : α → α) (p : vec3 α)
    (h : (sceneSDF sqrt p).2 = 4) : (sceneSDF sqrt p).1 = p.y + 1 := by
  have hp : planeSDF p = p.y + 1 := by unfold planeSDF; norm_num
  rcases sceneSDF_cases sqrt p with ⟨e, -⟩ | ⟨e, -⟩ | ⟨e, -⟩ | ⟨e, -⟩ <;> rw [e] at h ⊢ <;>
    simp only [] at h ⊢
  · norm_num at h
  · norm_num at h
  · norm_num at h
  · exact hp

/-- C12 (as amended): when the plane is the nearest object at `p` and at the
three offset points `p + eps*x`, `p + eps*y`, `p + eps*z` that `getNormal`
samples (`eps = 0.001`), `getNormal(p)` is `(0,1,0)`. -/
theorem C12_plane_normal_amended (p : vec3 ℝ)
    (h0 : (sceneSDF Real.sqrt p).2 = 4)
    (hx : (sceneSDF Real.sqrt ⟨p.x + 0.001, p.y, p.z⟩).2 = 4)
    (hy : (sceneSDF Real.sqrt ⟨p.x, p.y + 0.001, p.z⟩).2 = 4)
    (hz : (sceneSDF Real.sqrt ⟨p.x, p.y, p.z + 0.001⟩).2 = 4) :
    getNormal Real.sqrt p = ⟨0, 1, 0⟩ := by
  have hraw : getNormalRaw Real.sqrt p = ⟨0, 0.001, 0⟩ := by
    unfold getNormalRaw
    simp only []
    rw [sceneSDF_of_id4 _ _ h0, sceneSDF_of_id4 _ _ hx, sceneSDF_of_id4 _ _ hy,
      sceneSDF_of_id4 _ _ hz]
    simp only []
    congr 1 <;> ring
  unfold getNormal
  rw [hraw]
  unfold norm length_vec mul
  simp only []
  have e : (0 : ℝ) * 0 + 0.001 * 0.001 + 0 * 0 = 0.001 * 0.001 := by norm_num
  rw [e, Real.sqrt_mul_self (by norm_num)]
  norm_num

/-- Witness for the amended C12: the floor point `(0,0,100)`. -/
theorem C12_plane_normal_amended_witness :
    getNormal Real.sqrt (⟨0, 0, 100⟩ : vec3 ℝ) = ⟨0, 1, 0⟩ :=
  C12_plane_normal_amended ⟨0, 0, 100⟩
    (by rw [sceneSDF_far_floor ⟨0, 0, 100⟩ (by norm_num) (by norm_num)])
    (by rw [sceneSDF_far_floor ⟨0 + 0.001, 0, 100⟩ (by norm_num) (by norm_num)])
    (by rw [sceneSDF_far_floor ⟨0, 0 + 0.001, 100⟩ (by norm_num) (by norm_num)])
    (by rw [sceneSDF_far_floor ⟨0, 0, 100 + 0.001⟩ (by norm_num) (by norm_num)])

/-- C12 fails as stated: at `(0.8495,-0.5,0.5)`, 0.5 above the floor and 0.5005
left of the box, the plane is the nearest object, but the sample at
`p + eps*x` is nearer to the box, so the x component of the normal is negative
and the normal is not `(0,1,0)`. -/
theorem C12_plane_normal_counterexample :
    sceneSDF Real.sqrt (⟨0.8495, -0.5, 0.5⟩ : vec3 ℝ) = (0.5, 4)
    ∧ (getNormal Real.sqrt (⟨0.8495, -0.5, 0.5⟩ : vec3 ℝ)).x < 0
    ∧ getNormal Real.sqrt (⟨0.8495, -0.5, 0.5⟩ : vec3 ℝ) ≠ ⟨0, 1, 0⟩ := by
  have hs : sceneSDF Real.sqrt (⟨0.8495, -0.5, 0.5⟩ : vec3 ℝ) = (0.5, 4) := by
    have hc : (0.6 : ℝ) ≤ cylDist Real.sqrt (⟨0.8495, -0.5, 0.5⟩ : vec3 ℝ) :=
      le_trans (by norm_num [abs_div]) (cylDist_ge (⟨0.8495, -0.5, 0.5⟩ : vec3 ℝ)).1
    have hsp : (0.6 : ℝ) ≤ sphDist Real.sqrt (⟨0.8495, -0.5, 0.5⟩ : vec3 ℝ) :=
      le_trans (by norm_num [abs_div]) (sphDist_ge (⟨0.8495, -0.5, 0.5⟩ : vec3 ℝ)).2.2
    have hb : (0.5005 : ℝ) ≤ boxDist Real.sqrt (⟨0.8495, -0.5, 0.5⟩ : vec3 ℝ) :=
      le_trans (by norm_num [abs_div]) (boxDist_ge (⟨0.8495, -0.5, 0.5⟩ : vec3 ℝ)).1
    have hp : planeSDF (⟨0.8495, -0.5, 0.5⟩ : vec3 ℝ) = 0.5 := by unfold planeSDF; norm_num
    have h := sceneSDF_eq_plane Real.sqrt (⟨0.8495, -0.5, 0.5⟩ : vec3 ℝ)
      (by rw [hp]; linarith [show (0.5 : ℝ) < 0.6 by norm_num])
      (by rw [hp]; linarith [show (0.5 : ℝ) < 0.6 by norm_num])
      (by rw [hp]; linarith [show (0.5 : ℝ) < 0.5005 by norm_num])
    rw [h, hp]
  have hbox : boxDist Real.sqrt (⟨0.8495 + 0.001, -0.5, 0.5⟩ : vec3 ℝ) = 0.4995 := by
    unfold boxDist
    rw [boxSDF_face_x _ _ (by simp only [sub]; norm_num [abs_div])
      (by simp only [sub]; norm_num [abs_div]) (by simp only [sub]; norm_num [abs_div])]
    simp only [sub]
    norm_num [abs_div]
  have hx : (getNormalRaw Real.sqrt (⟨0.8495, -0.5, 0.5⟩ : vec3 ℝ)).x < 0 := by
    unfold getNormalRaw
    simp only []
    rw [hs]
    have := sceneSDF_le_box Real.sqrt (⟨0.8495 + 0.001, -0.5, 0.5⟩ : vec3 ℝ)
    rw [hbox] at this
    simp only []
    norm_num at this ⊢
    linarith
  have hl : 0 < length_vec Real.sqrt (getNormalRaw Real.sqrt (⟨0.8495, -0.5, 0.5⟩ : vec3 ℝ)) :=
    length_vec_pos _ (Or.inl (ne_of_lt hx))
  have hnx : (getNormal Real.sqrt (⟨0.8495, -0.5, 0.5⟩ : vec3 ℝ)).x < 0 := by
    unfold getNormal norm mul
    simp only []
    exact mul_neg_of_neg_of_pos hx (one_div_pos.mpr hl)
  refine ⟨hs, hnx, ?_⟩
  intro h
  rw [h] at hnx
  simp only [] at hnx
  exact absurd hnx (lt_irrefl 0)

end PlaneNormal

section Pixel

variable {α : Type} [LinearOrderedField α]

/-- The shadow factor the driver computes (`minT = 0.02`, `k = 8.0`) lies in
`[0,1]`. -/
theorem softShadow_driver_range (sqrt : α → α) (ro rd : vec3 α) :
    0 ≤ softShadow sqrt ro rd 0.02 10.0 8.0 ∧ softShadow sqrt ro rd 0.02 10.0 8.0 ≤ 1 := by
  unfold softShadow
  exact softShadowLoop_range sqrt ro rd 10.0 8.0 (by norm_num) 32 1.0 0.02 (by norm_num)
    (by norm_num) (by norm_num)

theorem reflectDiffAt_nonneg (sqrt : α → α) (lightDir q : vec3 α) :
    0 ≤ reflectDiffAt sqrt lightDir q := by
  unfold reflectDiffAt
  simp only []
  have h1 := max_f_zero_nonneg (dot (getNormal sqrt q) lightDir)
  have h2 := (softShadow_driver_range sqrt
    (add q (mul (getNormal sqrt q) (SURF_DIST * 2))) lightDir).1
  have h3 : (0 : α) ≤ 0.6 := by norm_num
  have := mul_nonneg (mul_nonneg h1 h2) h3
  linarith [show (0 : α) ≤ 0.03 by norm_num]

theorem reflectShade_nonneg [FloorRing α] (q : vec3 α) (objID : Int) (d : α) (hd : 0 ≤ d)
    (c : vec3 α) (h : reflectShade q objID d = some c) : 0 ≤ c.x ∧ 0 ≤ c.y ∧ 0 ≤ c.z := by
  unfold reflectShade at h
  simp only [] at h
  have k : ∀ a : α, 0 ≤ a → 0 ≤ a * d := fun a ha => mul_nonneg ha hd
  split_ifs at h <;> simp only [Option.some.injEq, reduceCtorEq] at h <;> rw [← h] <;>
    exact ⟨k _ (by norm_num), k _ (by norm_num), k _ (by norm_num)⟩

/-- The reflection colour the driver computes has non-negative components. -/
theorem reflectionColor_nonneg [FloorRing α] (sqrt : α → α) (lightDir o rdir : vec3 α) :
    0 ≤ (reflectionColor sqrt lightDir o rdir).x ∧ 0 ≤ (reflectionColor sqrt lightDir o rdir).y
      ∧ 0 ≤ (reflectionColor sqrt lightDir o rdir).z := by
  have hsky : (0 : α) ≤ (⟨0.02, 0.02, 0.03⟩ : vec3 α).x ∧ (0 : α) ≤ (⟨0.02, 0.02, 0.03⟩ : vec3 α).y
      ∧ (0 : α) ≤ (⟨0.02, 0.02, 0.03⟩ : vec3 α).z := by
    refine ⟨?_, ?_, ?_⟩ <;> norm_num
  unfold reflectionColor
  simp only []
  split_ifs with ht
  · cases hc : reflectShade (add o (mul rdir (raymarch sqrt o rdir 0).1))
        (raymarch sqrt o rdir 0).2
        (reflectDiffAt sqrt lightDir (add o (mul rdir (raymarch sqrt o rdir 0).1))) with
    | none => exact hsky
    | some c => exact reflectShade_nonneg _ _ _ (reflectDiffAt_nonneg sqrt lightDir _) c hc
  · exact hsky

/-- Every channel of `getColor` lies in `[0,1]` when the reflection colour and
the shadow factor are non-negative. -/
theorem getColor_unit [FloorRing α] (sqrt : α → α) (p : vec3 α) (objID : Int)
    (normal lightDir viewDir reflectColor : vec3 α) (shadow : α)
    (hx : 0 ≤ reflectColor.x) (hy : 0 ≤ reflectColor.y) (hz : 0 ≤ reflectColor.z)
    (hs : 0 ≤ shadow) :
    (0 ≤ (getColor sqrt p objID normal lightDir viewDir reflectColor shadow).r
      ∧ (getColor sqrt p objID normal lightDir viewDir reflectColor shadow).r ≤ 1)
    ∧ (0 ≤ (getColor sqrt p objID normal lightDir viewDir reflectColor shadow).g
      ∧ (getColor sqrt p objID normal lightDir viewDir reflectColor shadow).g ≤ 1)
    ∧ (0 ≤ (getColor sqrt p objID normal lightDir viewDir reflectColor shadow).b
      ∧ (getColor sqrt p objID normal lightDir viewDir reflectColor shadow).b ≤ 1) := by
  obtain ⟨mr, mg, mb, msh, mrf⟩ := material_nonneg p objID
  have hd : 0 ≤ max_f (dot normal lightDir) 0.0 * shadow :=
    mul_nonneg (max_f_zero_nonneg _) hs
  have hsp : 0 ≤ (max_f (dot normal (norm sqrt (add lightDir (mul viewDir (-1))))) 0.0) ^ 32
      * (material p objID).2.1 * shadow :=
    mul_nonneg (mul_nonneg (pow_nonneg (max_f_zero_nonneg _) 32) msh) hs
  have hamb : 0 ≤ (0.03 : α) + max_f (dot normal lightDir) 0.0 * shadow * 0.6 := by
    have : (0 : α) ≤ 0.6 := by norm_num
    have := mul_nonneg hd this
    linarith [show (0 : α) ≤ 0.03 by norm_num]
  have hsp8 : 0 ≤ (max_f (dot normal (norm sqrt (add lightDir (mul viewDir (-1))))) 0.0) ^ 32
      * (material p objID).2.1 * shadow * 0.8 := mul_nonneg hsp (by norm_num)
  unfold getColor
  simp only []
  refine ⟨min_f_one_range _ ?_, min_f_one_range _ ?_, min_f_one_range _ ?_⟩
  · exact add_nonneg (add_nonneg (mul_nonneg mr hamb) hsp8) (mul_nonneg hx mrf)
  · exact add_nonneg (add_nonneg (mul_nonneg mg hamb) hsp8) (mul_nonneg hy mrf)
  · exact add_nonneg (add_nonneg (mul_nonneg mb hamb) hsp8) (mul_nonneg hz mrf)

/-- Every channel of the colour of a pixel lies in `[0,1]`. -/
theorem pixelColor_unit [FloorRing α] (sqrt : α → α) (ro lightDir rd : vec3 α) :
    (0 ≤ (pixelColor sqrt ro lightDir rd).r ∧ (pixelColor sqrt ro lightDir rd).r ≤ 1)
    ∧ (0 ≤ (pixelColor sqrt ro lightDir rd).g ∧ (pixelColor sqrt ro lightDir rd).g ≤ 1)
    ∧ (0 ≤ (pixelColor sqrt ro lightDir rd).b ∧ (pixelColor sqrt ro lightDir rd).b ≤ 1) := by
  unfold pixelColor
  simp only []
  split_ifs with ht
  · obtain ⟨rx, ry, rz⟩ := reflectionColor_nonneg sqrt lightDir
      (add (add ro (mul rd (raymarch sqrt ro rd 0).1))
        (mul (getNormal sqrt (add ro (mul rd (raymarch sqrt ro rd 0).1))) (SURF_DIST * 2)))
      (reflect_vec rd (getNormal sqrt (add ro (mul rd (raymarch sqrt ro rd 0).1))))
    exact getColor_unit sqrt _ _ _ _ _ _ _ rx ry rz (softShadow_driver_range sqrt _ _).1
  · simp only []
    refine ⟨⟨le_refl 0, zero_le_one⟩, ⟨le_refl 0, zero_le_one⟩, ⟨le_refl 0, zero_le_one⟩⟩

/-- Truncating `c * 255` for a channel `c` in `[0,1]` gives an integer in
`0..255`. -/
theorem floatToInt_channel [FloorRing α] (c : α) (h0 : 0 ≤ c) (h1 : c ≤ 1) :
    0 ≤ floatToInt (c * 255) ∧ floatToInt (c * 255) ≤ 255 := by
  have hn : 0 ≤ c * 255 := mul_nonneg h0 (by norm_num)
  have hle : c * 255 ≤ ((255 : Int) : α) := by
    push_cast
    have := mul_le_mul_of_nonneg_right h1 (show (0 : α) ≤ 255 by norm_num)
    linarith
  have f0 : 0 ≤ ⌊c * 255⌋ := Int.floor_nonneg.mpr hn
  have f1 : ⌊c * 255⌋ ≤ 255 := by
    have := Int.floor_le (c * 255)
    have h2 : ((⌊c * 255⌋ : Int) : α) ≤ ((255 : Int) : α) := le_trans this hle
    exact_mod_cast h2
  unfold floatToInt
  rw [if_pos hn]
  unfold toInt32
  omega

/-- C16: each of the three integers the driver emits for a pixel (the
truncations of `channel * 255` after marching, shadowing, the reflection
bounce and shading) lies in `0..255`, for all pixel coordinates and whatever
`sqrt`, `tan` and `M_PI` compute. -/
theorem C16_pixel_bytes_in_range [FloorRing α] (sqrt tan : α → α) (pi : α) (x y : Int) :
    (0 ≤ (pixelRGB sqrt tan pi x y).1 ∧ (pixelRGB sqrt tan pi x y).1 ≤ 255)
    ∧ (0 ≤ (pixelRGB sqrt tan pi x y).2.1 ∧ (pixelRGB sqrt tan pi x y).2.1 ≤ 255)
    ∧ (0 ≤ (pixelRGB sqrt tan pi x y).2.2 ∧ (pixelRGB sqrt tan pi x y).2.2 ≤ 255) := by
  unfold pixelRGB
  simp only []
  obtain ⟨⟨r0, r1⟩, ⟨g0, g1⟩, ⟨b0, b1⟩⟩ := pixelColor_unit sqrt (⟨0, 1.2, 5⟩ : vec3 α)
    (norm sqrt (⟨0.5, 1, 0.5⟩ : vec3 α)) (rayDirection sqrt tan pi 60 x y)
  exact ⟨floatToInt_channel _ r0 r1, floatToInt_channel _ g0 g1, floatToInt_channel _ b0 b1⟩

end Pixel

section Output

theorem headerText_eq : headerText = "P3\n1920 1080\n255\n" := by
  decide

theorem renderRows_length (pix : Int → Int → Int × Int × Int) :
    (renderRows pix).length = 1080 := by
  unfold renderRows
  rw [List.length_map, List.length_range]
  rfl

theorem renderRows_row (pix : Int → Int → Int × Int × Int) (y : Nat) (hy : y < 1080) :
    (renderRows pix)[y]? = some ((List.range 1920).map (fun (x : Nat) => pix (x : Int) (y : Int))) := by
  unfold renderRows
  rw [List.getElem?_map, List.getElem?_range (show y < HEIGHT from hy)]
  rfl

theorem rows_sum_aux (m : Nat) (g : Nat → Nat → Int × Int × Int) :
    ∀ l : List Nat,
      ((l.map (fun y => (List.range m).map (fun x => g x y))).map List.length).sum
        = l.length * m := by
  intro l
  induction l with
  | nil => simp only [List.map_nil, List.sum_nil, List.length_nil, Nat.zero_mul]
  | cons a t ih =>
    simp only [List.map_cons, List.sum_cons, List.length_cons, List.length_map,
      List.length_range] at ih ⊢
    rw [ih]
    ring

theorem renderRows_sum (pix : Int → Int → Int × Int × Int) :
    ((renderRows pix).map List.length).sum = 2073600 := by
  unfold renderRows
  rw [rows_sum_aux WIDTH (fun (x y : Nat) => pix (x : Int) (y : Int)) (List.range HEIGHT),
    List.length_range]
  rfl

end Output

section ZeroHit

theorem add_mul_zero {α : Type} [LinearOrderedField α] (o d : vec3 α) :
    add o (mul d 0) = o := by
  cases o
  simp [add, mul]

/-- At the foot of the box's face `x = 1.35` the box distance is `1.35 - x` on
both sides of the face. -/
theorem boxDist_corner (q : vec3 ℝ) (hx2 : q.x ≤ 1.36) (hy : -1 ≤ q.y)
    (hy2 : q.y ≤ -0.99) (hz : 0.5 ≤ q.z) (hz2 : q.z ≤ 0.51) :
    boxDist Real.sqrt q = 1.35 - q.x := by
  have ax : |q.x - 2.2| = 2.2 - q.x := by
    rw [abs_of_neg (by linarith [show (1.36 : ℝ) < 2.2 by norm_num])]; ring
  have ay : |q.y - -0.2| = -q.y - 0.2 := by
    rw [abs_of_neg (by linarith [show (-0.99 : ℝ) - -0.2 < 0 by norm_num])]; ring
  have az : |q.z - 0.5| = q.z - 0.5 := abs_of_nonneg (by linarith)
  unfold boxDist boxSDF sub
  simp only [max_f_eq_max, min_f_eq_min]
  rw [ax, ay, az]
  have e1 : (2.2 : ℝ) - q.x - 0.85 = 1.35 - q.x := by ring
  rw [e1]
  have hy0 : -q.y - 0.2 - 0.85 ≤ 0 := by linarith [show (1 : ℝ) - 0.2 - 0.85 < 0 by norm_num]
  have hz0 : q.z - 0.5 - 0.85 ≤ 0 := by linarith [show (0.51 : ℝ) - 0.5 - 0.85 < 0 by norm_num]
  have hyx : -q.y - 0.2 - 0.85 ≤ 1.35 - q.x := by
    linarith [show (1 : ℝ) - 0.2 - 0.85 ≤ 1.35 - 1.36 by norm_num]
  have hzx : q.z - 0.5 - 0.85 ≤ 1.35 - q.x := by
    linarith [show (0.51 : ℝ) - 0.5 - 0.85 ≤ 1.35 - 1.36 by norm_num]
  rw [max_eq_right hy0, max_eq_right hz0, max_eq_left (max_le hyx hzx)]
  simp only [mul_zero, add_zero]
  rcases le_or_lt q.x 1.35 with h | h
  · have hq : 0 ≤ 1.35 - q.x := by linarith
    rw [max_eq_left hq, min_eq_right hq, Real.sqrt_mul_self hq, add_zero]
  · have hq : 1.35 - q.x ≤ 0 := by linarith
    rw [max_eq_right hq, min_eq_left hq]
    simp

/-- Scene distance at the foot of the box's face `x = 1.35`. -/
theorem sceneSDF_corner (q : vec3 ℝ) (hx : 1.3 ≤ q.x) (hx2 : q.x ≤ 1.36) (hy : -1 ≤ q.y)
    (hy2 : q.y ≤ -0.99) (hz : 0.5 ≤ q.z) (hz2 : q.z ≤ 0.51) :
    (sceneSDF Real.sqrt q).1 = min (1.35 - q.x) (q.y + 1) := by
  have hb := boxDist_corner q hx2 hy hy2 hz hz2
  have hp : planeSDF q = q.y + 1 := by unfold planeSDF; norm_num
  have hc := (cylDist_ge q).1
  have hs := (sphDist_ge q).2.2
  have a1 := le_abs_self (q.x + 2)
  have a2 := le_abs_self (q.z + 1.5)
  have hc1 : (1 : ℝ) ≤ cylDist Real.sqrt q := by norm_num at *; linarith
  have hs1 : (1 : ℝ) ≤ sphDist Real.sqrt q := by norm_num at *; linarith
  have hm : min (1.35 - q.x) (q.y + 1) ≤ 1 :=
    le_trans (min_le_right _ _) (by linarith [show (-0.99 : ℝ) + 1 ≤ 1 by norm_num])
  rw [sceneSDF_fst, hb, hp, min_assoc]
  exact min_eq_right (le_min (le_trans hm hc1) (le_trans hm hs1))

theorem corner_normal :
    getNormal Real.sqrt (⟨1.3495, -0.9995, 0.5⟩ : vec3 ℝ) = ⟨-1, 0, 0⟩ := by
  have hraw : getNormalRaw Real.sqrt (⟨1.3495, -0.9995, 0.5⟩ : vec3 ℝ) = ⟨-0.001, 0, 0⟩ := by
    unfold getNormalRaw
    simp only []
    rw [sceneSDF_corner ⟨1.3495, -0.9995, 0.5⟩ (by norm_num) (by norm_num) (by norm_num)
        (by norm_num) (by norm_num) (by norm_num),
      sceneSDF_corner ⟨1.3495 + 0.001, -0.9995, 0.5⟩ (by norm_num) (by norm_num) (by norm_num)
        (by norm_num) (by norm_num) (by norm_num),
      sceneSDF_corner ⟨1.3495, -0.9995 + 0.001, 0.5⟩ (by norm_num) (by norm_num) (by norm_num)
        (by norm_num) (by norm_num) (by norm_num),
      sceneSDF_corner ⟨1.3495, -0.9995, 0.5 + 0.001⟩ (by norm_num) (by norm_num) (by norm_num)
        (by norm_num) (by norm_num) (by norm_num)]
    norm_num
  unfold getNormal
  rw [hraw]
  unfold norm length_vec mul
  simp only []
  have e : (-0.001 : ℝ) * -0.001 + 0 * 0 + 0 * 0 = 0.001 * 0.001 := by norm_num
  rw [e, Real.sqrt_mul_self (by norm_num)]
  norm_num

theorem corner_origin_scene :
    sceneSDF Real.sqrt (⟨1.3475, -0.9995, 0.5⟩ : vec3 ℝ) = (0.0005, 4) := by
  have hb := boxDist_corner ⟨1.3475, -0.9995, 0.5⟩ (by norm_num) (by norm_num) (by norm_num)
    (by norm_num) (by norm_num)
  have hc : (1 : ℝ) ≤ cylDist Real.sqrt (⟨1.3475, -0.9995, 0.5⟩ : vec3 ℝ) :=
    le_trans (by norm_num [abs_div]) (cylDist_ge (⟨1.3475, -0.9995, 0.5⟩ : vec3 ℝ)).1
  have hs : (1 : ℝ) ≤ sphDist Real.sqrt (⟨1.3475, -0.9995, 0.5⟩ : vec3 ℝ) :=
    le_trans (by norm_num [abs_div]) (sphDist_ge (⟨1.3475, -0.9995, 0.5⟩ : vec3 ℝ)).2.2
  have hp : planeSDF (⟨1.3475, -0.9995, 0.5⟩ : vec3 ℝ) = 0.0005 := by
    unfold planeSDF; norm_num
  have h := sceneSDF_eq_plane Real.sqrt (⟨1.3475, -0.9995, 0.5⟩ : vec3 ℝ)
    (by rw [hp]; linarith [show (0.0005 : ℝ) < 1 by norm_num])
    (by rw [hp]; linarith [show (0.0005 : ℝ) < 1 by norm_num])
    (by rw [hp, hb]; norm_num)
  rw [h, hp]

/-- C19, the code at a failing input: for a hit point by the foot of the box the
driver drops a reflection hit at distance 0.  The point `(1.3495,-0.9995,0.5)` is within the surface threshold, the driver's
reflection origin for it is `(1.3475,-0.9995,0.5)`, `raymarch` from there
reports a hit on the floor at distance 0 in every direction, and the driver
uses the sky colour, not the floor tile's base colour scaled by
`reflectDiff`. -/
theorem C19_zero_distance_hit_gets_sky (lightDir dir : vec3 ℝ) :
    (sceneSDF Real.sqrt (⟨1.3495, -0.9995, 0.5⟩ : vec3 ℝ)).1 < 0.001
    ∧ add (⟨1.3495, -0.9995, 0.5⟩ : vec3 ℝ)
        (mul (getNormal Real.sqrt ⟨1.3495, -0.9995, 0.5⟩) (SURF_DIST * 2))
      = ⟨1.3475, -0.9995, 0.5⟩
    ∧ raymarch Real.sqrt (⟨1.3475, -0.9995, 0.5⟩ : vec3 ℝ) dir 0 = (0, 4)
    ∧ (raymarch Real.sqrt (⟨1.3475, -0.9995, 0.5⟩ : vec3 ℝ) dir 0).1 ≠ -1
    ∧ reflectionColor Real.sqrt lightDir (⟨1.3475, -0.9995, 0.5⟩ : vec3 ℝ) dir
      = ⟨0.02, 0.02, 0.03⟩
    ∧ (∀ d : ℝ, reflectShade (⟨1.3475, -0.9995, 0.5⟩ : vec3 ℝ) 4 d
          = some ⟨0.5 * d, 0.2 * d, 0.2 * d⟩
        ∧ (⟨0.5 * d, 0.2 * d, 0.2 * d⟩ : vec3 ℝ) ≠ ⟨0.02, 0.02, 0.03⟩) := by
  have hray : raymarch Real.sqrt (⟨1.3475, -0.9995, 0.5⟩ : vec3 ℝ) dir 0 = (0, 4) := by
    unfold raymarch
    have e0 : (0.0 : ℝ) = 0 := by norm_num
    rw [e0, show MAX_STEPS = 99 + 1 from rfl,
      raymarchLoop_hit Real.sqrt _ _ _ 0 0 (by
        rw [add_mul_zero, corner_origin_scene]; unfold SURF_DIST; norm_num),
      add_mul_zero, corner_origin_scene]
  refine ⟨?_, ?_, hray, by rw [hray]; norm_num, ?_, ?_⟩
  · rw [sceneSDF_corner ⟨1.3495, -0.9995, 0.5⟩ (by norm_num) (by norm_num) (by norm_num)
      (by norm_num) (by norm_num) (by norm_num)]
    norm_num
  · rw [corner_normal]
    unfold add mul SURF_DIST
    norm_num
  · unfold reflectionColor
    simp only []
    rw [hray]
    simp only [gt_iff_lt, lt_self_iff_false, if_false]
  · intro d
    constructor
    · unfold reflectShade
      have f1 : ⌊(1.3475 : ℝ) / 1.0⌋ = 1 := by
        rw [Int.floor_eq_iff]; norm_num
      have f2 : ⌊(0.5 : ℝ) / 1.0⌋ = 0 := by
        rw [Int.floor_eq_iff]; norm_num
      have ht : ¬ (Int.tmod (toInt32 (toInt32 1 + toInt32 0)) 2 = 0) := by decide
      simp only [f1, f2]
      simp [ht]
    · intro h
      have h1 := congrArg vec3.x h
      have h2 := congrArg vec3.y h
      simp only [] at h1 h2
      linarith

end ZeroHit

section PrimaryRay

/-- A primary ray from the camera `(0,1.2,5)` that `raymarch` reports as hit is
hit at a strictly positive distance (the camera is 2.2 above the floor), so
the driver's test `t > 0` accepts every primary hit. -/
theorem camera_primary_hit_positive (rd : vec3 ℝ) (objID : Int) :
    (raymarch Real.sqrt (⟨0, 1.2, 5⟩ : vec3 ℝ) rd objID).1 = -1
    ∨ 0 < (raymarch Real.sqrt (⟨0, 1.2, 5⟩ : vec3 ℝ) rd objID).1 := by
  have hc : (1 : ℝ) ≤ cylDist Real.sqrt (⟨0, 1.2, 5⟩ : vec3 ℝ) :=
    le_trans (by norm_num [abs_div]) (cylDist_ge (⟨0, 1.2, 5⟩ : vec3 ℝ)).1
  have hs : (1 : ℝ) ≤ sphDist Real.sqrt (⟨0, 1.2, 5⟩ : vec3 ℝ) :=
    le_trans (by norm_num [abs_div]) (sphDist_ge (⟨0, 1.2, 5⟩ : vec3 ℝ)).2.2
  have hb : (1 : ℝ) ≤ boxDist Real.sqrt (⟨0, 1.2, 5⟩ : vec3 ℝ) :=
    le_trans (by norm_num [abs_div]) (boxDist_ge (⟨0, 1.2, 5⟩ : vec3 ℝ)).1
  have hp : planeSDF (⟨0, 1.2, 5⟩ : vec3 ℝ) = 2.2 := by unfold planeSDF; norm_num
  have hlo : (1 : ℝ) ≤ (sceneSDF Real.sqrt (⟨0, 1.2, 5⟩ : vec3 ℝ)).1 := by
    rw [sceneSDF_fst, hp]
    exact le_min (le_min (le_min hc hs) hb) (by norm_num)
  have hhi : (sceneSDF Real.sqrt (⟨0, 1.2, 5⟩ : vec3 ℝ)).1 ≤ 2.2 := by
    have := sceneSDF_le_plane Real.sqrt (⟨0, 1.2, 5⟩ : vec3 ℝ)
    rwa [hp] at this
  unfold raymarch
  have e0 : (0.0 : ℝ) = 0 := by norm_num
  rw [e0, show MAX_STEPS = 99 + 1 from rfl,
    raymarchLoop_step Real.sqrt _ _ _ 0 objID
      (by rw [add_mul_zero]; unfold SURF_DIST; rw [not_lt]; linarith [show (0.001 : ℝ) ≤ 1 by norm_num])
      (by rw [add_mul_zero]; unfold MAX_DIST; rw [not_lt]; linarith [show (0 : ℝ) + 2.2 ≤ 100.0 by norm_num]),
    add_mul_zero]
  have key := raymarchLoop_inv Real.sqrt (⟨0, 1.2, 5⟩ : vec3 ℝ) rd (fun d => 0 < d)
    (fun dist hP hd _ => by
      have : (0 : ℝ) < SURF_DIST := SURF_DIST_pos
      linarith)
    99 (0 + (sceneSDF Real.sqrt (⟨0, 1.2, 5⟩ : vec3 ℝ)).1)
    (sceneSDF Real.sqrt (⟨0, 1.2, 5⟩ : vec3 ℝ)).2 (by linarith)
  rcases key with h | ⟨h, -⟩
  · exact Or.inl h
  · exact Or.inr h

end PrimaryRay

section TieBreakMin

end TieBreakMin

section ZeroGradient

/-- Beside the cylinder's lateral surface, between its caps, the cylinder
distance is the radial excess. -/
theorem cylinderSDF_side (p : vec3 ℝ) (r h : ℝ)
    (hx : 0 ≤ Real.sqrt (p.x * p.x + p.z * p.z) - r) (hy : |p.y| - h ≤ 0) :
    cylinderSDF Real.sqrt p r h = Real.sqrt (p.x * p.x + p.z * p.z) - r := by
  unfold cylinderSDF
  simp only [max_f_eq_max, min_f_eq_min]
  rw [max_eq_left hx, max_eq_right hy, max_eq_left (le_trans hy hx), min_eq_right hx]
  simp only [mul_zero, add_zero]
  rw [Real.sqrt_mul_self hx]

/-- Cylinder distance at the points `(-2, y, 1.75)` between the caps. -/
theorem cylDist_beside (q : vec3 ℝ) (hx : q.x = -2) (hz : q.z = 1.75)
    (hy : |q.y - 0.5| ≤ 1.5) : cylDist Real.sqrt q = 0.05 := by
  have hr : Real.sqrt ((q.x - -2.0) * (q.x - -2.0) + (q.z - 1.0) * (q.z - 1.0)) = 0.75 := by
    rw [hx, hz, show ((-2 : ℝ) - -2.0) * (-2 - -2.0) + (1.75 - 1.0) * (1.75 - 1.0)
      = 0.75 * 0.75 by norm_num, Real.sqrt_mul_self (by norm_num)]
  unfold cylDist
  rw [cylinderSDF_side _ _ _ (by simp only [sub]; rw [hr]; norm_num)
    (by simp only [sub]; linarith)]
  simp only [sub]
  rw [hr]
  norm_num

/-- The scene distance equals a value that bounds all four distances from below
and is attained by the cylinder or the plane. -/
theorem sceneSDF_fst_eq (q : vec3 ℝ) (v : ℝ) (hc : v ≤ cylDist Real.sqrt q)
    (hs : v ≤ sphDist Real.sqrt q) (hb : v ≤ boxDist Real.sqrt q) (hp : v ≤ planeSDF q)
    (hatt : cylDist Real.sqrt q = v ∨ planeSDF q = v) : (sceneSDF Real.sqrt q).1 = v := by
  apply le_antisymm
  · rcases hatt with h | h
    · rw [← h]; exact sceneSDF_le_cyl Real.sqrt q
    · rw [← h]; exact sceneSDF_le_plane Real.sqrt q
  · rw [sceneSDF_fst]
    exact le_min (le_min (le_min hc hs) hb) hp

/-- Scene distance 0.05 near `(-2,-0.95,1.75)`, where the cylinder's side and
the floor are equally near. -/
theorem sceneSDF_kink (q : vec3 ℝ) (hx : |q.x + 2| ≤ 0.01) (hz : |q.z - 1.75| ≤ 0.01) (hc : (0.05 : ℝ) ≤ cylDist Real.sqrt q)
    (hp : (0.05 : ℝ) ≤ planeSDF q)
    (hatt : cylDist Real.sqrt q = 0.05 ∨ planeSDF q = 0.05) :
    (sceneSDF Real.sqrt q).1 = 0.05 := by
  obtain ⟨hx1, hx2⟩ := abs_le.mp hx
  obtain ⟨hz1, hz2⟩ := abs_le.mp hz
  have hs := (sphDist_ge q).2.2
  have hb := (boxDist_ge q).1
  have a2 := le_abs_self (q.z + 1.5)
  have a3 := neg_le_abs (q.x - 2.2)
  exact sceneSDF_fst_eq q 0.05 hc (by norm_num at *; linarith) (by norm_num at *; linarith)
    hp hatt

/-- At `(-2,-0.95,1.75)`, outside every object, the three forward differences
of the scene distance vanish. -/
theorem getNormalRaw_kink :
    getNormalRaw Real.sqrt (⟨-2, -0.95, 1.75⟩ : vec3 ℝ) = ⟨0, 0, 0⟩ := by
  have p0 : planeSDF (⟨-2, -0.95, 1.75⟩ : vec3 ℝ) = 0.05 := by unfold planeSDF; norm_num
  have px : planeSDF (⟨-2 + 0.001, -0.95, 1.75⟩ : vec3 ℝ) = 0.05 := by
    unfold planeSDF; norm_num
  have py : (0.05 : ℝ) ≤ planeSDF (⟨-2, -0.95 + 0.001, 1.75⟩ : vec3 ℝ) := by
    unfold planeSDF; norm_num
  have pz : planeSDF (⟨-2, -0.95, 1.75 + 0.001⟩ : vec3 ℝ) = 0.05 := by
    unfold planeSDF; norm_num
  have c0 : cylDist Real.sqrt (⟨-2, -0.95, 1.75⟩ : vec3 ℝ) = 0.05 :=
    cylDist_beside _ rfl rfl (by norm_num [abs_le])
  have cy : cylDist Real.sqrt (⟨-2, -0.95 + 0.001, 1.75⟩ : vec3 ℝ) = 0.05 :=
    cylDist_beside _ rfl rfl (by norm_num [abs_le])
  have cx : (0.05 : ℝ) ≤ cylDist Real.sqrt (⟨-2 + 0.001, -0.95, 1.75⟩ : vec3 ℝ) :=
    le_trans (by norm_num [abs_div]) (cylDist_ge (⟨-2 + 0.001, -0.95, 1.75⟩ : vec3 ℝ)).2.1
  have cz : (0.05 : ℝ) ≤ cylDist Real.sqrt (⟨-2, -0.95, 1.75 + 0.001⟩ : vec3 ℝ) :=
    le_trans (by norm_num [abs_div]) (cylDist_ge (⟨-2, -0.95, 1.75 + 0.001⟩ : vec3 ℝ)).2.1
  have s0 := sceneSDF_kink (⟨-2, -0.95, 1.75⟩ : vec3 ℝ) (by norm_num [abs_le])
    (by norm_num [abs_le]) (le_of_eq c0.symm) (le_of_eq p0.symm)
    (Or.inl c0)
  have sx := sceneSDF_kink (⟨-2 + 0.001, -0.95, 1.75⟩ : vec3 ℝ) (by norm_num [abs_le])
    (by norm_num [abs_le]) cx (le_of_eq px.symm) (Or.inr px)
  have sy := sceneSDF_kink (⟨-2, -0.95 + 0.001, 1.75⟩ : vec3 ℝ) (by norm_num [abs_le])
    (by norm_num [abs_le]) (le_of_eq cy.symm) py (Or.inl cy)
  have sz := sceneSDF_kink (⟨-2, -0.95, 1.75 + 0.001⟩ : vec3 ℝ) (by norm_num [abs_le])
    (by norm_num [abs_le]) cz (le_of_eq pz.symm) (Or.inr pz)
  unfold getNormalRaw
  simp only []
  rw [s0, sx, sy, sz, sub_self]

/-- C11 fails as stated: at `(-2,-0.95,1.75)`, where the cylinder's side and the
floor are both at distance 0.05, each of the three offset samples is again at
scene distance 0.05, so the forward-difference gradient is the zero vector,
the length `norm` divides by is 0, and the result of `getNormal` is not of
unit length. -/
theorem C11_getNormal_unit_counterexample :
    (sceneSDF Real.sqrt (⟨-2, -0.95, 1.75⟩ : vec3 ℝ)).1 = 0.05
    ∧ (sceneSDF Real.sqrt (⟨-2 + 0.001, -0.95, 1.75⟩ : vec3 ℝ)).1 = 0.05
    ∧ (sceneSDF Real.sqrt (⟨-2, -0.95 + 0.001, 1.75⟩ : vec3 ℝ)).1 = 0.05
    ∧ (sceneSDF Real.sqrt (⟨-2, -0.95, 1.75 + 0.001⟩ : vec3 ℝ)).1 = 0.05
    ∧ getNormalRaw Real.sqrt (⟨-2, -0.95, 1.75⟩ : vec3 ℝ) = ⟨0, 0, 0⟩
    ∧ length_vec Real.sqrt (getNormalRaw Real.sqrt (⟨-2, -0.95, 1.75⟩ : vec3 ℝ)) = 0
    ∧ length_vec Real.sqrt (getNormal Real.sqrt (⟨-2, -0.95, 1.75⟩ : vec3 ℝ)) ≠ 1 := by
  have hraw := getNormalRaw_kink
  have h0 : (sceneSDF Real.sqrt (⟨-2, -0.95, 1.75⟩ : vec3 ℝ)).1 = 0.05 :=
    sceneSDF_kink _ (by norm_num [abs_le]) (by norm_num [abs_le])
      (le_of_eq (cylDist_beside _ rfl rfl (by norm_num [abs_le])).symm)
      (by unfold planeSDF; norm_num)
      (Or.inl (cylDist_beside _ rfl rfl (by norm_num [abs_le])))
  have hx : (getNormalRaw Real.sqrt (⟨-2, -0.95, 1.75⟩ : vec3 ℝ)).x = 0 := by rw [hraw]
  have hy : (getNormalRaw Real.sqrt (⟨-2, -0.95, 1.75⟩ : vec3 ℝ)).y = 0 := by rw [hraw]
  have hz : (getNormalRaw Real.sqrt (⟨-2, -0.95, 1.75⟩ : vec3 ℝ)).z = 0 := by rw [hraw]
  unfold getNormalRaw at hx hy hz
  simp only [] at hx hy hz
  rw [h0] at hx hy hz
  refine ⟨h0, by linarith, by linarith, by linarith, hraw, ?_, ?_⟩
  · rw [hraw]
    simp [length_vec]
  · unfold getNormal
    rw [hraw]
    simp [length_vec, norm, mul]

end ZeroGradient

section OutputText

set_option maxRecDepth 100000 in
/-- The decimal text of a byte value holds neither a newline nor a space. -/
theorem byteText_clean : ∀ n : Nat, n < 256 →
    (toString (n : Int)).data.count (Char.ofNat 10) = 0
    ∧ (toString (n : Int)).data.count (Char.ofNat 32) = 0 := by
  decide

theorem intText_clean (z : Int) (h0 : 0 ≤ z) (h1 : z ≤ 255) :
    (toString z).data.count (Char.ofNat 10) = 0
    ∧ (toString z).data.count (Char.ofNat 32) = 0 := by
  have hz : z = ((z.toNat : Nat) : Int) := (Int.toNat_of_nonneg h0).symm
  rw [hz]
  exact byteText_clean z.toNat (by omega)

theorem pixelText_count (c : Int × Int × Int)
    (h : (0 ≤ c.1 ∧ c.1 ≤ 255) ∧ (0 ≤ c.2.1 ∧ c.2.1 ≤ 255) ∧ (0 ≤ c.2.2 ∧ c.2.2 ≤ 255)) :
    (pixelText c).data.count (Char.ofNat 10) = 0
    ∧ (pixelText c).data.count (Char.ofNat 32) = 3 := by
  obtain ⟨⟨a0, a1⟩, ⟨b0, b1⟩, ⟨c0, c1⟩⟩ := h
  obtain ⟨r1, r2⟩ := intText_clean c.1 a0 a1
  obtain ⟨g1, g2⟩ := intText_clean c.2.1 b0 b1
  obtain ⟨b1', b2'⟩ := intText_clean c.2.2 c0 c1
  have s1 : (" " : String).data.count (Char.ofNat 10) = 0 := by decide
  have s2 : (" " : String).data.count (Char.ofNat 32) = 1 := by decide
  unfold pixelText
  refine ⟨?_, ?_⟩
  · simp only [String.data_append, List.count_append, r1, g1, b1', s1]
  · simp only [String.data_append, List.count_append, r2, g2, b2', s2]

/-- Character counts of the text of one row of byte triples: one newline, three
spaces per pixel. -/
theorem rowText_count (row : List (Int × Int × Int))
    (h : ∀ c ∈ row, (0 ≤ c.1 ∧ c.1 ≤ 255) ∧ (0 ≤ c.2.1 ∧ c.2.1 ≤ 255)
      ∧ (0 ≤ c.2.2 ∧ c.2.2 ≤ 255)) :
    (rowText row).data.count (Char.ofNat 10) = 1
    ∧ (rowText row).data.count (Char.ofNat 32) = 3 * row.length := by
  have n1 : ("\n" : String).data.count (Char.ofNat 10) = 1 := by decide
  have n2 : ("\n" : String).data.count (Char.ofNat 32) = 0 := by decide
  have key : ((row.map pixelText).map String.data).flatten.count (Char.ofNat 10) = 0
      ∧ ((row.map pixelText).map String.data).flatten.count (Char.ofNat 32)
          = 3 * row.length := by
    induction row with
    | nil => exact ⟨rfl, rfl⟩
    | cons c t ih =>
      obtain ⟨i1, i2⟩ := ih (fun d hd => h d (List.mem_cons_of_mem c hd))
      obtain ⟨p1, p2⟩ := pixelText_count c (h c (List.mem_cons_self c t))
      simp only [List.map_cons, List.flatten_cons, List.count_append, List.length_cons]
      rw [i1, i2, p1, p2]
      exact ⟨rfl, by ring⟩
  unfold rowText
  rw [String.data_append, String.data_join, List.count_append, List.count_append, key.1, key.2,
    n1, n2]
  exact ⟨rfl, rfl⟩

/-- Character counts of the body text: one newline per row, three spaces per
pixel. -/
theorem bodyText_count (m : Nat) (rows : List (List (Int × Int × Int)))
    (h : ∀ row ∈ rows, row.length = m ∧ ∀ c ∈ row, (0 ≤ c.1 ∧ c.1 ≤ 255)
      ∧ (0 ≤ c.2.1 ∧ c.2.1 ≤ 255) ∧ (0 ≤ c.2.2 ∧ c.2.2 ≤ 255)) :
    (String.join (rows.map rowText)).data.count (Char.ofNat 10) = rows.length
    ∧ (String.join (rows.map rowText)).data.count (Char.ofNat 32) = rows.length * (3 * m) := by
  rw [String.data_join]
  induction rows with
  | nil => exact ⟨rfl, by simp⟩
  | cons r t ih =>
    obtain ⟨i1, i2⟩ := ih (fun d hd => h d (List.mem_cons_of_mem r hd))
    obtain ⟨hl, hr⟩ := h r (List.mem_cons_self r t)
    obtain ⟨p1, p2⟩ := rowText_count r hr
    simp only [List.map_cons, List.flatten_cons, List.count_append, List.length_cons]
    rw [i1, i2, p1, p2, hl]
    exact ⟨by ring, by ring⟩

/-- Each integer of `pixelRGB` is a byte value. -/
theorem pixelRGB_byte {α : Type} [LinearOrderedField α] [FloorRing α] (sqrt tan : α → α)
    (pi : α) (x y : Int) :
    (0 ≤ (pixelRGB sqrt tan pi x y).1 ∧ (pixelRGB sqrt tan pi x y).1 ≤ 255)
    ∧ (0 ≤ (pixelRGB sqrt tan pi x y).2.1 ∧ (pixelRGB sqrt tan pi x y).2.1 ≤ 255)
    ∧ (0 ≤ (pixelRGB sqrt tan pi x y).2.2 ∧ (pixelRGB sqrt tan pi x y).2.2 ≤ 255) := by
  unfold pixelRGB
  simp only []
  obtain ⟨⟨r0, r1⟩, ⟨g0, g1⟩, ⟨b0, b1⟩⟩ := pixelColor_unit sqrt (⟨0, 1.2, 5⟩ : vec3 α)
    (norm sqrt (⟨0.5, 1, 0.5⟩ : vec3 α)) (rayDirection sqrt tan pi 60 x y)
  exact ⟨floatToInt_channel _ r0 r1, floatToInt_channel _ g0 g1, floatToInt_channel _ b0 b1⟩

theorem renderRows_mem (pix : Int → Int → Int × Int × Int)
    (row : List (Int × Int × Int)) (hrow : row ∈ renderRows pix) :
    row.length = 1920 ∧ ∀ c ∈ row, ∃ x y : Int, c = pix x y := by
  unfold renderRows at hrow
  rw [List.mem_map] at hrow
  obtain ⟨y, -, rfl⟩ := hrow
  refine ⟨by rw [List.length_map, List.length_range]; rfl, ?_⟩
  intro c hc
  rw [List.mem_map] at hc
  obtain ⟨x, -, rfl⟩ := hc
  exact ⟨x, y, rfl⟩

/-- Character counts of the whole output when every pixel is a byte triple. -/
theorem outputText_count (pix : Int → Int → Int × Int × Int)
    (h : ∀ x y : Int, (0 ≤ (pix x y).1 ∧ (pix x y).1 ≤ 255)
      ∧ (0 ≤ (pix x y).2.1 ∧ (pix x y).2.1 ≤ 255) ∧ (0 ≤ (pix x y).2.2 ∧ (pix x y).2.2 ≤ 255)) :
    (outputText pix).data.count (Char.ofNat 10) = 1083
    ∧ (outputText pix).data.count (Char.ofNat 32) = 6220801 := by
  have h1 : headerText.data.count (Char.ofNat 10) = 3 := by decide
  have h2 : headerText.data.count (Char.ofNat 32) = 1 := by decide
  obtain ⟨b1, b2⟩ := bodyText_count 1920 (renderRows pix) (fun row hrow => by
    obtain ⟨hl, hc⟩ := renderRows_mem pix row hrow
    refine ⟨hl, fun c hcm => ?_⟩
    obtain ⟨x, y, rfl⟩ := hc c hcm
    exact h x y)
  unfold outputText
  rw [String.data_append, List.count_append, List.count_append, h1, h2, b1, b2,
    renderRows_length]
  exact ⟨rfl, rfl⟩


/-- C17: the program's output is the header `P3`, `1920 1080`, `255` on three
lines followed by, for `y = 0 .. 1079` in order, the 1920 texts `r g b ` of the
pixels `x = 0 .. 1919` in order and a newline.  The text holds 1083 newlines
(3 header lines and 1080 rows) and 6220801 spaces (one in the header, three per
triple), the rows hold 1920 triples each and 2073600 together. -/
theorem C17_output_layout {α : Type} [LinearOrderedField α] [FloorRing α]
    (sqrt tan : α → α) (pi : α) :
    mainOutput sqrt tan pi
      = "P3\n1920 1080\n255\n"
        ++ String.join ((List.range 1080).map (fun (y : Nat) =>
            String.join ((List.range 1920).map (fun (x : Nat) =>
              toString (pixelRGB sqrt tan pi x y).1 ++ " "
                ++ toString (pixelRGB sqrt tan pi x y).2.1 ++ " "
                ++ toString (pixelRGB sqrt tan pi x y).2.2 ++ " "))
            ++ "\n"))
    ∧ (mainOutput sqrt tan pi).data.count (Char.ofNat 10) = 1083
    ∧ (mainOutput sqrt tan pi).data.count (Char.ofNat 32) = 6220801
    ∧ pixelText (255, 0, 12) = "255 0 12 "
    ∧ rowText [(255, 0, 12), (1, 2, 3)] = "255 0 12 1 2 3 \n"
    ∧ (renderRows (pixelRGB sqrt tan pi)).length = 1080
    ∧ (∀ row ∈ renderRows (pixelRGB sqrt tan pi), row.length = 1920)
    ∧ (∀ y x : Nat, y < 1080 → x < 1920 →
        ((renderRows (pixelRGB sqrt tan pi))[y]?.bind (fun row => row[x]?))
          = some (pixelRGB sqrt tan pi (x : Int) (y : Int)))
    ∧ ((renderRows (pixelRGB sqrt tan pi)).map List.length).sum = 2073600 := by
  obtain ⟨c1, c2⟩ := outputText_count (pixelRGB sqrt tan pi) (pixelRGB_byte sqrt tan pi)
  refine ⟨?_, c1, c2, by decide, by decide, renderRows_length _, ?_, ?_, renderRows_sum _⟩
  · unfold mainOutput outputText
    rw [headerText_eq]
    unfold renderRows
    simp only [List.map_map, Function.comp_def, rowText, pixelText, HEIGHT, WIDTH]
  · intro row hrow
    exact (renderRows_mem _ row hrow).1
  · intro y x hy hx
    rw [renderRows_row _ y hy]
    simp only [Option.some_bind]
    rw [List.getElem?_map, List.getElem?_range hx]
    rfl

/-- Witness for C17: the first pixel of the first row of the program's output
over the reals. -/
theorem C17_output_layout_witness :
    ((renderRows (pixelRGB Real.sqrt Real.tan Real.pi))[0]?.bind (fun row => row[0]?))
      = some (pixelRGB Real.sqrt Real.tan Real.pi 0 0) :=
  (C17_output_layout Real.sqrt Real.tan Real.pi).2.2.2.2.2.2.2.1 0 0 (by norm_num)
    (by norm_num)

end OutputText

end Raymarcher
